import Mathlib

/-! 3dview: the STL decoder and mesh consolidation of `main.cxx`.

A shallow embedding of the geometry engine of `src/3dview/main.cxx`.

* `float` values are kept abstract: every definition is written over a type `F` that
  carries the operations the program uses (`FloatOps F`).  The instance `F32` further
  down interprets them as IEEE-754 binary32 bit patterns, one rounding per operation.
* `std::vector` is a `List`; `unsigned int` values are natural numbers reduced
  modulo `2 ^ 32` at the places where the source narrows to `unsigned int`.
* `std::unordered_map<VertexRecord, unsigned int, Hasher>` is the list of its entries in
  insertion order; a lookup finds the entry whose key has the `Hasher` value of the key
  asked for and compares equal to it under `VertexRecord::operator==`.
* a `FILE *` is the list of bytes that remain to be read.
* statements about exact real arithmetic read the same definitions through the instance
  `FloatOps ℝ`, in which every operation is the operation of the real numbers.
-/

set_option exponentiation.threshold 100000
set_option maxRecDepth 4000

namespace View3d

/-! ## Floating point interface -/

/-- The `float` operations used by `main.cxx`.  `ofBits` reinterprets a 32-bit pattern
(as `fread` into a `float` does), `toBits` is the reverse reinterpretation
`*(unsigned int *)&f`, `ofNat` is the `int -> float` conversion, `eq` and `lt` are the C++
operators `==` and `<`, `pi` is `(float)M_PI`. -/
class FloatOps (F : Type) where
  ofBits : Nat → F
  toBits : F → Nat
  ofNat : Nat → F
  add : F → F → F
  sub : F → F → F
  mul : F → F → F
  div : F → F → F
  neg : F → F
  sqrt : F → F
  cos : F → F
  sin : F → F
  pi : F
  eq : F → F → Bool
  lt : F → F → Bool

/-- The part of the C library that `parse_real` relies on: `strtod` returns the parsed
`double` and the number of characters it consumed (the offset of `end`);
`exceeds_flt_max d` is `d > FLT_MAX || d < -FLT_MAX`; `to_float` is the cast `(float)d`. -/
class CStdlib (F : Type) where
  D : Type
  strtod : List Nat → D × Nat
  exceeds_flt_max : D → Bool
  to_float : D → F

section Generic

variable {F : Type}

/-! ## Vector, Box, VertexRecord, Record -/

/-- Mirror of `struct Vector`. -/
structure Vector (F : Type) where
  x : F
  y : F
  z : F
deriving DecidableEq

/-- Mirror of `Vector::operator==`: componentwise `==` on floats. -/
def Vector.eq [FloatOps F] (a b : Vector F) : Bool :=
  FloatOps.eq a.x b.x && FloatOps.eq a.y b.y && FloatOps.eq a.z b.z

/-- Mirror of `Vector::operator+`. -/
def Vector.add [FloatOps F] (a b : Vector F) : Vector F :=
  ⟨FloatOps.add a.x b.x, FloatOps.add a.y b.y, FloatOps.add a.z b.z⟩

/-- Mirror of `Vector::operator-` (binary). -/
def Vector.sub [FloatOps F] (a b : Vector F) : Vector F :=
  ⟨FloatOps.sub a.x b.x, FloatOps.sub a.y b.y, FloatOps.sub a.z b.z⟩

/-- Mirror of `Vector::operator-` (unary). -/
def Vector.neg [FloatOps F] (a : Vector F) : Vector F :=
  ⟨FloatOps.neg a.x, FloatOps.neg a.y, FloatOps.neg a.z⟩

/-- Mirror of `Vector::length`: `sqrtf(x * x + y * y + z * z)`. -/
def Vector.length [FloatOps F] (a : Vector F) : F :=
  FloatOps.sqrt
    (FloatOps.add (FloatOps.add (FloatOps.mul a.x a.x) (FloatOps.mul a.y a.y))
      (FloatOps.mul a.z a.z))

/-- Mirror of `Vector::operator*` (by a scalar). -/
def Vector.scale [FloatOps F] (a : Vector F) (f : F) : Vector F :=
  ⟨FloatOps.mul a.x f, FloatOps.mul a.y f, FloatOps.mul a.z f⟩

/-- Mirror of `Vector::operator/` and `operator/=` (by a scalar). -/
def Vector.divide [FloatOps F] (a : Vector F) (f : F) : Vector F :=
  ⟨FloatOps.div a.x f, FloatOps.div a.y f, FloatOps.div a.z f⟩

/-- Mirror of `Vector::normalize`: `*this /= length()`. -/
def Vector.normalize [FloatOps F] (a : Vector F) : Vector F :=
  a.divide a.length

/-- Mirror of the free function `cross`. -/
def cross [FloatOps F] (a b : Vector F) : Vector F :=
  ⟨FloatOps.sub (FloatOps.mul a.y b.z) (FloatOps.mul a.z b.y),
   FloatOps.sub (FloatOps.mul a.z b.x) (FloatOps.mul a.x b.z),
   FloatOps.sub (FloatOps.mul a.x b.y) (FloatOps.mul a.y b.x)⟩

/-- Mirror of the free function `dot`. -/
def dot [FloatOps F] (a b : Vector F) : F :=
  FloatOps.add (FloatOps.add (FloatOps.mul a.x b.x) (FloatOps.mul a.y b.y))
    (FloatOps.mul a.z b.z)

/-- Mirror of `struct Box`. -/
structure Box (F : Type) where
  xmin : F
  xmax : F
  ymin : F
  ymax : F
  zmin : F
  zmax : F
deriving DecidableEq

/-- Mirror of `struct VertexRecord`, the key type of the dedup index. -/
structure VertexRecord (F : Type) where
  point : Vector F
  normal : Vector F
deriving DecidableEq

/-- Mirror of `VertexRecord::operator==`. -/
def VertexRecord.eq [FloatOps F] (a b : VertexRecord F) : Bool :=
  Vector.eq a.point b.point && Vector.eq a.normal b.normal

/-- Mirror of `Hasher::operator()(const Vector &)`: the XOR of the bit patterns of the
three components. -/
def Hasher.vector [FloatOps F] (v : Vector F) : Nat :=
  FloatOps.toBits v.x ^^^ FloatOps.toBits v.y ^^^ FloatOps.toBits v.z

/-- Mirror of `Hasher::operator()(const VertexRecord &)`: the hash of `point`. -/
def Hasher.record [FloatOps F] (r : VertexRecord F) : Nat :=
  Hasher.vector r.point

/-- Two keys that a lookup in the dedup index identifies: the same `Hasher` value, and
equal under `VertexRecord::operator==`. -/
def VertexRecord.same_key [FloatOps F] (a b : VertexRecord F) : Bool :=
  Hasher.record a == Hasher.record b && VertexRecord.eq a b

/-- Mirror of `struct Record`, the 50-byte facet record (`normal[3]` is spelled as three
fields; `attribs` is never read and is left out). -/
structure Record (F : Type) where
  normal0 : F
  normal1 : F
  normal2 : F
  vertex1 : Vector F
  vertex2 : Vector F
  vertex3 : Vector F
deriving DecidableEq

/-! ## Mesh -/

/-- Mirror of `struct Mesh`.  `indices` lists the entries of the `unordered_map` in
insertion order.  The rendering-only members `center` and `color` are left out. -/
structure Mesh (F : Type) where
  vertices : List (Vector F)
  normals : List (Vector F)
  indices : List (VertexRecord F × Nat)
  triangles : List Nat
  edges : List Nat
  box : Box F
  box_cached : Bool
  include_in_scene_box : Bool
deriving DecidableEq

/-- A freshly constructed `Mesh`: all containers empty, `box_cached = false`,
`include_in_scene_box = true`.  The member `box` is indeterminate in the source until
`model_box` writes it; it is given the all-zero box here. -/
def Mesh.empty [FloatOps F] : Mesh F :=
  { vertices := [], normals := [], indices := [], triangles := [], edges := [],
    box := ⟨FloatOps.ofNat 0, FloatOps.ofNat 0, FloatOps.ofNat 0,
            FloatOps.ofNat 0, FloatOps.ofNat 0, FloatOps.ofNat 0⟩,
    box_cached := false, include_in_scene_box := true }

/-- The lookup `indices.find(r)` of the `unordered_map`: the entry whose key has the
`Hasher` value of `r` and compares equal to `r`.  A hash table reaches an entry through
the hash of the key asked for, so an entry whose key compares equal to `r` but hashes
differently (keys that differ in the sign of a zero coordinate of `point`) is not found;
the model takes the lookup that compares the stored hash code before the key. -/
def Mesh.find [FloatOps F] (m : Mesh F) (r : VertexRecord F) :
    Option (VertexRecord F × Nat) :=
  m.indices.find? (fun e => VertexRecord.same_key e.1 r)

/-- Mirror of `Mesh::get_index`.  Returns the index and the updated mesh.  The stored
value `(int)indices.size()` and the result `(int)vertices.size() - 1` are narrowed to
`unsigned int`. -/
def get_index [FloatOps F] (m : Mesh F) (v n : Vector F) : Nat × Mesh F :=
  let r : VertexRecord F := ⟨v, n⟩
  match m.find r with
  | some it => (it.2, m)
  | none =>
    let m1 : Mesh F := { m with box_cached := false }
    let m2 : Mesh F := { m1 with indices := m1.indices ++ [(r, m1.indices.length % 2 ^ 32)] }
    let m3 : Mesh F := { m2 with vertices := m2.vertices ++ [v] }
    let m4 : Mesh F := { m3 with normals := m3.normals ++ [n] }
    ((m4.vertices.length - 1) % 2 ^ 32, m4)

/-- Mirror of `Mesh::clear`. -/
def clear (m : Mesh F) : Mesh F :=
  { m with box_cached := false, vertices := [], normals := [], indices := [],
           triangles := [], edges := [] }

/-- The three `get_index` calls and three `push_back`s that end `read_ascii_stl`,
`read_binary_stl` and `sphere_triangle`. -/
def emit_triangle [FloatOps F] (m : Mesh F) (v1 n1 v2 n2 v3 n3 : Vector F) : Mesh F :=
  let g1 := get_index m v1 n1
  let g2 := get_index g1.2 v2 n2
  let g3 := get_index g2.2 v3 n3
  { g3.2 with triangles := g3.2.triangles ++ [g1.1, g2.1, g3.1] }

/-- The facet normal both decoders compute: `cross(vertex2 - vertex1, vertex3 - vertex1)`. -/
def facet_cross [FloatOps F] (r : Record F) : Vector F :=
  cross (r.vertex2.sub r.vertex1) (r.vertex3.sub r.vertex1)

/-- The facet insertion shared by both decoders: `n /= n.length()` followed by the three
`get_index` calls with that normal and the three `push_back`s. -/
def add_facet [FloatOps F] (m : Mesh F) (r : Record F) : Mesh F :=
  let n := facet_cross r
  let n1 := n.divide n.length
  emit_triangle m r.vertex1 n1 r.vertex2 n1 r.vertex3 n1

/-! ## ASCII decoder -/

/-- The bytes of a string literal. -/
def kw (s : String) : List Nat := s.toList.map Char.toNat

/-- The C string held by a buffer: its bytes up to the first NUL. -/
def c_str (buf : List Nat) : List Nat := buf.takeWhile (fun c => c ≠ 0)

/-- Mirror of `Mesh::read_token`: `fp` is the unread input, `token` the bytes stored so
far (`n` is its length).  Returns the buffer contents and the input left unread.  The
source never looks at `max_token`: the bytes are stored whatever the size of the caller's
buffer, which `read_ascii_loop` accounts for. -/
def read_token : List Nat → List Nat → List Nat × List Nat
  | [], token => (token, [])
  | c :: fp, token =>
    if c = 32 ∨ c = 9 ∨ c = 13 ∨ c = 10 then
      (if token = [] then read_token fp token else (token, fp))
    else read_token fp (token ++ [c])

/-- Mirror of `Mesh::parse_real` on the C string `token`: `some f` when it returns true
and stores `f`, `none` when it returns false.  The test `*end == 0` holds exactly when
`strtod` consumed the whole string. -/
def parse_real [CStdlib F] (token : List Nat) : Option F :=
  let p : CStdlib.D F × Nat := CStdlib.strtod token
  if p.2 = token.length then
    (if CStdlib.exceeds_flt_max p.1 then none else some (CStdlib.to_float p.1))
  else none

/-- The statement `if (strcmp(token, word) == 0) ++state;`. -/
def expect_word (state : Nat) (token : List Nat) (word : String) : Nat :=
  if token = kw word then state + 1 else state

/-- The statement `if (parse_real(token, &field)) ++state;`, `set` storing the field. -/
def expect_real [CStdlib F] (state : Nat) (r : Record F) (token : List Nat)
    (set : Record F → F → Record F) : Nat × Record F :=
  match parse_real token with
  | some f => (state + 1, set r f)
  | none => (state, r)

/-- The local variables of `read_ascii_stl` that live across loop iterations. -/
structure AsciiState (F : Type) where
  state : Nat
  r : Record F
  first : Bool
  mesh : Mesh F
deriving DecidableEq

/-- Outcome of one loop iteration: a `return` with its value, or the next iteration. -/
inductive Step (F : Type) where
  | ret : Bool → Mesh F → Step F
  | next : AsciiState F → Step F

/-- The `switch (state)` of `read_ascii_stl`: `none` for the `return true` at `endsolid`,
otherwise the new `state`, `r` and mesh. -/
def ascii_switch [FloatOps F] [CStdlib F] (state : Nat) (r : Record F) (m : Mesh F)
    (token : List Nat) : Option (Nat × Record F × Mesh F) :=
  match state with
  | 0 =>
    let state1 := expect_word state token "facet"
    if token = kw "endsolid" then none else some (state1, r, m)
  | 1 => some (expect_word state token "normal", r, m)
  | 2 => let p := expect_real state r token (fun r f => { r with normal0 := f }); some (p.1, p.2, m)
  | 3 => let p := expect_real state r token (fun r f => { r with normal1 := f }); some (p.1, p.2, m)
  | 4 => let p := expect_real state r token (fun r f => { r with normal2 := f }); some (p.1, p.2, m)
  | 5 => some (expect_word state token "outer", r, m)
  | 6 => some (expect_word state token "loop", r, m)
  | 7 => some (expect_word state token "vertex", r, m)
  | 8 => let p := expect_real state r token (fun r f => { r with vertex1 := { r.vertex1 with x := f } }); some (p.1, p.2, m)
  | 9 => let p := expect_real state r token (fun r f => { r with vertex1 := { r.vertex1 with y := f } }); some (p.1, p.2, m)
  | 10 => let p := expect_real state r token (fun r f => { r with vertex1 := { r.vertex1 with z := f } }); some (p.1, p.2, m)
  | 11 => some (expect_word state token "vertex", r, m)
  | 12 => let p := expect_real state r token (fun r f => { r with vertex2 := { r.vertex2 with x := f } }); some (p.1, p.2, m)
  | 13 => let p := expect_real state r token (fun r f => { r with vertex2 := { r.vertex2 with y := f } }); some (p.1, p.2, m)
  | 14 => let p := expect_real state r token (fun r f => { r with vertex2 := { r.vertex2 with z := f } }); some (p.1, p.2, m)
  | 15 => some (expect_word state token "vertex", r, m)
  | 16 => let p := expect_real state r token (fun r f => { r with vertex3 := { r.vertex3 with x := f } }); some (p.1, p.2, m)
  | 17 => let p := expect_real state r token (fun r f => { r with vertex3 := { r.vertex3 with y := f } }); some (p.1, p.2, m)
  | 18 => let p := expect_real state r token (fun r f => { r with vertex3 := { r.vertex3 with z := f } }); some (p.1, p.2, m)
  | 19 => some (expect_word state token "endloop", r, m)
  | 20 => if token = kw "endfacet" then some (0, r, add_facet m r) else some (state, r, m)
  | _ => some (state, r, m)

/-- The body of the `for (;;)` loop of `read_ascii_stl` after the token has been read and
found non-empty: the `switch`, then the test `!first && oldstate == state`. -/
def ascii_token [FloatOps F] [CStdlib F] (st : AsciiState F) (token : List Nat) : Step F :=
  match ascii_switch st.state st.r st.mesh token with
  | none => Step.ret true st.mesh
  | some (state, r, mesh) =>
    if !st.first && st.state == state then Step.ret false mesh
    else Step.next ⟨state, r, false, mesh⟩

/-- The `for (;;)` loop of `read_ascii_stl`; `fuel` bounds the number of iterations.
The token is read into the local `char token[512]`: `read_token` stores the bytes of the
run and a NUL after them, so a run of 512 bytes or more is written past the end of the
buffer.  The behaviour of the program is undefined then and the result is `none`, as it
is when the fuel runs out. -/
def read_ascii_loop [FloatOps F] [CStdlib F] :
    Nat → List Nat → AsciiState F → Option (Bool × Mesh F)
  | 0, _, _ => none
  | fuel + 1, fp, st =>
    let t := read_token fp []
    if 512 ≤ t.1.length then none
    else if c_str t.1 = [] then some (true, st.mesh)
    else
      match ascii_token st (c_str t.1) with
      | Step.ret b m => some (b, m)
      | Step.next st1 => read_ascii_loop fuel t.2 st1

/-- The contents of the local `Record r` before anything is stored in it.  It is
uninitialised in the source and every field is written before it is read; all fields are
given the value zero here. -/
def Record.blank [FloatOps F] : Record F :=
  ⟨FloatOps.ofNat 0, FloatOps.ofNat 0, FloatOps.ofNat 0,
   ⟨FloatOps.ofNat 0, FloatOps.ofNat 0, FloatOps.ofNat 0⟩,
   ⟨FloatOps.ofNat 0, FloatOps.ofNat 0, FloatOps.ofNat 0⟩,
   ⟨FloatOps.ofNat 0, FloatOps.ofNat 0, FloatOps.ofNat 0⟩⟩

/-- The initial locals of `read_ascii_stl`: `state = 0`, `first = true`. -/
def ascii_init [FloatOps F] (m : Mesh F) : AsciiState F :=
  { state := 0, r := Record.blank, first := true, mesh := m }

/-- Mirror of `Mesh::read_ascii_stl` on the input `fp` (what follows the six bytes that
`read_stl` has consumed).  Every iteration that continues consumes at least one byte, so
`fp.length + 1` iterations are enough: the result is `none` only when a run of the input
does not fit the token buffer (`read_ascii_stl_eq`). -/
def read_ascii_stl [FloatOps F] [CStdlib F] (m : Mesh F) (fp : List Nat) :
    Option (Bool × Mesh F) :=
  read_ascii_loop (fp.length + 1) fp (ascii_init m)

/-! ## Binary decoder -/

/-- Little-endian 32-bit word at offset `off` of a buffer. -/
def le32 (buf : List Nat) (off : Nat) : Nat :=
  buf.getD off 0 % 256 + 256 * (buf.getD (off + 1) 0 % 256)
    + 65536 * (buf.getD (off + 2) 0 % 256) + 16777216 * (buf.getD (off + 3) 0 % 256)

/-- The `float` stored at offset `off`. -/
def float_at [FloatOps F] (buf : List Nat) (off : Nat) : F :=
  FloatOps.ofBits (le32 buf off)

/-- The `Vector` stored at offset `off`. -/
def vector_at [FloatOps F] (buf : List Nat) (off : Nat) : Vector F :=
  ⟨float_at buf off, float_at buf (off + 4), float_at buf (off + 8)⟩

/-- The `Record` that `fread(&r, 1, 50, fp)` leaves in memory. -/
def record_of [FloatOps F] (buf : List Nat) : Record F :=
  ⟨float_at buf 0, float_at buf 4, float_at buf 8,
   vector_at buf 12, vector_at buf 24, vector_at buf 36⟩

/-- The body of the record loop of `read_binary_stl` once a full record is in `r`:
the facet is skipped when `n.length() == 0.0f`. -/
def binary_record [FloatOps F] (m : Mesh F) (r : Record F) : Mesh F :=
  if FloatOps.eq (facet_cross r).length (FloatOps.ofNat 0 : F) then m
  else add_facet m r

/-- The `for` loop of `read_binary_stl`; the first argument is `n_triangles - i`. -/
def read_binary_loop [FloatOps F] : Nat → List Nat → Mesh F → Bool × Mesh F
  | 0, _, m => (true, m)
  | k + 1, fp, m =>
    let n_read := min 50 fp.length
    if n_read = 0 then (true, m)
    else if n_read ≠ 50 then (false, m)
    else read_binary_loop k (fp.drop 50) (binary_record m (record_of (fp.take 50)))

/-- Mirror of `Mesh::read_binary_stl` on the input `fp` (what follows the 80-byte
header). -/
def read_binary_stl [FloatOps F] (m : Mesh F) (fp : List Nat) : Bool × Mesh F :=
  if fp.length < 4 then (false, m)
  else read_binary_loop (le32 fp 0) (fp.drop 4) m

/-! ## Bounding box -/

/-- One iteration of the scan in `model_box`.  As in the source, the two tests that
guard `zmin` and `zmax` compare the x component. -/
def box_step [FloatOps F] (b : Box F) (v : Vector F) : Box F :=
  let xmin := if FloatOps.lt v.x b.xmin then v.x else b.xmin
  let ymin := if FloatOps.lt v.y b.ymin then v.y else b.ymin
  let zmin := if FloatOps.lt v.x b.zmin then v.z else b.zmin
  let xmax := if FloatOps.lt b.xmax v.x then v.x else b.xmax
  let ymax := if FloatOps.lt b.ymax v.y then v.y else b.ymax
  let zmax := if FloatOps.lt b.zmax v.x then v.z else b.zmax
  ⟨xmin, xmax, ymin, ymax, zmin, zmax⟩

/-- The box that the scan of `model_box` computes from a vertex list. -/
def scan_box [FloatOps F] : List (Vector F) → Box F
  | [] => ⟨FloatOps.ofNat 0, FloatOps.ofNat 0, FloatOps.ofNat 0,
           FloatOps.ofNat 0, FloatOps.ofNat 0, FloatOps.ofNat 0⟩
  | v0 :: rest => rest.foldl box_step ⟨v0.x, v0.x, v0.y, v0.y, v0.z, v0.z⟩

/-- Mirror of `Mesh::model_box`: the returned box and the updated mesh. -/
def model_box [FloatOps F] (m : Mesh F) : Box F × Mesh F :=
  if m.box_cached then (m.box, m)
  else
    let m1 : Mesh F := { m with box_cached := true }
    let m2 : Mesh F := { m1 with box := scan_box m1.vertices }
    (m2.box, m2)

/-! ## Edge extraction -/

/-- Mirror of `Mesh::make_edge_id` on two `unsigned int` values. -/
def make_edge_id (a b : Nat) : Nat :=
  if a < b then (a * 2 ^ 32 % 2 ^ 64) ||| b else (b * 2 ^ 32 % 2 ^ 64) ||| a

/-- The body of the inner loop of `make_edges` for the side `(v1, v2)`; the state is the
set `edge_ids` and the vector `edges`. -/
def edge_step (v1 v2 : Nat) (s : List Nat × List Nat) : List Nat × List Nat :=
  let eid := make_edge_id v1 v2
  if s.1.contains eid then s else (s.1 ++ [eid], s.2 ++ [v1, v2])

/-- The outer loop of `make_edges` over the entries of `triangles` from offset `i` on,
three at a time (sides `(t[i], t[i+1])`, `(t[i+1], t[i+2])`, `(t[i+2], t[i])`).  When
fewer than three entries remain the source reads past the end; the walk stops here. -/
def make_edges_loop : List Nat → List Nat × List Nat → List Nat × List Nat
  | t0 :: t1 :: t2 :: rest, s =>
    make_edges_loop rest (edge_step t2 t0 (edge_step t1 t2 (edge_step t0 t1 s)))
  | _, s => s

/-- Mirror of `Mesh::make_edges`: starts from an empty `edge_ids` and appends to `edges`. -/
def make_edges (m : Mesh F) : Mesh F :=
  { m with edges := (make_edges_loop m.triangles ([], m.edges)).2 }

/-! ## Sphere -/

/-- Mirror of `Mesh::sphere_pt`. -/
def sphere_pt [FloatOps F] (r u v : F) : Vector F :=
  ⟨FloatOps.mul (FloatOps.mul (FloatOps.cos u) (FloatOps.sin v)) r,
   FloatOps.mul (FloatOps.cos v) r,
   FloatOps.mul (FloatOps.mul (FloatOps.sin u) (FloatOps.sin v)) r⟩

/-- Mirror of `Mesh::sphere_triangle`. -/
def sphere_triangle [FloatOps F] (m : Mesh F) (r : F) (v1 v2 v3 c : Vector F) : Mesh F :=
  let n1 := v1.divide r
  let n2 := v2.divide r
  let n3 := v3.divide r
  emit_triangle m (v1.add c) n1 (v2.add c) n2 (v3.add c) n3

/-- The body of the inner loop of `make_sphere` for the grid cell `(i, j)`. -/
def sphere_cell [FloatOps F] (r : F) (c : Vector F) (i j : Nat) (m : Mesh F) : Mesh F :=
  let startU : F := FloatOps.ofNat 0
  let startV : F := FloatOps.ofNat 0
  let endU : F := FloatOps.mul FloatOps.pi (FloatOps.ofNat 2)
  let endV : F := FloatOps.pi
  let u_steps := 32
  let v_steps := 32
  let stepU := FloatOps.div (FloatOps.sub endU startU) (FloatOps.ofNat u_steps)
  let stepV := FloatOps.div (FloatOps.sub endV startV) (FloatOps.ofNat v_steps)
  let u := FloatOps.add (FloatOps.mul (FloatOps.ofNat i) stepU) startU
  let v := FloatOps.add (FloatOps.mul (FloatOps.ofNat j) stepV) startV
  let un := if i + 1 = u_steps then endU
            else FloatOps.add (FloatOps.mul (FloatOps.ofNat (i + 1)) stepU) startU
  let vn := if j + 1 = v_steps then endV
            else FloatOps.add (FloatOps.mul (FloatOps.ofNat (j + 1)) stepV) startV
  let p0 := sphere_pt r u v
  let p1 := sphere_pt r u vn
  let p2 := sphere_pt r un v
  let p3 := sphere_pt r un vn
  sphere_triangle (sphere_triangle m r p0 p2 p1 c) r p3 p1 p2 c

/-- The nested loops of `make_sphere`: the cells of the 32 by 32 grid in order. -/
def sphere_grid [FloatOps F] (m : Mesh F) (r : F) (c : Vector F) : Mesh F :=
  (List.range 32).foldl
    (fun m i => (List.range 32).foldl (fun m j => sphere_cell r c i j m) m) m

/-- Mirror of `Mesh::make_sphere`: the grid, then `make_edges`. -/
def make_sphere [FloatOps F] (m : Mesh F) (r : F) (c : Vector F) : Mesh F :=
  make_edges (sphere_grid m r c)

end Generic

/-! ## IEEE-754 binary32

A concrete interpretation of `FloatOps`: a `float` is its 32-bit pattern and every
operation rounds once, to nearest with ties to even.  Finite magnitudes are handled as
natural numbers in units of `2 ^ (-149)` (the smallest subnormal), so that sums and
products are exact before rounding.  NaN results follow the x86 SSE convention (a NaN
operand is returned quieted, an invalid operation gives `0xFFC00000`). -/

/-- A binary32 value, given by its bit pattern. -/
structure F32 where
  bits : Nat
deriving DecidableEq, Repr

namespace F32

/-- Sign bit. -/
def sign (a : F32) : Nat := a.bits / 2 ^ 31 % 2

/-- Biased exponent field. -/
def expo (a : F32) : Nat := a.bits / 2 ^ 23 % 256

/-- Fraction field. -/
def frac (a : F32) : Nat := a.bits % 2 ^ 23

/-- Not-a-number patterns. -/
def isNaN (a : F32) : Bool := a.expo == 255 && a.frac != 0

/-- The two infinities. -/
def isInf (a : F32) : Bool := a.expo == 255 && a.frac == 0

/-- The two zeros. -/
def isZero (a : F32) : Bool := a.expo == 0 && a.frac == 0

/-- Magnitude of a finite value in units of `2 ^ (-149)`. -/
def mag (a : F32) : Nat :=
  if a.expo = 0 then a.frac else (2 ^ 23 + a.frac) * 2 ^ (a.expo - 1)

/-- Binary search for the position of the leading bit, `l` levels deep. -/
def ilog2Loop : Nat → Nat → Nat → Nat
  | 0, _, lo => lo
  | l + 1, n, lo =>
    if 2 ^ (lo + 2 ^ l) ≤ n then ilog2Loop l n (lo + 2 ^ l) else ilog2Loop l n lo

/-- Floor of the binary logarithm (of numbers below `2 ^ 65536`). -/
def ilog2 (n : Nat) : Nat := ilog2Loop 16 n 0

/-- The integer nearest to `num / den`, ties to even. -/
def rne (num den : Nat) : Nat :=
  let q := num / den
  let r := num % den
  if 2 * r < den then q
  else if den < 2 * r then q + 1
  else if q % 2 = 0 then q else q + 1

/-- Rounds `num / den` to `p` significant bits (to an integer when it is below `2 ^ p`). -/
def roundMag (p num den : Nat) : Nat :=
  let q := num / den
  if q < 2 ^ p then rne num den
  else
    let k := ilog2 q - (p - 1)
    rne num (den * 2 ^ k) * 2 ^ k

/-- Encodes a sign and an already rounded magnitude; magnitudes from `2 ^ 128` on
(`2 ^ 277` units) overflow to infinity. -/
def pack (s m : Nat) : F32 :=
  if 2 ^ 277 ≤ m then ⟨s * 2 ^ 31 + 255 * 2 ^ 23⟩
  else if m < 2 ^ 23 then ⟨s * 2 ^ 31 + m⟩
  else
    let l := ilog2 m
    ⟨s * 2 ^ 31 + (l - 22) * 2 ^ 23 + (m / 2 ^ (l - 23) - 2 ^ 23)⟩

/-- The binary32 value nearest to `(-1) ^ s * num / den` units. -/
def round (s num den : Nat) : F32 := pack s (roundMag 24 num den)

/-- Quiets a NaN. -/
def quiet (a : F32) : F32 := ⟨a.bits ||| 2 ^ 22⟩

/-- The NaN produced by an invalid operation. -/
def defaultNaN : F32 := ⟨0xFFC00000⟩

/-- Infinity of sign `s`. -/
def inf (s : Nat) : F32 := ⟨s * 2 ^ 31 + 255 * 2 ^ 23⟩

/-- Zero of sign `s`. -/
def zero (s : Nat) : F32 := ⟨s * 2 ^ 31⟩

/-- Unary minus: flips the sign bit. -/
def neg (a : F32) : F32 := ⟨a.bits ^^^ 2 ^ 31⟩

/-- Addition. -/
def add (a b : F32) : F32 :=
  if a.isNaN then quiet a
  else if b.isNaN then quiet b
  else if a.isInf then (if b.isInf && a.sign != b.sign then defaultNaN else a)
  else if b.isInf then b
  else if a.sign = b.sign then round a.sign (a.mag + b.mag) 1
  else if b.mag < a.mag then round a.sign (a.mag - b.mag) 1
  else if a.mag < b.mag then round b.sign (b.mag - a.mag) 1
  else zero 0

/-- Subtraction. -/
def sub (a b : F32) : F32 :=
  if a.isNaN then quiet a
  else if b.isNaN then quiet b
  else add a (neg b)

/-- Multiplication. -/
def mul (a b : F32) : F32 :=
  let s := (a.sign + b.sign) % 2
  if a.isNaN then quiet a
  else if b.isNaN then quiet b
  else if a.isInf || b.isInf then (if a.isZero || b.isZero then defaultNaN else inf s)
  else round s (a.mag * b.mag) (2 ^ 149)

/-- Division. -/
def div (a b : F32) : F32 :=
  let s := (a.sign + b.sign) % 2
  if a.isNaN then quiet a
  else if b.isNaN then quiet b
  else if a.isInf then (if b.isInf then defaultNaN else inf s)
  else if b.isInf then zero s
  else if b.isZero then (if a.isZero then defaultNaN else inf s)
  else round s (a.mag * 2 ^ 149) b.mag

/-- Newton iteration for the integer square root, started above the root. -/
def isqrtLoop : Nat → Nat → Nat → Nat
  | 0, _, x => x
  | fuel + 1, n, x =>
    let y := (x + n / x) / 2
    if y < x then isqrtLoop fuel n y else x

/-- Floor of the square root. -/
def isqrt (n : Nat) : Nat :=
  if n = 0 then 0 else isqrtLoop 1024 n (2 ^ (ilog2 n / 2 + 1))

/-- Square root of a positive magnitude, rounded to 24 significant bits. -/
def sqrtMag (m : Nat) : Nat :=
  let a := m * 2 ^ 149
  let r := isqrt a
  let k := ilog2 r - 23
  let f := r / 2 ^ k
  if (2 * f + 1) ^ 2 * 4 ^ (k - 1) < a then (f + 1) * 2 ^ k else f * 2 ^ k

/-- The function `sqrtf`. -/
def sqrt (a : F32) : F32 :=
  if a.isNaN then quiet a
  else if a.isZero then a
  else if a.sign = 1 then defaultNaN
  else if a.isInf then a
  else pack 0 (sqrtMag a.mag)

/-- The operator `==` on `float`: a NaN equals nothing, the two zeros are equal. -/
def eq (a b : F32) : Bool :=
  !a.isNaN && !b.isNaN && (a.bits == b.bits || (a.isZero && b.isZero))

/-- The operator `<` on `float`. -/
def lt (a b : F32) : Bool :=
  !a.isNaN && !b.isNaN &&
    (if a.sign = 0 then b.sign == 0 && a.bits % 2 ^ 31 < b.bits % 2 ^ 31
     else if b.sign = 0 then !(a.isZero && b.isZero)
     else b.bits % 2 ^ 31 < a.bits % 2 ^ 31)

/-- Conversion of a non-negative `int`. -/
def ofNat (n : Nat) : F32 := round 0 (n * 2 ^ 149) 1

/-- The number `2 * pi * 10 ^ 100`, truncated. -/
def twoPiE100 : Nat :=
  2 * 31415926535897932384626433832795028841971693993751058209749445923078164062862089986280348253421170679

/-- Partial sums of the cosine and sine series of `x / 2 ^ 200`, scaled by `2 ^ 200`;
`t` is the current term `x ^ k / k!`. -/
def taylorLoop : Nat → Nat → Int → Int → Int → Int → Int × Int
  | 0, _, _, _, c, s => (c, s)
  | fuel + 1, k, x, t, c, s =>
    let sgn : Int := if k / 2 % 2 = 0 then 1 else -1
    let c1 := if k % 2 = 0 then c + sgn * t else c
    let s1 := if k % 2 = 1 then s + sgn * t else s
    taylorLoop fuel (k + 1) x (t * x / (2 ^ 200 * ((k : Int) + 1))) c1 s1

/-- Cosine and sine of a finite value, scaled by `2 ^ 200`: the argument is reduced
modulo `2 * pi` into `[-pi, pi)` and the series are summed to 60 terms. -/
def cosSin (a : F32) : Int × Int :=
  let r := (a.mag * 10 ^ 100) % (twoPiE100 * 2 ^ 149)
  let x0 : Int := ((r * 2 ^ 200) / (2 ^ 149 * 10 ^ 100) : Nat)
  let twoPi : Int := ((twoPiE100 * 2 ^ 200) / 10 ^ 100 : Nat)
  let x := if 2 * x0 ≥ twoPi then x0 - twoPi else x0
  let cs := taylorLoop 60 0 x (2 ^ 200) 0 0
  (cs.1, if a.sign = 1 then -cs.2 else cs.2)

/-- Rounds a value scaled by `2 ^ 200`. -/
def ofScaled (v : Int) : F32 :=
  round (if v < 0 then 1 else 0) (v.natAbs * 2 ^ 149) (2 ^ 200)

/-- The function `cosf`, computed to within one unit in the last place of the exact
value (the C library is not required to do better). -/
def cos (a : F32) : F32 :=
  if a.isNaN then quiet a else if a.isInf then defaultNaN else ofScaled (cosSin a).1

/-- The function `sinf`, with the same accuracy as `cos`. -/
def sin (a : F32) : F32 :=
  if a.isNaN then quiet a else if a.isInf then defaultNaN
  else if a.isZero then a else ofScaled (cosSin a).2

end F32

instance : FloatOps F32 where
  ofBits b := ⟨b % 2 ^ 32⟩
  toBits a := a.bits % 2 ^ 32
  ofNat := F32.ofNat
  add := F32.add
  sub := F32.sub
  mul := F32.mul
  div := F32.div
  neg := F32.neg
  sqrt := F32.sqrt
  cos := F32.cos
  sin := F32.sin
  pi := ⟨0x40490FDB⟩
  eq := F32.eq
  lt := F32.lt

/-! ## A `strtod` for decimal literals

The instance of `CStdlib` used to evaluate the decoder on concrete files.  It converts
`[ws][sign]digits[.digits][e[sign]digits]` and rounds once to binary64; the hexadecimal,
`inf` and `nan` forms that the C library also accepts are not converted (no character is
consumed for them). -/

/-- A binary64 value as sign and magnitude in units of `2 ^ (-1074)`; magnitudes from
`2 ^ 2098` on stand for infinity. -/
structure F64 where
  sign : Nat
  mag : Nat
deriving DecidableEq, Repr

/-- Reads a run of decimal digits: the accumulated value, the number of digits read,
and the remaining characters. -/
def takeDigits : List Nat → Nat → Nat → Nat × Nat × List Nat
  | [], v, n => (v, n, [])
  | c :: cs, v, n =>
    if 48 ≤ c ∧ c ≤ 57 then takeDigits cs (10 * v + (c - 48)) (n + 1) else (v, n, c :: cs)

/-- The exponent part `e[sign]digits`: `(negative, value, characters consumed)`; nothing
is consumed unless at least one digit follows. -/
def takeExponent : List Nat → Bool × Nat × Nat
  | c :: cs =>
    if c = 101 ∨ c = 69 then
      match cs with
      | d :: ds =>
        if d = 43 ∨ d = 45 then
          let r := takeDigits ds 0 0
          if r.2.1 = 0 then (false, 0, 0) else (d = 45, r.1, r.2.1 + 2)
        else
          let r := takeDigits (d :: ds) 0 0
          if r.2.1 = 0 then (false, 0, 0) else (false, r.1, r.2.1 + 1)
      | [] => (false, 0, 0)
    else (false, 0, 0)
  | [] => (false, 0, 0)

/-- Rounds `m * 10 ^ e` (with `e = ep - en`) to binary64. -/
def decimalToF64 (s m ep en digits : Nat) : F64 :=
  if m = 0 then ⟨s, 0⟩
  else if en ≤ ep then
    (if 400 < ep - en then ⟨s, 2 ^ 2098⟩
     else ⟨s, F32.roundMag 53 (m * 10 ^ (ep - en) * 2 ^ 1074) 1⟩)
  else if digits + 400 < en - ep then ⟨s, 0⟩
  else ⟨s, F32.roundMag 53 (m * 2 ^ 1074) (10 ^ (en - ep))⟩

/-- Decimal `strtod` on a C string: the value and the number of characters consumed. -/
def strtodDecimal (tok : List Nat) : F64 × Nat :=
  let ws := tok.takeWhile (fun c => c = 32 ∨ (9 ≤ c ∧ c ≤ 13))
  let s1 := tok.drop ws.length
  let sgn : Nat := if s1.head? = some 45 then 1 else 0
  let s2 := if s1.head? = some 45 ∨ s1.head? = some 43 then s1.drop 1 else s1
  let ip := takeDigits s2 0 0
  let fp := if ip.2.2.head? = some 46 then takeDigits (ip.2.2.drop 1) ip.1 0
            else (ip.1, 0, ip.2.2)
  let dot : Nat := if ip.2.2.head? = some 46 then 1 else 0
  if ip.2.1 + fp.2.1 = 0 then (⟨0, 0⟩, 0)
  else
    let ex := takeExponent fp.2.2
    let en := if ex.1 then ex.2.1 + fp.2.1 else fp.2.1
    let ep := if ex.1 then 0 else ex.2.1
    (decimalToF64 sgn fp.1 ep en (ip.2.1 + fp.2.1),
     ws.length + (s1.length - s2.length) + ip.2.1 + dot + fp.2.1 + ex.2.2)

instance : CStdlib F32 where
  D := F64
  strtod := strtodDecimal
  exceeds_flt_max d := (2 ^ 24 - 1) * 2 ^ 253 * 2 ^ 925 < d.mag
  to_float d := F32.round d.sign d.mag (2 ^ 925)

/-! ## Example inputs -/

/-- The vertex `(0, 0, 0)`. -/
def origin : Vector F32 := ⟨⟨0⟩, ⟨0⟩, ⟨0⟩⟩

/-- The vertex `(1, 0, 0)`. -/
def unitX : Vector F32 := ⟨⟨0x3F800000⟩, ⟨0⟩, ⟨0⟩⟩

/-- The vertex `(0, 1, 0)`. -/
def unitY : Vector F32 := ⟨⟨0⟩, ⟨0x3F800000⟩, ⟨0⟩⟩

/-- The vertex `(0, 0, 1)`. -/
def unitZ : Vector F32 := ⟨⟨0⟩, ⟨0⟩, ⟨0x3F800000⟩⟩

section Sequences

variable {F : Type}

/-- The slots of a mesh: `vertices[i]` paired with `normals[i]`. -/
def Mesh.slots (m : Mesh F) : List (VertexRecord F) :=
  List.zipWith VertexRecord.mk m.vertices m.normals

end Sequences

/-- A NaN, as `0.0f / 0.0f` produces it. -/
def nanValue : F32 := ⟨0xFFC00000⟩

/-- The normal that `n /= n.length()` yields for a zero cross product. -/
def nanNormal : Vector F32 := ⟨nanValue, nanValue, nanValue⟩

section Grammar

variable {F : Type}

/-- The tokens that the successive `read_token` calls of `read_ascii_stl` hand to the
state machine: the C strings returned, up to the first empty one. -/
def token_stream : Nat → List Nat → List (List Nat)
  | 0, _ => []
  | fuel + 1, fp =>
    let t := read_token fp []
    if c_str t.1 = [] then [] else c_str t.1 :: token_stream fuel t.2

/-- The token stream of an input. -/
def tokens (fp : List Nat) : List (List Nat) := token_stream (fp.length + 1) fp

/-- The loop of `read_ascii_stl` run on a list of tokens; the end of the list is the
empty token (`break`, then `return true`). -/
def ascii_run [FloatOps F] [CStdlib F] : List (List Nat) → AsciiState F → Bool × Mesh F
  | [], st => (true, st.mesh)
  | t :: ts, st =>
    match ascii_token st t with
    | Step.ret b m => (b, m)
    | Step.next st1 => ascii_run ts st1

/-- The locals of `read_ascii_stl` after the tokens `ts` have been processed, when the
loop is still running then. -/
def ascii_after [FloatOps F] [CStdlib F] :
    List (List Nat) → AsciiState F → Option (AsciiState F)
  | [], st => some st
  | t :: ts, st =>
    match ascii_token st t with
    | Step.ret _ _ => none
    | Step.next st1 => ascii_after ts st1

/-- One position of the facet grammar: a literal word, or a real stored in a field. -/
inductive Slot (F : Type) where
  | word : String → Slot F
  | real : (Record F → F → Record F) → Slot F

/-- The literal sequence `facet normal nx ny nz outer loop vertex x y z vertex x y z
vertex x y z endloop endfacet`. -/
def facet_grammar : List (Slot F) :=
  [Slot.word "facet", Slot.word "normal",
   Slot.real (fun r f => { r with normal0 := f }),
   Slot.real (fun r f => { r with normal1 := f }),
   Slot.real (fun r f => { r with normal2 := f }),
   Slot.word "outer", Slot.word "loop",
   Slot.word "vertex",
   Slot.real (fun r f => { r with vertex1 := { r.vertex1 with x := f } }),
   Slot.real (fun r f => { r with vertex1 := { r.vertex1 with y := f } }),
   Slot.real (fun r f => { r with vertex1 := { r.vertex1 with z := f } }),
   Slot.word "vertex",
   Slot.real (fun r f => { r with vertex2 := { r.vertex2 with x := f } }),
   Slot.real (fun r f => { r with vertex2 := { r.vertex2 with y := f } }),
   Slot.real (fun r f => { r with vertex2 := { r.vertex2 with z := f } }),
   Slot.word "vertex",
   Slot.real (fun r f => { r with vertex3 := { r.vertex3 with x := f } }),
   Slot.real (fun r f => { r with vertex3 := { r.vertex3 with y := f } }),
   Slot.real (fun r f => { r with vertex3 := { r.vertex3 with z := f } }),
   Slot.word "endloop", Slot.word "endfacet"]

/-- Matches one token against one position of the grammar. -/
def slot_match [CStdlib F] (s : Slot F) (t : List Nat) (r : Record F) : Option (Record F) :=
  match s with
  | Slot.word w => if t = kw w then some r else none
  | Slot.real set =>
    match parse_real t with
    | some f => some (set r f)
    | none => none

/-- Matches a sequence of positions against the head of a token list: the record read
and the tokens that follow. -/
def match_slots [CStdlib F] :
    List (Slot F) → List (List Nat) → Record F → Option (Record F × List (List Nat))
  | [], ts, r => some (r, ts)
  | _ :: _, [], _ => none
  | s :: ss, t :: ts, r =>
    match slot_match s t r with
    | some r1 => match_slots ss ts r1
    | none => none

/-- The complete facets at the head of a token list: facets are matched one after the
other until the tokens stop following the grammar.  `fuel` bounds the number of facets;
the length of the token list is enough. -/
def parse_facets [CStdlib F] : Nat → List (List Nat) → Record F → List (Record F)
  | 0, _, _ => []
  | fuel + 1, ts, r =>
    match match_slots facet_grammar ts r with
    | some (r1, rest) => r1 :: parse_facets fuel rest r1
    | none => []

/-- The complete facets of a token stream that precede the point where decoding stops.
A first token other than `facet` is the solid name and is passed over, unless it is
`endsolid`, which ends the decoding. -/
def ascii_facets [FloatOps F] [CStdlib F] (ts : List (List Nat)) : List (Record F) :=
  match ts with
  | [] => []
  | t :: rest =>
    if t = kw "facet" then parse_facets ts.length ts Record.blank
    else if t = kw "endsolid" then []
    else parse_facets rest.length rest Record.blank

/-- Inserts a list of facets in order. -/
def add_facets [FloatOps F] (m : Mesh F) (rs : List (Record F)) : Mesh F :=
  rs.foldl add_facet m

/-- The twelve numeric tokens of one facet of an ASCII file. -/
structure FacetText where
  n0 : List Nat
  n1 : List Nat
  n2 : List Nat
  x1 : List Nat
  y1 : List Nat
  z1 : List Nat
  x2 : List Nat
  y2 : List Nat
  z2 : List Nat
  x3 : List Nat
  y3 : List Nat
  z3 : List Nat

/-- The spelling of a facet: `facet normal r r r outer loop vertex r r r vertex r r r
vertex r r r endloop endfacet`. -/
def FacetText.tokens (ft : FacetText) : List (List Nat) :=
  [kw "facet", kw "normal", ft.n0, ft.n1, ft.n2, kw "outer", kw "loop",
   kw "vertex", ft.x1, ft.y1, ft.z1, kw "vertex", ft.x2, ft.y2, ft.z2,
   kw "vertex", ft.x3, ft.y3, ft.z3, kw "endloop", kw "endfacet"]

/-- Every numeric token of the facet is a parsable real, and `r` holds the values. -/
def FacetText.parses [CStdlib F] (ft : FacetText) (r : Record F) : Prop :=
  parse_real ft.n0 = some r.normal0 ∧ parse_real ft.n1 = some r.normal1 ∧
  parse_real ft.n2 = some r.normal2 ∧
  parse_real ft.x1 = some r.vertex1.x ∧ parse_real ft.y1 = some r.vertex1.y ∧
  parse_real ft.z1 = some r.vertex1.z ∧
  parse_real ft.x2 = some r.vertex2.x ∧ parse_real ft.y2 = some r.vertex2.y ∧
  parse_real ft.z2 = some r.vertex2.z ∧
  parse_real ft.x3 = some r.vertex3.x ∧ parse_real ft.y3 = some r.vertex3.y ∧
  parse_real ft.z3 = some r.vertex3.z

/-- The complete records at the head of a binary input: at most `k` of them. -/
def chunk_records [FloatOps F] : Nat → List Nat → List (Record F)
  | 0, _ => []
  | k + 1, fp =>
    if fp.length < 50 then []
    else record_of (fp.take 50) :: chunk_records k (fp.drop 50)

/-- A facet whose cross product has zero length: `n.length() == 0.0f`. -/
def degenerate [FloatOps F] (r : Record F) : Bool :=
  FloatOps.eq (facet_cross r).length (FloatOps.ofNat 0 : F)

end Grammar

/-! ## Invariants of the mesh -/

section Invariants

variable {F : Type}

/-- The size invariant: `vertices.size() == normals.size() == size of the dedup index`. -/
def SizesOk (m : Mesh F) : Prop :=
  m.vertices.length = m.normals.length ∧ m.normals.length = m.indices.length

/-- Every value stored in the dedup index and every entry of `triangles` is below
`vertices.size()`, and `triangles` holds whole triples. -/
def InRange (m : Mesh F) : Prop :=
  (∀ e ∈ m.indices, e.2 < m.vertices.length) ∧
  (∀ t ∈ m.triangles, t < m.vertices.length) ∧
  m.triangles.length % 3 = 0

/-- The index invariant of a populated mesh: `triangles` holds whole triples, `edges`
whole pairs, and every entry of either is below `vertices.size()`. -/
def WellIndexed (m : Mesh F) : Prop :=
  m.triangles.length % 3 = 0 ∧ m.edges.length % 2 = 0 ∧
  (∀ t ∈ m.triangles, t < m.vertices.length) ∧
  (∀ e ∈ m.edges, e < m.vertices.length)

/-- What an operation that only inserts triangles keeps: the size invariant, the index
ranges, the edge list, and what `vertices`, `normals` and `triangles` held before, as a
prefix of what they hold after. -/
structure Keeps (m m' : Mesh F) : Prop where
  sizes : SizesOk m → SizesOk m'
  range : SizesOk m → InRange m → InRange m'
  edges : m'.edges = m.edges
  vertices : m.vertices <+: m'.vertices
  normals : m.normals <+: m'.normals
  triangles : m.triangles <+: m'.triangles

end Invariants

/-! ## Example files -/

/-- An ASCII file (after the leading `solid `) with a solid name and one facet. -/
def asciiOne : List Nat :=
  kw "name\nfacet normal 0 0 0\n outer loop\n  vertex 0 0 0\n  vertex 1 0 0\n  vertex 0 1 0\n endloop\nendfacet\nendsolid name\n"

/-- The numeric tokens of the facet of `asciiOne`. -/
def facetOneText : FacetText :=
  { n0 := kw "0", n1 := kw "0", n2 := kw "0",
    x1 := kw "0", y1 := kw "0", z1 := kw "0",
    x2 := kw "1", y2 := kw "0", z2 := kw "0",
    x3 := kw "0", y3 := kw "1", z3 := kw "0" }

/-- The record of the facet of `asciiOne`: stored normal zero, vertices `origin`,
`unitX`, `unitY`. -/
def facetOne : Record F32 := ⟨⟨0⟩, ⟨0⟩, ⟨0⟩, origin, unitX, unitY⟩

/-- An ASCII file whose only facet has three coinciding vertices. -/
def asciiDegen : List Nat :=
  kw "name\nfacet normal 0 0 0\n outer loop\n  vertex 0 0 0\n  vertex 0 0 0\n  vertex 0 0 0\n endloop\nendfacet\nendsolid name\n"

/-- The record of the facet of `asciiDegen`. -/
def facetDegen : Record F32 := ⟨⟨0⟩, ⟨0⟩, ⟨0⟩, origin, origin, origin⟩

/-- An ASCII input with an unparsable number in the first facet. -/
def asciiBad : List Nat := kw "name facet normal x 0 0 outer loop"

/-- The locals of `read_ascii_stl` on `asciiBad` when the token `x` is read. -/
def asciiBadState : AsciiState F32 :=
  { state := 2, r := Record.blank, first := false, mesh := Mesh.empty }

/-- The 50 bytes of the binary record of `facetOne`. -/
def binRecordOne : List Nat :=
  [0, 0, 0, 0, 0, 0, 0, 0, 0, 0, 0, 0,
   0, 0, 0, 0, 0, 0, 0, 0, 0, 0, 0, 0,
   0, 0, 128, 63, 0, 0, 0, 0, 0, 0, 0, 0,
   0, 0, 0, 0, 0, 0, 128, 63, 0, 0, 0, 0,
   0, 0]

/-- A binary file (after the 80-byte header) that declares two facets: `facetOne` and
`facetDegen`. -/
def binTwo : List Nat := [2, 0, 0, 0] ++ binRecordOne ++ List.replicate 50 0

/-- A binary file (after the header) whose only facet is `facetDegen`. -/
def binDegen : List Nat := [1, 0, 0, 0] ++ List.replicate 50 0

/-! ## Sequences of operations on a mesh -/

section MeshOps

variable {F : Type}

/-- The operations on a mesh that touch the bounding-box cache. -/
inductive MeshOp (F : Type) where
  | get_index : Vector F → Vector F → MeshOp F
  | clear : MeshOp F
  | model_box : MeshOp F

/-- The mesh after one operation (the value returned by the operation is dropped). -/
def MeshOp.apply [FloatOps F] (m : Mesh F) : MeshOp F → Mesh F
  | MeshOp.get_index v n => (View3d.get_index m v n).2
  | MeshOp.clear => View3d.clear m
  | MeshOp.model_box => (View3d.model_box m).2

/-- The mesh after a sequence of operations. -/
def run_ops [FloatOps F] (m : Mesh F) (ops : List (MeshOp F)) : Mesh F :=
  ops.foldl MeshOp.apply m

end MeshOps

/-- A mesh with the two vertices `(0, 0, 0)` and `(0, 0, 1)`, box not cached. -/
def twoVertexMesh : Mesh F32 :=
  (get_index (get_index (Mesh.empty : Mesh F32) origin unitZ).2 unitZ unitZ).2

/-! ## The edges of a triangle list -/

/-- The sides of the triangles of an index list, in the order `make_edges` visits them:
`(i0, i1)`, `(i1, i2)`, `(i2, i0)` for each triangle. -/
def sides : List Nat → List (Nat × Nat)
  | t0 :: t1 :: t2 :: rest => (t0, t1) :: (t1, t2) :: (t2, t0) :: sides rest
  | _ => []

/-- Two index pairs are the same undirected edge. -/
def same_edge (p q : Nat × Nat) : Bool :=
  (p.1 == q.1 && p.2 == q.2) || (p.1 == q.2 && p.2 == q.1)

/-- Each undirected edge once, in order of first appearance: a side is kept, as it is
written, when no side kept before it is the same undirected edge. -/
def first_sides : List (Nat × Nat) → List (Nat × Nat) → List (Nat × Nat)
  | [], kept => kept
  | p :: ps, kept =>
    if kept.any (fun q => same_edge q p) then first_sides ps kept
    else first_sides ps (kept ++ [p])

/-- The index pairs stored in `edges`. -/
def edge_pairs : List Nat → List (Nat × Nat)
  | a :: b :: rest => (a, b) :: edge_pairs rest
  | _ => []

/-- The vector `edges` that stores a list of index pairs. -/
def flat_pairs : List (Nat × Nat) → List Nat
  | [] => []
  | p :: ps => p.1 :: p.2 :: flat_pairs ps

/-- A mesh that holds the triangle index list `ts` and no edges. -/
def mesh_of_triangles (ts : List Nat) : Mesh F32 :=
  { (Mesh.empty : Mesh F32) with triangles := ts }

/-- The value `1.0f`. -/
def one32 : F32 := ⟨0x3F800000⟩

/-! ## Inputs that differ in the stored normals -/

section StoredNormal

variable {F : Type}

/-- Two records hold the same three vertices. -/
def same_vertices (r r' : Record F) : Prop :=
  r.vertex1 = r'.vertex1 ∧ r.vertex2 = r'.vertex2 ∧ r.vertex3 = r'.vertex3

/-- Byte `i` of a binary input (after the 80-byte header) lies in the field `normal` of
a record: the count takes 4 bytes, every record 50, the normal the first 12 of them. -/
def normal_byte (i : Nat) : Bool := decide (4 ≤ i ∧ (i - 4) % 50 < 12)

/-- Token `i` of `ts` is read as a component of the stored normal: after the tokens
before it the loop is still running, in state 2, 3 or 4. -/
def normal_token [FloatOps F] [CStdlib F] (st : AsciiState F) (ts : List (List Nat))
    (i : Nat) : Bool :=
  match ascii_after (ts.take i) st with
  | some s => s.state == 2 || s.state == 3 || s.state == 4
  | none => false

/-- Two sets of locals of `read_ascii_stl` that agree except for the stored normal. -/
def same_locals (st st' : AsciiState F) : Prop :=
  st.state = st'.state ∧ st.state ≤ 20 ∧ st.first = st'.first ∧ st.mesh = st'.mesh ∧
    same_vertices st.r st'.r

/-- Two outcomes of a loop iteration that agree except for the stored normal. -/
def Step.same : Step F → Step F → Prop
  | Step.ret b m, Step.ret b' m' => b = b' ∧ m = m'
  | Step.next s, Step.next s' => same_locals s s'
  | _, _ => False

end StoredNormal

/-- The file `binTwo` with the stored normal of its first record set to `(0, 0, 1)`. -/
def binTwoNormal : List Nat :=
  [2, 0, 0, 0] ++ ([0, 0, 0, 0, 0, 0, 0, 0, 0, 0, 128, 63] ++ binRecordOne.drop 12)
    ++ List.replicate 50 0

/-- The file `asciiOne` with the stored normal `0 0 1` in place of `0 0 0`. -/
def asciiOneNormal : List Nat :=
  kw "name\nfacet normal 0 0 1\n outer loop\n  vertex 0 0 0\n  vertex 1 0 0\n  vertex 0 1 0\n endloop\nendfacet\nendsolid name\n"

/-! ## Picking: `fire_line` -/

/-- The operations of `fire_line` beyond `FloatOps`: the function `fabs`, and the
acceptance comparison `x < a * 1e-6`, in which `a` is converted to `double` and
multiplied by the `double` constant `1e-6`, and `x` is compared with the product. -/
class PickOps (F : Type) where
  fabs : F → F
  lt_scaled : F → F → Bool

section Picking

variable {F : Type}

/-- Mirror of `struct Ray`. -/
structure Ray (F : Type) where
  pt : Vector F
  dir : Vector F
deriving DecidableEq

/-- The locals `first`, `dist` and `nearest` of `fire_line`. -/
structure Pick (F : Type) where
  first : Bool
  dist : F
  nearest : Vector F
deriving DecidableEq

/-- The vector `(0, 0, 0)`. -/
def Vector.zero [FloatOps F] : Vector F :=
  ⟨FloatOps.ofNat 0, FloatOps.ofNat 0, FloatOps.ofNat 0⟩

/-- The local `s` of `fire_line` for the triangle with corners `v0`, `v1`, `v2`:
`dot(triNorm, ray.pt - v0) / dot(triNorm, ray.dir)`, `triNorm` being
`cross(side1, side2).normalize()`. -/
def tri_param [FloatOps F] (ray : Ray F) (v0 v1 v2 : Vector F) : F :=
  let side1 := v1.sub v0
  let side2 := v2.sub v0
  let triNorm := (cross side1 side2).normalize
  let d := dot triNorm ray.dir
  let w := ray.pt.sub v0
  FloatOps.div (dot triNorm w) d

/-- The local `intx` of `fire_line`: `ray.pt - ray.dir * s`. -/
def tri_point [FloatOps F] (ray : Ray F) (v0 v1 v2 : Vector F) : Vector F :=
  ray.pt.sub (ray.dir.scale (tri_param ray v0 v1 v2))

/-- The acceptance test of `fire_line`:
`fabs(atot - ax1 - ax2 - ax3) < atot * 1e-6`. -/
def tri_accept [FloatOps F] [PickOps F] (ray : Ray F) (v0 v1 v2 : Vector F) : Bool :=
  let side1 := v1.sub v0
  let side2 := v2.sub v0
  let intx := tri_point ray v0 v1 v2
  let two : F := FloatOps.ofNat 2
  let atot := FloatOps.div (cross side1 side2).length two
  let ax1 := FloatOps.div (cross (intx.sub v0) side2).length two
  let ax2 := FloatOps.div (cross (intx.sub v1) side1.neg).length two
  let ax3 := FloatOps.div (cross (intx.sub v2) (v1.sub v2)).length two
  PickOps.lt_scaled
    (PickOps.fabs (FloatOps.sub (FloatOps.sub (FloatOps.sub atot ax1) ax2) ax3)) atot

/-- What `fire_line` does with an accepted hit: the first one is taken, a later one
replaces the current one when `s > dist`. -/
def pick_hit [FloatOps F] (st : Pick F) (s : F) (intx : Vector F) : Pick F :=
  if st.first then { first := false, dist := s, nearest := intx }
  else if FloatOps.lt st.dist s then { st with dist := s, nearest := intx }
  else st

/-- The body of the triangle loop of `fire_line` for one triangle. -/
def fire_triangle [FloatOps F] [PickOps F] (ray : Ray F) (st : Pick F)
    (v0 v1 v2 : Vector F) : Pick F :=
  if tri_accept ray v0 v1 v2 then
    pick_hit st (tri_param ray v0 v1 v2) (tri_point ray v0 v1 v2)
  else st

/-- The triangle loop of `fire_line` over the entries of `triangles`, three at a time.
The source indexes `vertices` and `triangles` through raw pointers: an index outside
`vertices`, or fewer than three entries left, is a read out of bounds there.  Here an
index out of range reads `(0, 0, 0)` and the walk stops at an incomplete triple. -/
def fire_triangles [FloatOps F] [PickOps F] (ray : Ray F) (vertices : List (Vector F)) :
    List Nat → Pick F → Pick F
  | t0 :: t1 :: t2 :: rest, st =>
    fire_triangles ray vertices rest
      (fire_triangle ray st (vertices.getD t0 Vector.zero) (vertices.getD t1 Vector.zero)
        (vertices.getD t2 Vector.zero))
  | _, st => st

/-- The body of the loop over `objects`. -/
def fire_mesh [FloatOps F] [PickOps F] (ray : Ray F) (st : Pick F) (m : Mesh F) : Pick F :=
  if !m.include_in_scene_box then st
  else fire_triangles ray m.vertices m.triangles st

/-- Mirror of `Scene::fire_line`: the returned `bool` and the value of the reference
parameter `v` afterwards.  `dist` starts as `FLT_MAX`; `nearest` is uninitialised in the
source until the first hit and starts as the zero vector here. -/
def fire_line [FloatOps F] [PickOps F] (objects : List (Mesh F)) (ray : Ray F)
    (v : Vector F) : Bool × Vector F :=
  let st := objects.foldl (fire_mesh ray)
    { first := true, dist := FloatOps.ofBits 0x7F7FFFFF, nearest := Vector.zero }
  if st.first then (false, v) else (true, st.nearest)

/-- The corner triples of the triangles of an index list, in the order of the loop. -/
def corners [FloatOps F] (vertices : List (Vector F)) :
    List Nat → List (Vector F × Vector F × Vector F)
  | t0 :: t1 :: t2 :: rest =>
    (vertices.getD t0 Vector.zero, vertices.getD t1 Vector.zero,
      vertices.getD t2 Vector.zero) :: corners vertices rest
  | _ => []

/-- The triangles of the meshes flagged `include_in_scene_box`, in mesh-then-triangle
order. -/
def scene_corners [FloatOps F] (objects : List (Mesh F)) :
    List (Vector F × Vector F × Vector F) :=
  ((objects.filter (fun m => m.include_in_scene_box)).map
    (fun m => corners m.vertices m.triangles)).flatten

/-- The triangles that pass the acceptance test, in the same order. -/
def accepted [FloatOps F] [PickOps F] (ray : Ray F)
    (cs : List (Vector F × Vector F × Vector F)) : List (Vector F × Vector F × Vector F) :=
  cs.filter (fun c => tri_accept ray c.1 c.2.1 c.2.2)

end Picking

/-! ## `double` arithmetic for the acceptance test -/

/-- The `double` constant `1e-6`. -/
def F64.micro : F64 := decimalToF64 0 1 0 6 1

/-- The product of two `double` values, neither a NaN nor a zero next to an infinity. -/
def F64.mul (a b : F64) : F64 :=
  ⟨(a.sign + b.sign) % 2,
   if 2 ^ 2098 ≤ a.mag ∨ 2 ^ 2098 ≤ b.mag then 2 ^ 2098
   else F32.roundMag 53 (a.mag * b.mag) (2 ^ 1074)⟩

/-- The value of a `double` as a signed number of units, infinity being `2 ^ 2098`. -/
def F64.val (a : F64) : Int :=
  if a.sign = 1 then -((min a.mag (2 ^ 2098) : Nat) : Int) else ((min a.mag (2 ^ 2098) : Nat) : Int)

/-- The operator `<` on `double` values that are not NaN. -/
def F64.lt (a b : F64) : Bool := decide (a.val < b.val)

/-- The function `fabs`: clears the sign bit. -/
def F32.fabs (a : F32) : F32 := ⟨a.bits % 2 ^ 31⟩

/-- The conversion `float -> double` of a value that is not a NaN; it is exact. -/
def F32.toDouble (a : F32) : F64 :=
  ⟨a.sign, if a.isInf then 2 ^ 2098 else a.mag * 2 ^ 925⟩

/-- The comparison `x < a * 1e-6`, evaluated in `double`; false when `x` or `a` is a NaN. -/
def F32.lt_scaled (x a : F32) : Bool :=
  !x.isNaN && !a.isNaN && F64.lt x.toDouble (F64.mul a.toDouble F64.micro)

instance : PickOps F32 where
  fabs := F32.fabs
  lt_scaled := F32.lt_scaled

/-- A ray from the origin along `+z`. -/
def rayZ : Ray F32 := ⟨origin, unitZ⟩

/-- A mesh with the triangle `(0,0,2) (1,0,2) (0,1,2)` followed by the triangle
`(0,0,1) (1,0,1) (0,1,1)`: both are met by `rayZ`, at a corner. -/
def twoPlanes : Mesh F32 :=
  { (Mesh.empty : Mesh F32) with
    vertices := [⟨⟨0⟩, ⟨0⟩, ⟨0x40000000⟩⟩, ⟨⟨0x3F800000⟩, ⟨0⟩, ⟨0x40000000⟩⟩,
                 ⟨⟨0⟩, ⟨0x3F800000⟩, ⟨0x40000000⟩⟩,
                 ⟨⟨0⟩, ⟨0⟩, ⟨0x3F800000⟩⟩, ⟨⟨0x3F800000⟩, ⟨0⟩, ⟨0x3F800000⟩⟩,
                 ⟨⟨0⟩, ⟨0x3F800000⟩, ⟨0x3F800000⟩⟩],
    triangles := [0, 1, 2, 3, 4, 5] }

/-- A mesh with the triangle `(0,0,0) (0,0,1) (0,1,0)`, whose plane `x = 0` contains
`rayZ`. -/
def sidePlane : Mesh F32 :=
  { (Mesh.empty : Mesh F32) with
    vertices := [origin, unitZ, unitY], triangles := [0, 1, 2] }

/-- A ray along `+z` from `(1, 0, 0)`: parallel to the plane of `sidePlane`, off it. -/
def rayOff : Ray F32 := ⟨unitX, unitZ⟩

/-- The place of a binary32 value that is not a NaN in the order of `<`: its magnitude
bits, negated under a sign bit (the two zeros share the place 0). -/
def F32.key (a : F32) : Int :=
  if a.sign = 0 then ((a.bits % 2 ^ 31 : Nat) : Int) else -((a.bits % 2 ^ 31 : Nat) : Int)

/-- Modelled from the spec: the ray parameter
`t = dot(normal, origin_to_vertex0) / dot(normal, rayDirection)`, where `normal` is the
normalized cross product of the two edge vectors from vertex 0 and `origin_to_vertex0`
is vertex 0 minus the ray origin. -/
def spec_param {F : Type} [FloatOps F] (ray : Ray F) (v0 v1 v2 : Vector F) : F :=
  let normal := (cross (v1.sub v0) (v2.sub v0)).normalize
  FloatOps.div (dot normal (v0.sub ray.pt)) (dot normal ray.dir)

/-- A mesh with the single triangle `(0,0,1) (1,0,1) (0,1,1)`. -/
def onePlane : Mesh F32 :=
  { (Mesh.empty : Mesh F32) with
    vertices := [unitZ, ⟨⟨0x3F800000⟩, ⟨0⟩, ⟨0x3F800000⟩⟩, ⟨⟨0⟩, ⟨0x3F800000⟩, ⟨0x3F800000⟩⟩],
    triangles := [0, 1, 2] }

/-! ## `read_stl` -/

/-- The function `tolower` on a byte, in the "C" locale. -/
def tolower (c : Nat) : Nat := if 65 ≤ c ∧ c ≤ 90 then c + 32 else c

/-- Mirror of `_strnicmp(a, b, n)`: at most `n` characters are compared, in lower case;
the comparison ends at the first difference or at a NUL.  A list that ends before that
is a read past the bytes that were stored; the result is then 1 (not equal). -/
def strnicmp : List Nat → List Nat → Nat → Int
  | _, _, 0 => 0
  | a :: as, b :: bs, n + 1 =>
    if tolower a ≠ tolower b then (tolower a : Int) - (tolower b : Int)
    else if a = 0 then 0
    else strnicmp as bs n
  | _, _, _ + 1 => 1

/-- Mirror of `Mesh::read_stl`.  The argument is the content of the file, `none` when
`fopen` fails.  `buf` holds the bytes that `fread(buf, 1, 6, fp)` stored; the second
`fread` consumes 74 more bytes.  The values returned by the decoders are dropped. -/
def read_stl {F : Type} [FloatOps F] [CStdlib F] (m : Mesh F) (file : Option (List Nat)) :
    Option (Mesh F) :=
  match file with
  | none => some m
  | some fp =>
    let buf := fp.take 6
    let fp1 := fp.drop 6
    if strnicmp buf (kw "solid " ++ [0]) 6 = 0 then
      (read_ascii_stl m fp1).map (fun r => make_edges r.2)
    else
      let fp2 := fp1.drop 74
      some (make_edges (read_binary_stl m fp2).2)

/-- The file `asciiOne` as `read_stl` sees it, the leading `solid ` included. -/
def fileAsciiOne : List Nat := kw "SoLiD " ++ asciiOne

/-- A binary file: an 80-byte header of `x` bytes, then `binTwo`. -/
def fileBinTwo : List Nat := List.replicate 80 120 ++ binTwo

/-- The file `asciiOne` cut off after the second coordinate of the first vertex. -/
def asciiCut : List Nat :=
  kw "name\nfacet normal 0 0 0\n outer loop\n  vertex 0 0"

/-! ## Tokens as maximal runs -/

/-- The delimiters of `read_token`: space, tab, CR and LF. -/
def is_delim (c : Nat) : Bool := c == 32 || c == 9 || c == 13 || c == 10

/-- Modelled from the spec: the maximal runs of bytes other than delimiters, in order
of occurrence (the pieces between consecutive delimiters, the empty ones dropped). -/
def maximal_runs (fp : List Nat) : List (List Nat) :=
  (fp.splitOnP is_delim).filter (fun t => !t.isEmpty)

/-! ## `Hasher` -/

/-- The vertex `(-0, 0, 0)`. -/
def negZeroX : Vector F32 := ⟨⟨0x80000000⟩, ⟨0⟩, ⟨0⟩⟩

/-! ## The acceptance test as a function of the candidate point -/

section PointTest

variable {F : Type}

/-- The local `atot` of `fire_line`: `cross(side1, side2).length() / 2.0f`. -/
def tri_area [FloatOps F] (v0 v1 v2 : Vector F) : F :=
  FloatOps.div (cross (v1.sub v0) (v2.sub v0)).length (FloatOps.ofNat 2)

/-- The local `ax1` of `fire_line` for the candidate point `p`:
`cross(p - v0, side2).length() / 2.0f`. -/
def sub_area1 [FloatOps F] (p v0 v2 : Vector F) : F :=
  FloatOps.div (cross (p.sub v0) (v2.sub v0)).length (FloatOps.ofNat 2)

/-- The local `ax2`: `cross(p - v1, -side1).length() / 2.0f`. -/
def sub_area2 [FloatOps F] (p v0 v1 : Vector F) : F :=
  FloatOps.div (cross (p.sub v1) (v1.sub v0).neg).length (FloatOps.ofNat 2)

/-- The local `ax3`: `cross(p - v2, v1 - v2).length() / 2.0f`. -/
def sub_area3 [FloatOps F] (p v1 v2 : Vector F) : F :=
  FloatOps.div (cross (p.sub v2) (v1.sub v2)).length (FloatOps.ofNat 2)

/-- The acceptance test of `fire_line` for the candidate point `p`:
`fabs(atot - ax1 - ax2 - ax3) < atot * 1e-6`. -/
def point_accept [FloatOps F] [PickOps F] (p v0 v1 v2 : Vector F) : Bool :=
  PickOps.lt_scaled
    (PickOps.fabs
      (FloatOps.sub
        (FloatOps.sub (FloatOps.sub (tri_area v0 v1 v2) (sub_area1 p v0 v2))
          (sub_area2 p v0 v1))
        (sub_area3 p v1 v2)))
    (tri_area v0 v1 v2)

end PointTest

/-! ## Exact real arithmetic -/

/-- The `float` operations read in exact real arithmetic: every operation is the
operation of the real numbers, `sqrtf`, `cos`, `sin` are the real functions, `(float)M_PI`
is `π`, and a bit pattern stands for the number `(-1) ^ sign * magnitude / 2 ^ 149` (the
patterns of infinities and NaNs, which are no real numbers, are read by the same
formula).  A real number has no bit pattern: `toBits` is constant, so that `Hasher` is
constant and the lookup of the dedup index is by `==` alone.  This interpretation serves
the statements about exact arithmetic only. -/
noncomputable instance : FloatOps ℝ where
  ofBits b :=
    (if (⟨b % 2 ^ 32⟩ : F32).sign = 1 then -1 else 1) * ((⟨b % 2 ^ 32⟩ : F32).mag : ℝ) / 2 ^ 149
  toBits _ := 0
  ofNat n := (n : ℝ)
  add a b := a + b
  sub a b := a - b
  mul a b := a * b
  div a b := a / b
  neg a := -a
  sqrt := Real.sqrt
  cos := Real.cos
  sin := Real.sin
  pi := Real.pi
  eq a b := decide (a = b)
  lt a b := decide (a < b)

/-- The functions `fabs` and the comparison `x < a * 1e-6` in exact real arithmetic. -/
noncomputable instance : PickOps ℝ where
  fabs a := |a|
  lt_scaled x a := decide (x < a * (1 / 1000000))

/-- The real vector `(0, 0, 0)`. -/
def originR : Vector ℝ := ⟨0, 0, 0⟩

/-- The real vector `(1, 0, 0)`. -/
def unitXR : Vector ℝ := ⟨1, 0, 0⟩

/-- The real vector `(0, 1, 0)`. -/
def unitYR : Vector ℝ := ⟨0, 1, 0⟩

/-- The real vector `(0, 0, 1)`. -/
def unitZR : Vector ℝ := ⟨0, 0, 1⟩

/-! # Theorems -/

/-! ## The binary32 model and the decimal `strtod` on known values -/

/-- Known values of binary32 arithmetic: `1 / 3`, `sqrt 2`, `0.1f + 0.2f`, overflow to
infinity and the tie just below it, `0 / 0`, ties to even among subnormals, the square
root of the smallest subnormal, `-1 * 0`, and `(float)16777217`. -/
theorem f32_known_values :
    F32.div ⟨0x3F800000⟩ ⟨0x40400000⟩ = ⟨0x3EAAAAAB⟩ ∧
    F32.sqrt ⟨0x40000000⟩ = ⟨0x3FB504F3⟩ ∧
    F32.add ⟨0x3DCCCCCD⟩ ⟨0x3E4CCCCD⟩ = ⟨0x3E99999A⟩ ∧
    F32.mul ⟨0x7F7FFFFF⟩ ⟨0x40000000⟩ = ⟨0x7F800000⟩ ∧
    F32.add ⟨0x7F7FFFFF⟩ ⟨0x73000000⟩ = ⟨0x7F800000⟩ ∧
    F32.add ⟨0x7F7FFFFF⟩ ⟨0x72800000⟩ = ⟨0x7F7FFFFF⟩ ∧
    F32.div ⟨0⟩ ⟨0⟩ = ⟨0xFFC00000⟩ ∧
    F32.mul ⟨0x00000001⟩ ⟨0x3F000000⟩ = ⟨0⟩ ∧
    F32.mul ⟨0x00000003⟩ ⟨0x3F000000⟩ = ⟨0x00000002⟩ ∧
    F32.sqrt ⟨0x00000001⟩ = ⟨0x1A3504F3⟩ ∧
    F32.mul ⟨0xBF800000⟩ ⟨0⟩ = ⟨0x80000000⟩ ∧
    F32.ofNat 16777217 = ⟨0x4B800000⟩ := by
  decide

/-- Known values of `cosf` and `sinf`: `cos 1`, `sin 1`, `sin (float)M_PI`, `cos 0`. -/
theorem f32_known_trig :
    F32.cos ⟨0x3F800000⟩ = ⟨0x3F0A5140⟩ ∧
    F32.sin ⟨0x3F800000⟩ = ⟨0x3F576AA4⟩ ∧
    F32.sin ⟨0x40490FDB⟩ = ⟨0xB3BBBD2E⟩ ∧
    F32.cos ⟨0⟩ = ⟨0x3F800000⟩ := by
  decide

/-- Known values of the decimal `strtod` followed by the cast to `float`: `0.1`, `-0`,
`1e-45`, and the `FLT_MAX` range check of `parse_real`. -/
theorem parse_real_known_values :
    (parse_real (kw "0.1") : Option F32) = some ⟨0x3DCCCCCD⟩ ∧
    (parse_real (kw "-0") : Option F32) = some ⟨0x80000000⟩ ∧
    (parse_real (kw "1e-45") : Option F32) = some ⟨0x00000001⟩ ∧
    (parse_real (kw "3.4028234e38") : Option F32) = some ⟨0x7F7FFFFF⟩ ∧
    (parse_real (kw "3.4028236e38") : Option F32) = none ∧
    (parse_real (kw "1.5x") : Option F32) = none ∧
    (parse_real (kw "x") : Option F32) = none := by
  decide

/-! ## Mesh consolidation: `get_index` -/

section GetIndex

variable {F : Type} [FloatOps F]

theorem get_index_miss (m : Mesh F) (v n : Vector F) (h : m.find ⟨v, n⟩ = none) :
    get_index m v n =
      (m.vertices.length % 2 ^ 32,
       { m with vertices := m.vertices ++ [v], normals := m.normals ++ [n],
                indices := m.indices ++ [(⟨v, n⟩, m.indices.length % 2 ^ 32)],
                box_cached := false }) := by
  simp [get_index, h]

theorem get_index_hit (m : Mesh F) (v n : Vector F) (it : VertexRecord F × Nat)
    (h : m.find ⟨v, n⟩ = some it) : get_index m v n = (it.2, m) := by
  simp [get_index, h]

end GetIndex


/-! ## Mesh consolidation: sequences of `get_index` calls -/

section Dedup

variable {F : Type} [FloatOps F]

theorem slots_miss (m : Mesh F) (v n : Vector F) (hs : m.vertices.length = m.normals.length)
    (h : m.find ⟨v, n⟩ = none) : (get_index m v n).2.slots = m.slots ++ [⟨v, n⟩] := by
  rw [get_index_miss m v n h]
  simp only [Mesh.slots]
  rw [List.zipWith_append _ _ _ _ _ hs]
  simp

end Dedup

section DedupSeq

variable {F : Type} [FloatOps F]

end DedupSeq

theorem is_delim_iff (c : Nat) : is_delim c = true ↔ (c = 32 ∨ c = 9 ∨ c = 13 ∨ c = 10) := by
  simp [is_delim, or_assoc]

theorem modifyHead_nil_append (l : List (List Nat)) :
    l.modifyHead (fun t => [] ++ t) = l := by
  cases l <;> simp [List.modifyHead]

/-- One call of `read_token` with `token` stored so far: it returns the first run, the
bytes stored so far included, and leaves the input from which the later runs come. -/
theorem read_token_runs (fp : List Nat) :
    ∀ token : List Nat,
      ((read_token fp token).1 = [] →
        ((fp.splitOnP is_delim).modifyHead (fun t => token ++ t)).filter
          (fun t => !t.isEmpty) = []) ∧
      ((read_token fp token).1 ≠ [] →
        ((fp.splitOnP is_delim).modifyHead (fun t => token ++ t)).filter
          (fun t => !t.isEmpty)
          = (read_token fp token).1 :: maximal_runs (read_token fp token).2) := by
  induction fp with
  | nil =>
    intro token
    simp only [read_token, List.splitOnP_nil, List.modifyHead, List.append_nil]
    constructor
    · intro h; simp [h]
    · intro h
      have : token.isEmpty = false := by cases token <;> simp_all
      simp [List.filter, this, maximal_runs]
  | cons c fp ih =>
    intro token
    by_cases hc : c = 32 ∨ c = 9 ∨ c = 13 ∨ c = 10
    · have hd : is_delim c = true := (is_delim_iff c).2 hc
      simp only [read_token, hc, if_true, List.splitOnP_cons, hd, List.modifyHead,
        List.append_nil]
      by_cases ht : token = []
      · subst ht
        have := ih []
        simp only [modifyHead_nil_append] at this
        simpa [List.filter] using this
      · have hte : token.isEmpty = false := by cases token <;> simp_all
        rw [if_neg ht]
        constructor
        · intro h; exact absurd h ht
        · intro _; simp [List.filter, hte, maximal_runs]
    · have hd : ¬ is_delim c = true := fun h => hc ((is_delim_iff c).1 h)
      have hd' : is_delim c = false := by simpa using hd
      simp only [read_token, hc, if_false, List.splitOnP_cons, hd', Bool.false_eq_true,
        List.modifyHead_modifyHead]
      have := ih (token ++ [c])
      have hf : ((fun t => token ++ t) ∘ List.cons c) = (fun t => (token ++ [c]) ++ t) := by
        funext t; simp
      rw [hf]
      exact this

/-! ## The ASCII decoder as a run over the token stream -/

section AsciiRun

variable {F : Type} [FloatOps F] [CStdlib F]

theorem read_token_rest_le (fp : List Nat) :
    ∀ token, (read_token fp token).2.length ≤ fp.length := by
  induction fp with
  | nil => intro token; simp [read_token]
  | cons c fp ih =>
    intro token
    simp only [read_token]
    split
    · split
      · exact Nat.le_succ_of_le (ih token)
      · simp
    · exact Nat.le_succ_of_le (ih _)

theorem read_token_rest_lt (fp : List Nat) (h : (read_token fp []).1 ≠ []) :
    (read_token fp []).2.length < fp.length := by
  induction fp with
  | nil => simp [read_token] at h
  | cons c fp ih =>
    simp only [read_token] at h ⊢
    split
    · rename_i hc
      simp only [hc, if_true] at h
      exact Nat.lt_succ_of_lt (ih h)
    · exact Nat.lt_succ_of_le (read_token_rest_le fp _)

theorem c_str_ne_nil (buf : List Nat) (h : c_str buf ≠ []) : buf ≠ [] := by
  intro hb; apply h; simp [hb, c_str]

/-- The first run of an input and the runs of what `read_token` leaves. -/
theorem maximal_runs_rest (fp : List Nat) (h : (read_token fp []).1 ≠ []) :
    maximal_runs fp = (read_token fp []).1 :: maximal_runs (read_token fp []).2 := by
  have hr := (read_token_runs fp []).2 h
  simp only [modifyHead_nil_append] at hr
  exact hr

/-- When every run of the input fits the token buffer, so does the token that
`read_token` stores, and so do the runs of the input it leaves. -/
theorem read_token_fits (fp : List Nat) (hbuf : ∀ t ∈ maximal_runs fp, t.length < 512) :
    (read_token fp []).1.length < 512 ∧
    ((read_token fp []).1 ≠ [] → ∀ t ∈ maximal_runs (read_token fp []).2, t.length < 512) := by
  by_cases h : (read_token fp []).1 = []
  · rw [h]; exact ⟨by simp, fun hn => absurd rfl hn⟩
  · have hr := maximal_runs_rest fp h
    rw [hr] at hbuf
    exact ⟨hbuf _ (List.mem_cons_self _ _), fun _ t ht => hbuf t (List.mem_cons_of_mem _ ht)⟩

/-- The loop over the input is the loop over its token stream: when every run of the
input fits the token buffer it returns, and does not run out of fuel when the fuel
exceeds the length of the input. -/
theorem read_ascii_loop_eq (fuel : Nat) :
    ∀ (fp : List Nat) (st : AsciiState F), fp.length < fuel →
      (∀ t ∈ maximal_runs fp, t.length < 512) →
      read_ascii_loop fuel fp st = some (ascii_run (token_stream fuel fp) st) := by
  induction fuel with
  | zero => intro fp st h; omega
  | succ fuel ih =>
    intro fp st h hbuf
    have hfit := read_token_fits fp hbuf
    have hlen : ¬ 512 ≤ (read_token fp []).1.length := by omega
    simp only [read_ascii_loop, token_stream, hlen, if_false]
    by_cases he : c_str (read_token fp []).1 = []
    · simp [he, ascii_run]
    · simp only [he, if_false, ascii_run]
      cases hstep : ascii_token st (c_str (read_token fp []).1) with
      | ret b m => rfl
      | next st1 =>
        apply ih
        · have := read_token_rest_lt fp (c_str_ne_nil _ he)
          omega
        · exact hfit.2 (c_str_ne_nil _ he)

/-- The result of `read_ascii_stl` on an input whose runs fit the token buffer. -/
theorem read_ascii_stl_eq (m : Mesh F) (fp : List Nat)
    (hbuf : ∀ t ∈ maximal_runs fp, t.length < 512) :
    read_ascii_stl m fp = some (ascii_run (tokens fp) (ascii_init m)) :=
  read_ascii_loop_eq (fp.length + 1) fp (ascii_init m) (Nat.lt_succ_self _) hbuf

/-- A run of 512 bytes or more at the head of the input is written past the token
buffer: the model gives no result. -/
theorem read_ascii_stl_overflow (m : Mesh F) (fp : List Nat)
    (h : 512 ≤ (read_token fp []).1.length) : read_ascii_stl m fp = none := by
  simp [read_ascii_stl, read_ascii_loop, h]

end AsciiRun

section AsciiGrammar

variable {F : Type} [FloatOps F] [CStdlib F]

set_option maxHeartbeats 1000000 in
/-- The state that follows a matched token in state `k`. -/
theorem ascii_token_slot (k : Nat) (hk : k ≤ 20) (s : Slot F)
    (hs : (facet_grammar : List (Slot F))[k]? = some s)
    (r : Record F) (m : Mesh F) (fl : Bool) (t : List Nat) :
    ascii_token ⟨k, r, fl, m⟩ t =
      match slot_match s t r with
      | some r1 =>
        if k = 20 then Step.next ⟨0, r1, false, add_facet m r1⟩
        else Step.next ⟨k + 1, r1, false, m⟩
      | none =>
        if k = 0 ∧ t = kw "endsolid" then Step.ret true m
        else if fl then Step.next ⟨k, r, false, m⟩ else Step.ret false m := by
  have hne : kw "facet" ≠ kw "endsolid" := by decide
  interval_cases k <;>
    simp only [facet_grammar, List.getElem?_cons_zero, List.getElem?_cons_succ,
      Option.some.injEq] at hs <;>
    subst hs <;>
    simp only [ascii_token, ascii_switch, expect_word, expect_real, slot_match] <;>
    cases hp : (parse_real t : Option F) <;> cases fl <;> split_ifs <;> simp_all

end AsciiGrammar


section AsciiFacets

variable {F : Type} [FloatOps F] [CStdlib F]

omit [FloatOps F] [CStdlib F] in
theorem facet_grammar_length : (facet_grammar : List (Slot F)).length = 21 := rfl

omit [FloatOps F] in
theorem match_slots_length (ss : List (Slot F)) :
    ∀ (ts : List (List Nat)) (r r1 : Record F) (rest : List (List Nat)),
      match_slots ss ts r = some (r1, rest) → rest.length + ss.length = ts.length := by
  induction ss with
  | nil =>
    intro ts r r1 rest h
    simp only [match_slots, Option.some.injEq, Prod.mk.injEq] at h
    simp [h.2]
  | cons s ss ih =>
    intro ts r r1 rest h
    cases ts with
    | nil => simp [match_slots] at h
    | cons t ts =>
      simp only [match_slots] at h
      cases hm : slot_match s t r with
      | none => simp [hm] at h
      | some r2 =>
        simp only [hm] at h
        have := ih ts r2 r1 rest h
        simp only [List.length_cons]; omega

/-- From state `k` inside a facet, with `first` already cleared: if the tokens complete
the facet, the loop is back in state 0 with the facet inserted; if they do not, the loop
returns with the mesh unchanged. -/
theorem ascii_run_slots (n : Nat) :
    ∀ (k : Nat), k + n = 20 →
      ∀ (ts : List (List Nat)) (r : Record F) (m : Mesh F),
        (∀ r1 rest, match_slots ((facet_grammar : List (Slot F)).drop k) ts r = some (r1, rest) →
          ascii_run ts ⟨k, r, false, m⟩ = ascii_run rest ⟨0, r1, false, add_facet m r1⟩) ∧
        (match_slots ((facet_grammar : List (Slot F)).drop k) ts r = none →
          ∃ b, ascii_run ts ⟨k, r, false, m⟩ = (b, m)) := by
  induction n with
  | zero =>
    intro k hk ts r m
    have hk20 : k = 20 := by omega
    subst hk20
    have hd : (facet_grammar : List (Slot F)).drop 20 = [Slot.word "endfacet"] := rfl
    rw [hd]
    cases ts with
    | nil => simp [match_slots, ascii_run]
    | cons t ts =>
      have hstep := ascii_token_slot 20 (Nat.le_refl _) (Slot.word "endfacet") rfl r m false t
      simp only [match_slots, ascii_run, hstep]
      cases hm : slot_match (Slot.word "endfacet" : Slot F) t r with
      | none => simp
      | some r2 => simp
  | succ n ih =>
    intro k hk ts r m
    have hk19 : k ≤ 19 := by omega
    obtain ⟨s, hs⟩ : ∃ s, (facet_grammar : List (Slot F))[k]? = some s := by
      have : k < (facet_grammar : List (Slot F)).length := by
        rw [facet_grammar_length]; omega
      exact ⟨_, List.getElem?_eq_getElem this⟩
    have hd : (facet_grammar : List (Slot F)).drop k
        = s :: (facet_grammar : List (Slot F)).drop (k + 1) := by
      obtain ⟨hlt, hget⟩ := List.getElem?_eq_some.1 hs
      rw [← hget]
      exact List.drop_eq_getElem_cons hlt
    rw [hd]
    cases ts with
    | nil => simp [match_slots, ascii_run]
    | cons t ts =>
      have hstep := ascii_token_slot k (by omega) s hs r m false t
      have hk20 : k ≠ 20 := by omega
      simp only [match_slots, ascii_run, hstep]
      cases hm : slot_match s t r with
      | none =>
        constructor
        · intro r1 rest h; cases h
        · intro _
          by_cases hc : k = 0 ∧ t = kw "endsolid" <;> simp [hc]
      | some r2 =>
        simp only [hk20, if_false]
        exact ih (k + 1) (by omega) ts r2 m

theorem ascii_run_facet (ts : List (List Nat)) (r : Record F) (m : Mesh F) :
    (∀ r1 rest, match_slots (facet_grammar : List (Slot F)) ts r = some (r1, rest) →
      ascii_run ts ⟨0, r, false, m⟩ = ascii_run rest ⟨0, r1, false, add_facet m r1⟩) ∧
    (match_slots (facet_grammar : List (Slot F)) ts r = none →
      ∃ b, ascii_run ts ⟨0, r, false, m⟩ = (b, m)) :=
  ascii_run_slots 20 0 rfl ts r m

/-- From state 0 with `first` cleared, the loop inserts the complete facets at the head
of the tokens and nothing else. -/
theorem ascii_run_parse (fuel : Nat) :
    ∀ (ts : List (List Nat)) (r : Record F) (m : Mesh F), ts.length ≤ fuel →
      ∃ b, ascii_run ts ⟨0, r, false, m⟩ = (b, add_facets m (parse_facets fuel ts r)) := by
  induction fuel with
  | zero =>
    intro ts r m h
    have : ts = [] := List.length_eq_zero.1 (Nat.le_zero.1 h)
    subst this
    exact ⟨true, rfl⟩
  | succ fuel ih =>
    intro ts r m h
    simp only [parse_facets]
    cases hm : match_slots (facet_grammar : List (Slot F)) ts r with
    | none =>
      obtain ⟨b, hb⟩ := (ascii_run_facet ts r m).2 hm
      exact ⟨b, by simpa [add_facets] using hb⟩
    | some p =>
      obtain ⟨r1, rest⟩ := p
      have hrun := (ascii_run_facet ts r m).1 r1 rest hm
      have hlen := match_slots_length _ ts r r1 rest hm
      rw [facet_grammar_length] at hlen
      obtain ⟨b, hb⟩ := ih rest r1 (add_facet m r1) (by omega)
      exact ⟨b, by rw [hrun, hb]; simp [add_facets]⟩

/-- The first token: `facet` opens a facet, `endsolid` ends the decoding, anything else
is passed over. -/
theorem ascii_run_first (t : List Nat) (ts : List (List Nat)) (r : Record F) (m : Mesh F) :
    ascii_run (t :: ts) ⟨0, r, true, m⟩ =
      if t = kw "facet" then ascii_run ts ⟨1, r, false, m⟩
      else if t = kw "endsolid" then (true, m)
      else ascii_run ts ⟨0, r, false, m⟩ := by
  have hstep := ascii_token_slot 0 (by omega) (Slot.word "facet") rfl r m true t
  simp only [ascii_run, hstep, slot_match]
  by_cases h1 : t = kw "facet"
  · simp [h1]
  · have hne : kw "endsolid" ≠ kw "facet" := by decide
    by_cases h2 : t = kw "endsolid" <;> simp [h1, h2, hne]

theorem ascii_run_facets (ts : List (List Nat)) (m : Mesh F) :
    ∃ b, ascii_run ts (ascii_init m) = (b, add_facets m (ascii_facets ts)) := by
  cases ts with
  | nil => exact ⟨true, rfl⟩
  | cons t ts =>
    simp only [ascii_init, ascii_run_first, ascii_facets]
    by_cases h1 : t = kw "facet"
    · simp only [h1, if_true]
      have hd : (facet_grammar : List (Slot F))
          = Slot.word "facet" :: (facet_grammar : List (Slot F)).drop 1 := rfl
      have hms : match_slots (facet_grammar : List (Slot F)) (kw "facet" :: ts) Record.blank
          = match_slots ((facet_grammar : List (Slot F)).drop 1) ts Record.blank := by
        rw [hd]; simp [match_slots, slot_match]
      simp only [List.length_cons, parse_facets, hms]
      cases hm : match_slots ((facet_grammar : List (Slot F)).drop 1) ts Record.blank with
      | none =>
        obtain ⟨b, hb⟩ := (ascii_run_slots 19 1 rfl ts Record.blank m).2 hm
        exact ⟨b, by simpa [add_facets] using hb⟩
      | some p =>
        obtain ⟨r1, rest⟩ := p
        have hrun := (ascii_run_slots 19 1 rfl ts Record.blank m).1 r1 rest hm
        have hlen := match_slots_length _ ts Record.blank r1 rest hm
        obtain ⟨b, hb⟩ := ascii_run_parse ts.length rest r1 (add_facet m r1) (by omega)
        exact ⟨b, by rw [hrun, hb]; simp [add_facets]⟩
    · by_cases h2 : t = kw "endsolid"
      · have hne : kw "endsolid" ≠ kw "facet" := by decide
        exact ⟨true, by simp [h2, hne, add_facets]⟩
      · simp only [h1, h2, if_false]
        exact ascii_run_parse ts.length ts Record.blank m (Nat.le_refl _)

end AsciiFacets

section AsciiClaims

variable {F : Type} [FloatOps F] [CStdlib F]

/-- The mesh that `read_ascii_stl` leaves on an input whose runs fit the token buffer:
the complete facets of the token stream, inserted in order. -/
theorem read_ascii_stl_facets (m : Mesh F) (fp : List Nat)
    (hbuf : ∀ t ∈ maximal_runs fp, t.length < 512) :
    ∃ b, read_ascii_stl m fp = some (b, add_facets m (ascii_facets (tokens fp))) := by
  obtain ⟨b, hb⟩ := ascii_run_facets (tokens fp) m
  exact ⟨b, by rw [read_ascii_stl_eq m fp hbuf, hb]⟩

omit [FloatOps F] in
theorem match_slots_cons (s : Slot F) (ss : List (Slot F)) (t : List Nat)
    (ts : List (List Nat)) (r r1 : Record F) (h : slot_match s t r = some r1) :
    match_slots (s :: ss) (t :: ts) r = match_slots ss ts r1 := by
  simp [match_slots, h]

omit [FloatOps F] in
theorem match_slots_facetText (ft : FacetText) (rec : Record F) (h : ft.parses rec)
    (rest : List (List Nat)) (r : Record F) :
    match_slots (facet_grammar : List (Slot F)) (ft.tokens ++ rest) r = some (rec, rest) := by
  obtain ⟨h1, h2, h3, h4, h5, h6, h7, h8, h9, h10, h11, h12⟩ := h
  cases rec with
  | mk a b c v1 v2 v3 =>
    cases v1; cases v2; cases v3
    simp only at h1 h2 h3 h4 h5 h6 h7 h8 h9 h10 h11 h12
    simp [facet_grammar, FacetText.tokens, match_slots, slot_match,
      h1, h2, h3, h4, h5, h6, h7, h8, h9, h10, h11, h12]

theorem ascii_run_wellformed (fts : List FacetText) (recs : List (Record F))
    (hparse : List.Forall₂ FacetText.parses fts recs) (rest : List (List Nat)) :
    ∀ (r : Record F) (m : Mesh F),
      ascii_run ((fts.map FacetText.tokens).flatten ++ kw "endsolid" :: rest) ⟨0, r, false, m⟩
        = (true, add_facets m recs) := by
  induction hparse with
  | nil =>
    intro r m
    have hstep := ascii_token_slot 0 (by omega) (Slot.word "facet") rfl r m false (kw "endsolid")
    have hne : kw "endsolid" ≠ kw "facet" := by decide
    simp [ascii_run, hstep, slot_match, hne, add_facets]
  | @cons ft rec fts recs h _ ih =>
    intro r m
    have hm := match_slots_facetText ft rec h
      ((fts.map FacetText.tokens).flatten ++ kw "endsolid" :: rest) r
    have hrun := (ascii_run_facet _ r m).1 _ _ hm
    simp only [List.map_cons, List.flatten_cons, List.append_assoc]
    rw [hrun, ih]
    simp [add_facets]

omit [CStdlib F] in
theorem get_index_triangles (m : Mesh F) (v n : Vector F) :
    (get_index m v n).2.triangles = m.triangles := by
  cases hf : m.find ⟨v, n⟩ with
  | none => rw [get_index_miss m v n hf]
  | some it => rw [get_index_hit m v n it hf]

omit [CStdlib F] in
theorem emit_triangle_triangles (m : Mesh F) (v1 n1 v2 n2 v3 n3 : Vector F) :
    (emit_triangle m v1 n1 v2 n2 v3 n3).triangles = m.triangles ++
      [(get_index m v1 n1).1, (get_index (get_index m v1 n1).2 v2 n2).1,
       (get_index (get_index (get_index m v1 n1).2 v2 n2).2 v3 n3).1] := by
  simp only [emit_triangle, get_index_triangles]

omit [CStdlib F] in
theorem add_facets_triangles_length (rs : List (Record F)) :
    ∀ m : Mesh F, (add_facets m rs).triangles.length = m.triangles.length + 3 * rs.length := by
  induction rs with
  | nil => intro m; simp [add_facets]
  | cons r rs ih =>
    intro m
    have h : add_facets m (r :: rs) = add_facets (add_facet m r) rs := rfl
    rw [h, ih]
    have ht : (add_facet m r).triangles = _ := emit_triangle_triangles m r.vertex1
      ((facet_cross r).divide (facet_cross r).length) r.vertex2
      ((facet_cross r).divide (facet_cross r).length) r.vertex3
      ((facet_cross r).divide (facet_cross r).length)
    rw [ht]
    simp only [List.length_append, List.length_cons, List.length_nil]
    omega

/-- C6: when every run of the input fits the 512-byte token buffer and the token stream
of the input is an optional solid name other than `facet` and `endsolid`, then `N` facets
spelled `facet normal r r r outer loop vertex r r r
vertex r r r vertex r r r endloop endfacet` with every `r` a parsable real, then
`endsolid`, `read_ascii_stl` on an empty mesh returns true and the mesh holds the `N`
facets inserted in file order, each by `get_index` on its three vertices in file order
(`add_facet`): `3 * N` triangle indices. -/
theorem read_ascii_stl_wellformed (fp : List Nat) (name : Option (List Nat))
    (fts : List FacetText) (recs : List (Record F)) (rest : List (List Nat))
    (hbuf : ∀ t ∈ maximal_runs fp, t.length < 512)
    (hname : ∀ t ∈ name, t ≠ kw "facet" ∧ t ≠ kw "endsolid")
    (hparse : List.Forall₂ FacetText.parses fts recs)
    (htok : tokens fp
      = name.toList ++ ((fts.map FacetText.tokens).flatten ++ kw "endsolid" :: rest)) :
    read_ascii_stl (Mesh.empty : Mesh F) fp = some (true, add_facets Mesh.empty recs) ∧
    (add_facets (Mesh.empty : Mesh F) recs).triangles.length = 3 * fts.length := by
  constructor
  · rw [read_ascii_stl_eq _ fp hbuf, htok]
    cases name with
    | none =>
      simp only [Option.toList, List.nil_append]
      cases hparse with
      | nil =>
        have hne : kw "endsolid" ≠ kw "facet" := by decide
        simp [ascii_init, ascii_run_first, hne, add_facets]
      | @cons ft rec fts recs h hrest =>
        simp only [List.map_cons, List.flatten_cons, List.append_assoc, ascii_init]
        have hft : ft.tokens ++ ((fts.map FacetText.tokens).flatten ++ kw "endsolid" :: rest)
            = kw "facet" :: ((ft.tokens.drop 1) ++
                ((fts.map FacetText.tokens).flatten ++ kw "endsolid" :: rest)) := rfl
        have hm := match_slots_facetText ft rec h
          ((fts.map FacetText.tokens).flatten ++ kw "endsolid" :: rest) Record.blank
        have hd : (facet_grammar : List (Slot F))
            = Slot.word "facet" :: (facet_grammar : List (Slot F)).drop 1 := rfl
        rw [hft, hd, match_slots_cons (Slot.word "facet") _ (kw "facet") _ Record.blank
          Record.blank (by simp [slot_match])] at hm
        have hrun := (ascii_run_slots 19 1 rfl _ Record.blank (Mesh.empty : Mesh F)).1 _ _ hm
        rw [hft, ascii_run_first]
        simp only [if_true]
        rw [hrun, ascii_run_wellformed fts recs hrest]
        simp [add_facets]
    | some t =>
      obtain ⟨h1, h2⟩ := hname t rfl
      simp only [Option.toList, List.singleton_append, ascii_init, ascii_run_first, h1, h2,
        if_false]
      rw [ascii_run_wellformed fts recs hparse rest]
  · rw [add_facets_triangles_length, hparse.length_eq]
    simp [Mesh.empty]

theorem ascii_after_first (ts : List (List Nat)) :
    ∀ (st st1 : AsciiState F), ts ≠ [] → ascii_after ts st = some st1 → st1.first = false := by
  induction ts with
  | nil => intro st st1 h; exact absurd rfl h
  | cons t ts ih =>
    intro st st1 _ h
    simp only [ascii_after] at h
    cases hstep : ascii_token st t with
    | ret b m => simp [hstep] at h
    | next st2 =>
      simp only [hstep] at h
      have hf : st2.first = false := by
        simp only [ascii_token] at hstep
        split at hstep
        · cases hstep
        · split at hstep
          · cases hstep
          · cases hstep; rfl
      cases ts with
      | nil =>
        simp only [ascii_after, Option.some.injEq] at h
        rw [← h]; exact hf
      | cons t' ts' => exact ih st2 st1 (by simp) h

theorem ascii_run_append (pre : List (List Nat)) :
    ∀ (st st1 : AsciiState F) (ts : List (List Nat)), ascii_after pre st = some st1 →
      ascii_run (pre ++ ts) st = ascii_run ts st1 := by
  induction pre with
  | nil => intro st st1 ts h; simp only [ascii_after, Option.some.injEq] at h; simp [h]
  | cons t pre ih =>
    intro st st1 ts h
    simp only [ascii_after] at h
    simp only [List.cons_append, ascii_run]
    cases hstep : ascii_token st t with
    | ret b m => simp [hstep] at h
    | next st2 =>
      simp only [hstep] at h
      exact ih st2 st1 ts h

theorem ascii_switch_stuck (k : Nat) (r r1 : Record F) (m m1 : Mesh F) (t : List Nat)
    (h : ascii_switch k r m t = some (k, r1, m1)) : m1 = m := by
  unfold ascii_switch at h
  split at h <;> (try split at h) <;> simp_all

/-- C7 (as amended): on an input whose runs fit the 512-byte token buffer, at every
position of the token stream after the first, when `read_ascii_stl` is still running and
meets a token that leaves `state` unchanged (a word other than the one expected, or a
numeric token that does not parse), it returns false there: the result is the mesh
accumulated before that token, whatever tokens follow.  The first token is exempt: on
every such input whose first token is neither `facet` nor `endsolid`, that token leaves
`state` at 0 and the decoding continues with the tokens after it. -/
theorem read_ascii_stl_stops_at_bad_token (m : Mesh F) (fp : List Nat)
    (pre : List (List Nat)) (t : List Nat) (post : List (List Nat)) (st : AsciiState F)
    (hbuf : ∀ t ∈ maximal_runs fp, t.length < 512)
    (htok : tokens fp = pre ++ t :: post)
    (hpre : pre ≠ [])
    (hst : ascii_after pre (ascii_init m) = some st)
    (hstuck : (ascii_switch st.state st.r st.mesh t).map (fun p => p.1) = some st.state) :
    read_ascii_stl m fp = some (false, st.mesh) ∧
    (∀ (gp : List Nat) (t0 : List Nat) (ts : List (List Nat)),
      (∀ t ∈ maximal_runs gp, t.length < 512) → tokens gp = t0 :: ts →
      t0 ≠ kw "facet" → t0 ≠ kw "endsolid" →
      (ascii_switch 0 Record.blank m t0).map (fun p => p.1) = some 0 ∧
      read_ascii_stl m gp = some (ascii_run ts ⟨0, Record.blank, false, m⟩)) := by
  constructor
  · rw [read_ascii_stl_eq m fp hbuf, htok, ascii_run_append pre _ st _ hst]
    have hfirst := ascii_after_first pre _ st hpre hst
    simp only [ascii_run, ascii_token]
    cases hsw : ascii_switch st.state st.r st.mesh t with
    | none => simp [hsw] at hstuck
    | some p =>
      obtain ⟨k, r1, m1⟩ := p
      simp only [hsw, Option.map_some', Option.some.injEq] at hstuck
      subst hstuck
      have := ascii_switch_stuck _ _ _ _ _ _ hsw
      simp [hfirst, this]
  · intro gp t0 ts hg htk h1 h2
    constructor
    · simp [ascii_switch, expect_word, h1, h2]
    · rw [read_ascii_stl_eq m gp hg, htk]
      have hi : ascii_init m = ⟨0, Record.blank, true, m⟩ := rfl
      rw [hi, ascii_run_first, if_neg h1, if_neg h2]

end AsciiClaims

/-! ## The binary decoder as a fold over the complete records -/

section Binary

variable {F : Type} [FloatOps F]

/-- Inserts a list of binary records in order, skipping the degenerate ones. -/
theorem read_binary_loop_eq (k : Nat) :
    ∀ (fp : List Nat) (m : Mesh F),
      read_binary_loop k fp m =
        (!decide (fp.length / 50 < k ∧ fp.length % 50 ≠ 0),
         (chunk_records k fp).foldl binary_record m) := by
  induction k with
  | zero => intro fp m; simp [read_binary_loop, chunk_records]
  | succ k ih =>
    intro fp m
    simp only [read_binary_loop, chunk_records]
    rcases Nat.lt_or_ge fp.length 50 with h | h
    · have hmin : min 50 fp.length = fp.length := Nat.min_eq_right (Nat.le_of_lt h)
      have hdiv : fp.length / 50 = 0 := Nat.div_eq_of_lt h
      have hmod : fp.length % 50 = fp.length := Nat.mod_eq_of_lt h
      by_cases h0 : fp.length = 0
      · simp [hmin, h0]
      · have hne : fp.length ≠ 50 := by omega
        simp [hmin, h0, hne, h, hdiv, hmod]
    · have hmin : min 50 fp.length = 50 := Nat.min_eq_left h
      have hnl : ¬ fp.length < 50 := by omega
      have hdiv : (fp.length - 50) / 50 < k ↔ fp.length / 50 < k + 1 := by omega
      have hmod : (fp.length - 50) % 50 = fp.length % 50 := by omega
      simp [hmin, hnl, ih, List.length_drop, hdiv, hmod]

theorem chunk_records_length (k : Nat) :
    ∀ fp : List Nat, (chunk_records k fp : List (Record F)).length = min k (fp.length / 50) := by
  induction k with
  | zero => intro fp; simp [chunk_records]
  | succ k ih =>
    intro fp
    simp only [chunk_records]
    split
    · rename_i h
      have : fp.length / 50 = 0 := Nat.div_eq_of_lt h
      simp [this]
    · simp only [List.length_cons, ih, List.length_drop]
      omega

/-- The result of `read_binary_stl` in closed form. -/
theorem read_binary_stl_eq (m : Mesh F) (fp : List Nat) :
    read_binary_stl m fp =
      if fp.length < 4 then (false, m)
      else (!decide ((fp.length - 4) / 50 < le32 fp 0 ∧ (fp.length - 4) % 50 ≠ 0),
            (chunk_records (le32 fp 0) (fp.drop 4)).foldl binary_record m) := by
  by_cases h4 : fp.length < 4
  · simp [read_binary_stl, h4]
  · simp only [read_binary_stl, h4, if_false, read_binary_loop_eq, List.length_drop]

end Binary

/-! ## Invariants: sizes and index ranges -/

section InvariantProofs

variable {F : Type} [FloatOps F]

theorem get_index_sizes (m : Mesh F) (v n : Vector F) (h : SizesOk m) :
    SizesOk (get_index m v n).2 := by
  cases hf : m.find ⟨v, n⟩ with
  | none =>
    rw [get_index_miss m v n hf]
    obtain ⟨h1, h2⟩ := h
    simp [SizesOk, h1, h2]
  | some it => rw [get_index_hit m v n it hf]; exact h

theorem get_index_vertices_le (m : Mesh F) (v n : Vector F) :
    m.vertices.length ≤ (get_index m v n).2.vertices.length ∧
    (get_index m v n).2.vertices.length ≤ m.vertices.length + 1 := by
  cases hf : m.find ⟨v, n⟩ with
  | none => rw [get_index_miss m v n hf]; simp
  | some it => rw [get_index_hit m v n it hf]; simp

theorem get_index_edges (m : Mesh F) (v n : Vector F) :
    (get_index m v n).2.edges = m.edges := by
  cases hf : m.find ⟨v, n⟩ with
  | none => rw [get_index_miss m v n hf]
  | some it => rw [get_index_hit m v n it hf]

/-- The index returned by `get_index` is below the new `vertices.size()`, and the values
stored in the dedup index stay so. -/
theorem get_index_range (m : Mesh F) (v n : Vector F) (hs : SizesOk m)
    (hi : ∀ e ∈ m.indices, e.2 < m.vertices.length) :
    (get_index m v n).1 < (get_index m v n).2.vertices.length ∧
    (∀ e ∈ (get_index m v n).2.indices, e.2 < (get_index m v n).2.vertices.length) := by
  cases hf : m.find ⟨v, n⟩ with
  | none =>
    rw [get_index_miss m v n hf]
    obtain ⟨h1, h2⟩ := hs
    refine ⟨?_, ?_⟩
    · simp only [List.length_append, List.length_cons, List.length_nil]
      exact Nat.lt_succ_of_le (Nat.mod_le _ _)
    · intro e he
      simp only [List.mem_append, List.mem_singleton] at he
      simp only [List.length_append, List.length_cons, List.length_nil]
      rcases he with he | he
      · exact Nat.lt_succ_of_lt (hi e he)
      · subst he
        have := Nat.mod_le m.indices.length (2 ^ 32)
        simp only
        omega
  | some it =>
    rw [get_index_hit m v n it hf]
    exact ⟨hi it (List.mem_of_find?_eq_some hf), hi⟩

theorem emit_triangle_sizes (m : Mesh F) (v1 n1 v2 n2 v3 n3 : Vector F) (h : SizesOk m) :
    SizesOk (emit_triangle m v1 n1 v2 n2 v3 n3) := by
  have h3 := get_index_sizes _ v3 n3 (get_index_sizes _ v2 n2 (get_index_sizes m v1 n1 h))
  exact h3

theorem emit_triangle_vertices_le (m : Mesh F) (v1 n1 v2 n2 v3 n3 : Vector F) :
    m.vertices.length ≤ (emit_triangle m v1 n1 v2 n2 v3 n3).vertices.length ∧
    (emit_triangle m v1 n1 v2 n2 v3 n3).vertices.length ≤ m.vertices.length + 3 := by
  have h1 := get_index_vertices_le m v1 n1
  have h2 := get_index_vertices_le (get_index m v1 n1).2 v2 n2
  have h3 := get_index_vertices_le (get_index (get_index m v1 n1).2 v2 n2).2 v3 n3
  simp only [emit_triangle]
  omega

theorem emit_triangle_edges (m : Mesh F) (v1 n1 v2 n2 v3 n3 : Vector F) :
    (emit_triangle m v1 n1 v2 n2 v3 n3).edges = m.edges := by
  simp only [emit_triangle, get_index_edges]

theorem emit_triangle_range (m : Mesh F) (v1 n1 v2 n2 v3 n3 : Vector F) (hs : SizesOk m)
    (hr : InRange m) : InRange (emit_triangle m v1 n1 v2 n2 v3 n3) := by
  obtain ⟨hi, ht, h3⟩ := hr
  have s1 := get_index_sizes m v1 n1 hs
  have s2 := get_index_sizes _ v2 n2 s1
  have r1 := get_index_range m v1 n1 hs hi
  have r2 := get_index_range _ v2 n2 s1 r1.2
  have r3 := get_index_range _ v3 n3 s2 r2.2
  have l1 := get_index_vertices_le m v1 n1
  have l2 := get_index_vertices_le (get_index m v1 n1).2 v2 n2
  have l3 := get_index_vertices_le (get_index (get_index m v1 n1).2 v2 n2).2 v3 n3
  refine ⟨r3.2, ?_, ?_⟩
  · intro t htm
    rw [emit_triangle_triangles] at htm
    simp only [List.mem_append, List.mem_cons, List.mem_singleton, List.not_mem_nil,
      or_false] at htm
    show t < (get_index (get_index (get_index m v1 n1).2 v2 n2).2 v3 n3).2.vertices.length
    rcases htm with h | h | h | h
    · have := ht t h; omega
    · omega
    · omega
    · omega
  · rw [emit_triangle_triangles]
    simp only [List.length_append, List.length_cons, List.length_nil]
    omega

omit [FloatOps F] in
theorem keeps_refl (m : Mesh F) : Keeps m m :=
  ⟨id, fun _ h => h, rfl, List.prefix_refl _, List.prefix_refl _, List.prefix_refl _⟩

omit [FloatOps F] in
theorem keeps_trans {m1 m2 m3 : Mesh F} (h : Keeps m1 m2) (h' : Keeps m2 m3) : Keeps m1 m3 :=
  ⟨fun hs => h'.sizes (h.sizes hs), fun hs hr => h'.range (h.sizes hs) (h.range hs hr),
   h'.edges.trans h.edges, h.vertices.trans h'.vertices, h.normals.trans h'.normals,
   h.triangles.trans h'.triangles⟩

theorem get_index_extends (m : Mesh F) (v n : Vector F) :
    m.vertices <+: (get_index m v n).2.vertices ∧ m.normals <+: (get_index m v n).2.normals := by
  cases hf : m.find ⟨v, n⟩ with
  | none => rw [get_index_miss m v n hf]; exact ⟨List.prefix_append _ _, List.prefix_append _ _⟩
  | some it => rw [get_index_hit m v n it hf]; exact ⟨List.prefix_refl _, List.prefix_refl _⟩

theorem emit_triangle_extends (m : Mesh F) (v1 n1 v2 n2 v3 n3 : Vector F) :
    m.vertices <+: (emit_triangle m v1 n1 v2 n2 v3 n3).vertices ∧
    m.normals <+: (emit_triangle m v1 n1 v2 n2 v3 n3).normals := by
  have h1 := get_index_extends m v1 n1
  have h2 := get_index_extends (get_index m v1 n1).2 v2 n2
  have h3 := get_index_extends (get_index (get_index m v1 n1).2 v2 n2).2 v3 n3
  exact ⟨(h1.1.trans h2.1).trans h3.1, (h1.2.trans h2.2).trans h3.2⟩

theorem keeps_emit_triangle (m : Mesh F) (v1 n1 v2 n2 v3 n3 : Vector F) :
    Keeps m (emit_triangle m v1 n1 v2 n2 v3 n3) :=
  ⟨emit_triangle_sizes m _ _ _ _ _ _, emit_triangle_range m _ _ _ _ _ _,
   emit_triangle_edges m _ _ _ _ _ _, (emit_triangle_extends m _ _ _ _ _ _).1,
   (emit_triangle_extends m _ _ _ _ _ _).2,
   by rw [emit_triangle_triangles]; exact List.prefix_append _ _⟩

theorem keeps_add_facet (m : Mesh F) (r : Record F) : Keeps m (add_facet m r) :=
  keeps_emit_triangle m _ _ _ _ _ _

theorem keeps_binary_record (m : Mesh F) (r : Record F) : Keeps m (binary_record m r) := by
  unfold binary_record
  split
  · exact keeps_refl m
  · exact keeps_add_facet m r

omit [FloatOps F] in
theorem keeps_foldl {α : Type} (f : Mesh F → α → Mesh F) (hf : ∀ m a, Keeps m (f m a))
    (l : List α) : ∀ m : Mesh F, Keeps m (l.foldl f m) := by
  induction l with
  | nil => intro m; exact keeps_refl m
  | cons a l ih => intro m; exact keeps_trans (hf m a) (ih (f m a))

theorem keeps_sphere_triangle (m : Mesh F) (r : F) (v1 v2 v3 c : Vector F) :
    Keeps m (sphere_triangle m r v1 v2 v3 c) :=
  keeps_emit_triangle m _ _ _ _ _ _

theorem keeps_sphere_cell (r : F) (c : Vector F) (i j : Nat) (m : Mesh F) :
    Keeps m (sphere_cell r c i j m) :=
  keeps_trans (keeps_sphere_triangle m r _ _ _ c) (keeps_sphere_triangle _ r _ _ _ c)

theorem keeps_sphere_grid (m : Mesh F) (r : F) (c : Vector F) :
    Keeps m (sphere_grid m r c) := by
  unfold sphere_grid
  exact keeps_foldl _ (fun m i => keeps_foldl _ (fun m j => keeps_sphere_cell r c i j m) _ m) _ m

omit [FloatOps F] in
theorem edge_step_spec (v1 v2 : Nat) (s : List Nat × List Nat) :
    (edge_step v1 v2 s).2 = s.2 ∨ (edge_step v1 v2 s).2 = s.2 ++ [v1, v2] := by
  by_cases h : make_edge_id v1 v2 ∈ s.1
  · left; simp [edge_step, h]
  · right; simp [edge_step, h]

/-- The edges that `make_edges` appends are pairs of entries of `triangles`. -/
theorem make_edges_loop_spec (n : Nat) (bound : Nat) :
    ∀ (ts : List Nat) (s : List Nat × List Nat), ts.length ≤ n →
      (∀ t ∈ ts, t < bound) → s.2.length % 2 = 0 → (∀ e ∈ s.2, e < bound) →
      (make_edges_loop ts s).2.length % 2 = 0 ∧ ∀ e ∈ (make_edges_loop ts s).2, e < bound := by
  induction n with
  | zero =>
    intro ts s hl _ he hb
    have : ts = [] := List.length_eq_zero.1 (Nat.le_zero.1 hl)
    subst this
    exact ⟨he, hb⟩
  | succ n ih =>
    intro ts s hl ht he hb
    match ts, hl, ht with
    | [], _, _ => exact ⟨he, hb⟩
    | [_], _, _ => exact ⟨he, hb⟩
    | [_, _], _, _ => exact ⟨he, hb⟩
    | t0 :: t1 :: t2 :: rest, hl, ht =>
      simp only [make_edges_loop]
      have h0 := ht t0 (by simp)
      have h1 := ht t1 (by simp)
      have h2 := ht t2 (by simp)
      have step : ∀ (a b : Nat) (s : List Nat × List Nat), a < bound → b < bound →
          s.2.length % 2 = 0 → (∀ e ∈ s.2, e < bound) →
          (edge_step a b s).2.length % 2 = 0 ∧ ∀ e ∈ (edge_step a b s).2, e < bound := by
        intro a b s ha hb' hl' hall
        rcases edge_step_spec a b s with h | h
        · rw [h]; exact ⟨hl', hall⟩
        · rw [h]
          refine ⟨by simp only [List.length_append, List.length_cons, List.length_nil]; omega, ?_⟩
          intro e hmem
          simp only [List.mem_append, List.mem_cons, List.mem_singleton, List.not_mem_nil,
            or_false] at hmem
          rcases hmem with h | h | h
          · exact hall e h
          · omega
          · omega
      obtain ⟨a1, a2⟩ := step t0 t1 s h0 h1 he hb
      obtain ⟨b1, b2⟩ := step t1 t2 _ h1 h2 a1 a2
      obtain ⟨c1, c2⟩ := step t2 t0 _ h2 h0 b1 b2
      apply ih rest _ _ (fun t hm => ht t (by simp [hm])) c1 c2
      simp only [List.length_cons] at hl
      omega

omit [FloatOps F] in
theorem make_edges_wellIndexed (m : Mesh F) (hr : InRange m)
    (he : m.edges.length % 2 = 0) (hb : ∀ e ∈ m.edges, e < m.vertices.length) :
    WellIndexed (make_edges m) := by
  obtain ⟨_, ht, h3⟩ := hr
  obtain ⟨e1, e2⟩ := make_edges_loop_spec m.triangles.length m.vertices.length m.triangles
    ([], m.edges) (Nat.le_refl _) ht he hb
  exact ⟨h3, e1, ht, e2⟩

omit [FloatOps F] in
theorem make_edges_inRange (m : Mesh F) (hr : InRange m) : InRange (make_edges m) := hr

omit [FloatOps F] in
theorem make_edges_sizes (m : Mesh F) (hs : SizesOk m) : SizesOk (make_edges m) := hs

omit [FloatOps F] in
theorem make_edges_vertices (m : Mesh F) : (make_edges m).vertices = m.vertices := rfl

omit [FloatOps F] in
theorem sizesOk_empty [FloatOps F] : SizesOk (Mesh.empty : Mesh F) := ⟨rfl, rfl⟩

omit [FloatOps F] in
theorem inRange_empty [FloatOps F] : InRange (Mesh.empty : Mesh F) := by
  simp [InRange, Mesh.empty]

theorem make_sphere_eq (m : Mesh F) (r : F) (c : Vector F) :
    make_sphere m r c = make_edges (sphere_grid m r c) := rfl

end InvariantProofs

/-! ## Claims on invariants and counts -/

section InvariantClaims

variable {F : Type} [FloatOps F] [CStdlib F]

omit [CStdlib F] in
theorem keeps_add_facets (rs : List (Record F)) (m : Mesh F) : Keeps m (add_facets m rs) :=
  keeps_foldl _ keeps_add_facet rs m

omit [CStdlib F] in
theorem keeps_read_binary_stl (m : Mesh F) (fp : List Nat) :
    Keeps m (read_binary_stl m fp).2 := by
  rw [read_binary_stl_eq]
  split
  · exact keeps_refl m
  · exact keeps_foldl _ keeps_binary_record _ m

/-- C8: on every input whose runs fit the 512-byte token buffer, however decoding stops
(at a token that fails to advance the state machine, at the end of the input, or at
`endsolid`), `read_ascii_stl` returns, and the mesh it leaves is the initial mesh with
exactly the complete facets that precede the stopping point inserted in order, three triangle indices each: what `vertices`, `normals` and
`triangles` held before is kept as a prefix (nothing is rolled back) and nothing of an
incomplete facet is added. -/
theorem read_ascii_stl_keeps_complete_facets (m : Mesh F) (fp : List Nat)
    (hbuf : ∀ t ∈ maximal_runs fp, t.length < 512) :
    ∃ b, read_ascii_stl m fp = some (b, add_facets m (ascii_facets (tokens fp))) ∧
      m.vertices <+: (add_facets m (ascii_facets (tokens fp))).vertices ∧
      m.normals <+: (add_facets m (ascii_facets (tokens fp))).normals ∧
      m.triangles <+: (add_facets m (ascii_facets (tokens fp))).triangles ∧
      (add_facets m (ascii_facets (tokens fp))).triangles.length
        = m.triangles.length + 3 * (ascii_facets (tokens fp) : List (Record F)).length := by
  obtain ⟨b, hb⟩ := ascii_run_facets (tokens fp) m
  have hk := keeps_add_facets (ascii_facets (tokens fp)) m
  exact ⟨b, by rw [read_ascii_stl_eq m fp hbuf, hb], hk.vertices, hk.normals, hk.triangles,
    add_facets_triangles_length _ m⟩

omit [CStdlib F] in
/-- C9: `read_binary_stl` returns false exactly when the 4-byte count cannot be read
(fewer than 4 bytes) or a record read that is performed yields between 1 and 49 bytes
(fewer complete records than declared, and a partial record after them); when the
input ends on a record boundary before the declared count it returns true, having read
the complete records; and in every case the mesh is the initial mesh with the complete
records read before the stop inserted, what it held before being kept as a prefix. -/
theorem read_binary_stl_result (m : Mesh F) (fp : List Nat) :
    ((read_binary_stl m fp).1 = false ↔
      fp.length < 4 ∨ ((fp.length - 4) / 50 < le32 fp 0 ∧ (fp.length - 4) % 50 ≠ 0)) ∧
    (4 ≤ fp.length → (fp.length - 4) % 50 = 0 → (fp.length - 4) / 50 < le32 fp 0 →
      (read_binary_stl m fp).1 = true ∧
      (chunk_records (le32 fp 0) (fp.drop 4) : List (Record F)).length = (fp.length - 4) / 50) ∧
    (read_binary_stl m fp).2 =
      (if fp.length < 4 then []
       else chunk_records (le32 fp 0) (fp.drop 4)).foldl binary_record m ∧
    m.vertices <+: (read_binary_stl m fp).2.vertices ∧
    m.normals <+: (read_binary_stl m fp).2.normals ∧
    m.triangles <+: (read_binary_stl m fp).2.triangles := by
  have hk := keeps_read_binary_stl m fp
  refine ⟨?_, ?_, ?_, hk.vertices, hk.normals, hk.triangles⟩
  · rw [read_binary_stl_eq]
    by_cases h4 : fp.length < 4
    · simp [h4]
    · simp [h4]
  · intro h4 h1 h2
    have h4' : ¬ fp.length < 4 := by omega
    rw [read_binary_stl_eq, chunk_records_length, List.length_drop]
    refine ⟨by simp [h4', h1], ?_⟩
    omega
  · rw [read_binary_stl_eq]
    by_cases h4 : fp.length < 4
    · simp [h4]
    · simp [h4]

/-- C3: `vertices.size = normals.size = size of the dedup index` holds for the empty mesh
and is preserved by `get_index`, `clear`, `read_ascii_stl` (on every input whose runs fit
the 512-byte token buffer, where it returns), `read_binary_stl`, `sphere_triangle`,
`make_sphere`, `make_edges` and `model_box`. -/
theorem sizes_invariant (m : Mesh F) (h : SizesOk m) :
    SizesOk (Mesh.empty : Mesh F) ∧
    (∀ v n, SizesOk (get_index m v n).2) ∧
    SizesOk (clear m) ∧
    (∀ fp, (∀ t ∈ maximal_runs fp, t.length < 512) →
      ∃ r, read_ascii_stl m fp = some r ∧ SizesOk r.2) ∧
    (∀ fp, SizesOk (read_binary_stl m fp).2) ∧
    (∀ r v1 v2 v3 c, SizesOk (sphere_triangle m r v1 v2 v3 c)) ∧
    (∀ r c, SizesOk (make_sphere m r c)) ∧
    SizesOk (make_edges m) ∧
    SizesOk (model_box m).2 := by
  refine ⟨sizesOk_empty, fun v n => get_index_sizes m v n h, ⟨rfl, rfl⟩, ?_, ?_, ?_, ?_,
    make_edges_sizes m h, ?_⟩
  · intro fp hbuf
    obtain ⟨b, hb⟩ := read_ascii_stl_facets m fp hbuf
    exact ⟨_, hb, (keeps_add_facets _ m).sizes h⟩
  · intro fp
    exact (keeps_read_binary_stl m fp).sizes h
  · intro r v1 v2 v3 c
    exact (keeps_sphere_triangle m r v1 v2 v3 c).sizes h
  · intro r c
    rw [make_sphere_eq]
    exact make_edges_sizes _ ((keeps_sphere_grid m r c).sizes h)
  · unfold model_box
    split
    · exact h
    · exact h

/-- C4: a mesh populated from empty by `read_binary_stl`, by `read_ascii_stl` (on an
input whose runs fit the 512-byte token buffer, where it returns) or by `make_sphere`,
and then passed to `make_edges`, has a `triangles` length that is a multiple of 3, an
`edges` length that is even, and every entry of `triangles` and of `edges` below
`vertices.size`; so has the mesh that `make_sphere` leaves, which has run `make_edges`
itself. -/
theorem decoded_mesh_wellIndexed :
    (∀ fp, WellIndexed (make_edges (read_binary_stl (Mesh.empty : Mesh F) fp).2)) ∧
    (∀ fp, (∀ t ∈ maximal_runs fp, t.length < 512) →
      ∃ r, read_ascii_stl (Mesh.empty : Mesh F) fp = some r ∧ WellIndexed (make_edges r.2)) ∧
    (∀ r c, WellIndexed (make_edges (make_sphere (Mesh.empty : Mesh F) r c))) ∧
    (∀ r c, WellIndexed (make_sphere (Mesh.empty : Mesh F) r c)) := by
  have hempty : ∀ m : Mesh F, Keeps (Mesh.empty : Mesh F) m → WellIndexed (make_edges m) := by
    intro m hk
    apply make_edges_wellIndexed m (hk.range sizesOk_empty inRange_empty)
    · rw [hk.edges]; rfl
    · rw [hk.edges]; intro e he; cases he
  refine ⟨?_, ?_, ?_, ?_⟩
  · intro fp
    exact hempty _ (keeps_read_binary_stl _ fp)
  · intro fp hbuf
    obtain ⟨b, hb⟩ := read_ascii_stl_facets (Mesh.empty : Mesh F) fp hbuf
    exact ⟨_, hb, hempty _ (keeps_add_facets _ _)⟩
  · intro r c
    have hk := keeps_sphere_grid (Mesh.empty : Mesh F) r c
    have h1 := hempty _ hk
    rw [make_sphere_eq]
    apply make_edges_wellIndexed
    · exact make_edges_inRange _ (hk.range sizesOk_empty inRange_empty)
    · exact h1.2.1
    · exact h1.2.2.2
  · intro r c
    have h1 := hempty _ (keeps_sphere_grid (Mesh.empty : Mesh F) r c)
    rw [make_sphere_eq]
    exact h1

omit [CStdlib F] in
theorem binary_records_counts (rs : List (Record F)) :
    ∀ m : Mesh F,
      (rs.foldl binary_record m).triangles.length
        = m.triangles.length + 3 * (rs.length - rs.countP degenerate) ∧
      (rs.foldl binary_record m).vertices.length ≤ m.vertices.length + 3 * rs.length := by
  induction rs with
  | nil => intro m; simp
  | cons r rs ih =>
    intro m
    have hle : rs.countP degenerate ≤ rs.length := List.countP_le_length _
    simp only [List.foldl_cons, List.length_cons]
    by_cases hd : degenerate r = true
    · have hb : binary_record m r = m := by
        unfold binary_record; unfold degenerate at hd; simp [hd]
      obtain ⟨h1, h2⟩ := ih m
      rw [hb, List.countP_cons_of_pos _ _ hd]
      constructor
      · rw [h1]; omega
      · omega
    · have hb : binary_record m r = add_facet m r := by
        unfold binary_record; unfold degenerate at hd; simp [hd]
      obtain ⟨h1, h2⟩ := ih (add_facet m r)
      have ht := add_facets_triangles_length [r] m
      have hv := (emit_triangle_vertices_le m r.vertex1
        ((facet_cross r).divide (facet_cross r).length) r.vertex2
        ((facet_cross r).divide (facet_cross r).length) r.vertex3
        ((facet_cross r).divide (facet_cross r).length)).2
      have ht' : (add_facet m r).triangles.length = m.triangles.length + 3 := by
        simpa [add_facets] using ht
      have hv' : (add_facet m r).vertices.length ≤ m.vertices.length + 3 := hv
      rw [hb, List.countP_cons_of_neg _ _ hd]
      constructor
      · rw [h1, ht']; omega
      · omega

omit [CStdlib F] in
/-- C5: for an input that declares `N` facets and holds `N` complete 50-byte records,
`read_binary_stl` on an empty mesh returns true, reads exactly those `N` records, and
leaves `triangles.size = 3 * (N - D)`, where `D` counts the records whose cross product
has zero length, with `vertices.size = normals.size <= 3 * N`. -/
theorem read_binary_stl_counts (fp : List Nat) (N : Nat)
    (hN : le32 fp 0 = N) (hlen : 4 + 50 * N ≤ fp.length) :
    (read_binary_stl (Mesh.empty : Mesh F) fp).1 = true ∧
    (chunk_records N (fp.drop 4) : List (Record F)).length = N ∧
    (read_binary_stl (Mesh.empty : Mesh F) fp).2.triangles.length
      = 3 * (N - (chunk_records N (fp.drop 4) : List (Record F)).countP degenerate) ∧
    (read_binary_stl (Mesh.empty : Mesh F) fp).2.vertices.length
      = (read_binary_stl (Mesh.empty : Mesh F) fp).2.normals.length ∧
    (read_binary_stl (Mesh.empty : Mesh F) fp).2.vertices.length ≤ 3 * N := by
  have h4 : ¬ fp.length < 4 := by omega
  have hchunk : (chunk_records N (fp.drop 4) : List (Record F)).length = N := by
    rw [chunk_records_length, List.length_drop]
    omega
  have hdiv : ¬ (fp.length - 4) / 50 < N := by omega
  have hres : read_binary_stl (Mesh.empty : Mesh F) fp
      = (true, (chunk_records N (fp.drop 4)).foldl binary_record Mesh.empty) := by
    rw [read_binary_stl_eq]
    simp [h4, hN, hdiv]
  obtain ⟨c1, c2⟩ := binary_records_counts (chunk_records N (fp.drop 4) : List (Record F))
    (Mesh.empty : Mesh F)
  have hsizes := (keeps_foldl _ keeps_binary_record
    (chunk_records N (fp.drop 4) : List (Record F)) (Mesh.empty : Mesh F)).sizes sizesOk_empty
  rw [hres]
  refine ⟨rfl, hchunk, ?_, hsizes.1, ?_⟩
  · rw [c1, hchunk]; simp [Mesh.empty]
  · rw [hchunk] at c2
    simpa [Mesh.empty] using c2

end InvariantClaims

/-! ## The claims on concrete files -/

/-- Witness for C3: the mesh that holds the single vertex `origin`, with the file
`asciiOne` for the ASCII decoder. -/
theorem sizes_invariant_witness :
    SizesOk (Mesh.empty : Mesh F32) ∧
    (∀ v n, SizesOk (get_index (get_index (Mesh.empty : Mesh F32) origin unitZ).2 v n).2) ∧
    SizesOk (clear (get_index (Mesh.empty : Mesh F32) origin unitZ).2) ∧
    (∀ fp, (∀ t ∈ maximal_runs fp, t.length < 512) →
      ∃ r, read_ascii_stl (get_index (Mesh.empty : Mesh F32) origin unitZ).2 fp = some r ∧
        SizesOk r.2) ∧
    (∀ fp, SizesOk (read_binary_stl (get_index (Mesh.empty : Mesh F32) origin unitZ).2 fp).2) ∧
    (∀ r v1 v2 v3 c,
      SizesOk (sphere_triangle (get_index (Mesh.empty : Mesh F32) origin unitZ).2 r v1 v2 v3 c)) ∧
    (∀ r c, SizesOk (make_sphere (get_index (Mesh.empty : Mesh F32) origin unitZ).2 r c)) ∧
    SizesOk (make_edges (get_index (Mesh.empty : Mesh F32) origin unitZ).2) ∧
    SizesOk (model_box (get_index (Mesh.empty : Mesh F32) origin unitZ).2).2 ∧
    (∃ r, read_ascii_stl (get_index (Mesh.empty : Mesh F32) origin unitZ).2 asciiOne = some r ∧
      SizesOk r.2) :=
  have H := sizes_invariant (get_index (Mesh.empty : Mesh F32) origin unitZ).2
    ⟨by decide, by decide⟩
  ⟨H.1, H.2.1, H.2.2.1, H.2.2.2.1, H.2.2.2.2.1, H.2.2.2.2.2.1, H.2.2.2.2.2.2.1,
    H.2.2.2.2.2.2.2.1, H.2.2.2.2.2.2.2.2, H.2.2.2.1 asciiOne (by decide)⟩

/-- Witness for C4: the file `asciiOne`, the file `binTwo` and the unit sphere about the
origin. -/
theorem decoded_mesh_wellIndexed_witness :
    (∃ r, read_ascii_stl (Mesh.empty : Mesh F32) asciiOne = some r ∧
      WellIndexed (make_edges r.2)) ∧
    WellIndexed (make_edges (read_binary_stl (Mesh.empty : Mesh F32) binTwo).2) ∧
    WellIndexed (make_sphere (Mesh.empty : Mesh F32) (FloatOps.ofNat 1) origin) :=
  ⟨(decoded_mesh_wellIndexed (F := F32)).2.1 asciiOne (by decide),
   (decoded_mesh_wellIndexed (F := F32)).1 binTwo,
   (decoded_mesh_wellIndexed (F := F32)).2.2.2 (FloatOps.ofNat 1) origin⟩

/-- A file made of one run of 512 bytes `x`: the run does not fit `char token[512]`
together with its terminator, and the model gives no result, for `read_ascii_stl` and
for `read_stl` on the same run after `solid `. -/
theorem read_ascii_stl_overflow_at_512 :
    (List.replicate 512 120).length = 512 ∧
    read_ascii_stl (Mesh.empty : Mesh F32) (List.replicate 512 120) = none ∧
    read_stl (Mesh.empty : Mesh F32) (some (kw "solid " ++ List.replicate 512 120)) = none :=
  ⟨by decide, by decide, by decide⟩

/-- Witness for C5: `binTwo` declares two facets, one of them degenerate. -/
theorem read_binary_stl_counts_witness :
    (read_binary_stl (Mesh.empty : Mesh F32) binTwo).1 = true ∧
    (chunk_records 2 (binTwo.drop 4) : List (Record F32)).length = 2 ∧
    (read_binary_stl (Mesh.empty : Mesh F32) binTwo).2.triangles.length
      = 3 * (2 - (chunk_records 2 (binTwo.drop 4) : List (Record F32)).countP degenerate) ∧
    (read_binary_stl (Mesh.empty : Mesh F32) binTwo).2.vertices.length
      = (read_binary_stl (Mesh.empty : Mesh F32) binTwo).2.normals.length ∧
    (read_binary_stl (Mesh.empty : Mesh F32) binTwo).2.vertices.length ≤ 3 * 2 :=
  read_binary_stl_counts binTwo 2 (by decide) (by decide)

/-- Witness for C6: `asciiOne`, a named solid with one facet. -/
theorem read_ascii_stl_wellformed_witness :
    read_ascii_stl (Mesh.empty : Mesh F32) asciiOne
      = some (true, add_facets Mesh.empty [facetOne]) ∧
    (add_facets (Mesh.empty : Mesh F32) [facetOne]).triangles.length = 3 * [facetOneText].length :=
  read_ascii_stl_wellformed asciiOne (some (kw "name")) [facetOneText] [facetOne] [kw "name"]
    (by decide) (by decide)
    (List.Forall₂.cons (by unfold FacetText.parses; decide) List.Forall₂.nil)
    (by decide)

/-- Witness for C7: in `asciiBad` the fourth token `x` stands where the first component
of the normal is expected, and decoding stops there with false; in `asciiOne` the first
token `name` leaves `state` at 0 and decoding goes on with the tokens after it. -/
theorem read_ascii_stl_stops_at_bad_token_witness :
    read_ascii_stl (Mesh.empty : Mesh F32) asciiBad = some (false, asciiBadState.mesh) ∧
    (ascii_switch 0 Record.blank (Mesh.empty : Mesh F32) (kw "name")).map (fun p => p.1)
      = some 0 ∧
    read_ascii_stl (Mesh.empty : Mesh F32) asciiOne
      = some (ascii_run (tokens asciiOne).tail ⟨0, Record.blank, false, Mesh.empty⟩) :=
  ⟨(read_ascii_stl_stops_at_bad_token (Mesh.empty : Mesh F32) asciiBad
      [kw "name", kw "facet", kw "normal"] (kw "x") [kw "0", kw "0", kw "outer", kw "loop"]
      asciiBadState (by decide) (by decide) (by decide) (by decide) (by decide)).1,
   (read_ascii_stl_stops_at_bad_token (Mesh.empty : Mesh F32) asciiBad
      [kw "name", kw "facet", kw "normal"] (kw "x") [kw "0", kw "0", kw "outer", kw "loop"]
      asciiBadState (by decide) (by decide) (by decide) (by decide) (by decide)).2
      asciiOne (kw "name") (tokens asciiOne).tail (by decide) (by decide) (by decide)
      (by decide)⟩

/-- Witness for C8: `asciiBad` stops at a failing token inside its first facet; nothing
is added. -/
theorem read_ascii_stl_keeps_complete_facets_witness :
    (ascii_facets (tokens asciiBad) : List (Record F32)) = [] ∧
    ∃ b, read_ascii_stl (Mesh.empty : Mesh F32) asciiBad
        = some (b, add_facets Mesh.empty (ascii_facets (tokens asciiBad))) ∧
      (Mesh.empty : Mesh F32).vertices
        <+: (add_facets (Mesh.empty : Mesh F32) (ascii_facets (tokens asciiBad))).vertices ∧
      (Mesh.empty : Mesh F32).normals
        <+: (add_facets (Mesh.empty : Mesh F32) (ascii_facets (tokens asciiBad))).normals ∧
      (Mesh.empty : Mesh F32).triangles
        <+: (add_facets (Mesh.empty : Mesh F32) (ascii_facets (tokens asciiBad))).triangles ∧
      (add_facets (Mesh.empty : Mesh F32) (ascii_facets (tokens asciiBad))).triangles.length
        = (Mesh.empty : Mesh F32).triangles.length
          + 3 * (ascii_facets (tokens asciiBad) : List (Record F32)).length :=
  ⟨by decide, read_ascii_stl_keeps_complete_facets (Mesh.empty : Mesh F32) asciiBad (by decide)⟩

/-- C7, counterexample: the first token of `asciiOne`, the solid name, leaves `state` at
0, and yet decoding goes on: the facet that follows is inserted and the result is true. -/
theorem read_ascii_stl_first_token_tolerated :
    (tokens asciiOne).head? = some (kw "name") ∧
    (ascii_switch 0 Record.blank (Mesh.empty : Mesh F32) (kw "name")).map (fun p => p.1)
      = some 0 ∧
    (read_ascii_stl (Mesh.empty : Mesh F32) asciiOne).map (fun r => (r.1, r.2.triangles))
      = some (true, [0, 1, 2]) := by
  decide

/-- C10, the code at the failing input: the facet of `asciiDegen` has a cross product of
zero length; `read_ascii_stl` inserts it all the same, as triangle `[0, 1, 2]` over
three vertices with NaN normals, while `read_binary_stl` skips the same facet. -/
theorem read_ascii_stl_keeps_degenerate :
    degenerate facetDegen = true ∧
    (read_ascii_stl (Mesh.empty : Mesh F32) asciiDegen).map
        (fun r => (r.1, r.2.triangles, r.2.vertices, r.2.normals))
      = some (true, [0, 1, 2], [origin, origin, origin], [nanNormal, nanNormal, nanNormal]) ∧
    (chunk_records 1 (binDegen.drop 4) : List (Record F32)) = [facetDegen] ∧
    read_binary_stl (Mesh.empty : Mesh F32) binDegen = (true, Mesh.empty) := by
  decide


/-! ## Bounding box -/

section BoundingBox

variable {F : Type} [FloatOps F]

/-- The x and y bounds of the scan follow the x and y components alone. -/
theorem scan_box_x_y (v0 : Vector F) (rest : List (Vector F)) :
    (scan_box (v0 :: rest)).xmin
      = rest.foldl (fun a v => if FloatOps.lt v.x a then v.x else a) v0.x ∧
    (scan_box (v0 :: rest)).xmax
      = rest.foldl (fun a v => if FloatOps.lt a v.x then v.x else a) v0.x ∧
    (scan_box (v0 :: rest)).ymin
      = rest.foldl (fun a v => if FloatOps.lt v.y a then v.y else a) v0.y ∧
    (scan_box (v0 :: rest)).ymax
      = rest.foldl (fun a v => if FloatOps.lt a v.y then v.y else a) v0.y := by
  have key : ∀ (l : List (Vector F)) (b : Box F),
      (l.foldl box_step b).xmin
        = l.foldl (fun a v => if FloatOps.lt v.x a then v.x else a) b.xmin ∧
      (l.foldl box_step b).xmax
        = l.foldl (fun a v => if FloatOps.lt a v.x then v.x else a) b.xmax ∧
      (l.foldl box_step b).ymin
        = l.foldl (fun a v => if FloatOps.lt v.y a then v.y else a) b.ymin ∧
      (l.foldl box_step b).ymax
        = l.foldl (fun a v => if FloatOps.lt a v.y then v.y else a) b.ymax := by
    intro l
    induction l with
    | nil => intro b; exact ⟨rfl, rfl, rfl, rfl⟩
    | cons v l ih => intro b; exact ih (box_step b v)
  exact key rest _

/-- C15, the code at the failing input: for the vertices `(0, 0, 0)` and `(0, 0, 1)`,
box not cached, `model_box` returns `zmax = 0` although the largest z component is 1: the
test that guards `zmax` compares the x component. -/
theorem model_box_z_from_x :
    twoVertexMesh.vertices = [origin, unitZ] ∧ twoVertexMesh.box_cached = false ∧
    (model_box twoVertexMesh).1 = ⟨⟨0⟩, ⟨0⟩, ⟨0⟩, ⟨0⟩, ⟨0⟩, ⟨0⟩⟩ ∧
    F32.lt (model_box twoVertexMesh).1.zmax unitZ.z = true := by
  decide

/-- The cache invariant: a cached box is the scan of the current vertices. -/
theorem cache_ok_apply (m : Mesh F) (op : MeshOp F)
    (h : m.box_cached = true → m.box = scan_box m.vertices) :
    (MeshOp.apply m op).box_cached = true →
      (MeshOp.apply m op).box = scan_box (MeshOp.apply m op).vertices := by
  cases op with
  | get_index v n =>
    simp only [MeshOp.apply]
    cases hf : m.find ⟨v, n⟩ with
    | none => rw [get_index_miss m v n hf]; intro hc; cases hc
    | some it => rw [get_index_hit m v n it hf]; exact h
  | clear => intro hc; cases hc
  | model_box =>
    simp only [MeshOp.apply, model_box]
    split
    · exact h
    · intro _; rfl

theorem cache_ok_run (ops : List (MeshOp F)) :
    ∀ m : Mesh F, (m.box_cached = true → m.box = scan_box m.vertices) →
      ((run_ops m ops).box_cached = true →
        (run_ops m ops).box = scan_box (run_ops m ops).vertices) := by
  induction ops with
  | nil => intro m h; exact h
  | cons op ops ih => intro m h; exact ih _ (cache_ok_apply m op h)

/-- C16: in every mesh reached from the empty mesh by `get_index`, `clear` and
`model_box` calls, a cached box is the box that the scan computes from the current
vertices, and `model_box` returns that box (the all-zero box when there are no
vertices) and leaves it cached. -/
theorem model_box_cache (ops : List (MeshOp F)) :
    ((run_ops (Mesh.empty : Mesh F) ops).box_cached = true →
      (run_ops (Mesh.empty : Mesh F) ops).box
        = scan_box (run_ops (Mesh.empty : Mesh F) ops).vertices) ∧
    (model_box (run_ops (Mesh.empty : Mesh F) ops)).1
      = scan_box (run_ops (Mesh.empty : Mesh F) ops).vertices ∧
    (model_box (run_ops (Mesh.empty : Mesh F) ops)).2.box_cached = true ∧
    (model_box (run_ops (Mesh.empty : Mesh F) ops)).2.vertices
      = (run_ops (Mesh.empty : Mesh F) ops).vertices ∧
    scan_box ([] : List (Vector F))
      = ⟨FloatOps.ofNat 0, FloatOps.ofNat 0, FloatOps.ofNat 0,
         FloatOps.ofNat 0, FloatOps.ofNat 0, FloatOps.ofNat 0⟩ := by
  have h := cache_ok_run ops (Mesh.empty : Mesh F) (by intro hc; cases hc)
  refine ⟨h, ?_, ?_, ?_, rfl⟩
  · unfold model_box
    split
    · rename_i hc; exact h hc
    · rfl
  · unfold model_box
    split
    · rename_i hc; exact hc
    · rfl
  · unfold model_box
    split <;> rfl

end BoundingBox

/-! ## Edge extraction -/

section Edges

theorem make_edge_id_eq (a b : Nat) (ha : a < 2 ^ 32) (hb : b < 2 ^ 32) :
    make_edge_id a b = if a < b then 2 ^ 32 * a + b else 2 ^ 32 * b + a := by
  unfold make_edge_id
  split
  · rw [Nat.mod_eq_of_lt (by omega), Nat.mul_comm, ← Nat.mul_add_lt_is_or hb]
  · rw [Nat.mod_eq_of_lt (by omega), Nat.mul_comm, ← Nat.mul_add_lt_is_or ha]

/-- On 32-bit values `make_edge_id` identifies exactly the pairs that are the same
undirected edge. -/
theorem make_edge_id_inj (a b c d : Nat) (ha : a < 2 ^ 32) (hb : b < 2 ^ 32)
    (hc : c < 2 ^ 32) (hd : d < 2 ^ 32) :
    make_edge_id a b = make_edge_id c d ↔ same_edge (a, b) (c, d) = true := by
  rw [make_edge_id_eq a b ha hb, make_edge_id_eq c d hc hd]
  simp only [same_edge, Bool.or_eq_true, Bool.and_eq_true, beq_iff_eq]
  split <;> split <;> constructor <;> intro h <;> omega

theorem same_edge_symm (p q : Nat × Nat) : same_edge p q = same_edge q p := by
  simp only [same_edge]
  rw [Bool.eq_iff_iff]
  simp only [Bool.or_eq_true, Bool.and_eq_true, beq_iff_eq]
  constructor <;> rintro (⟨h1, h2⟩ | ⟨h1, h2⟩) <;> simp [h1, h2]

theorem flat_pairs_append (k l : List (Nat × Nat)) :
    flat_pairs (k ++ l) = flat_pairs k ++ flat_pairs l := by
  induction k with
  | nil => rfl
  | cons p k ih => simp [flat_pairs, ih]

theorem edge_pairs_flat (k : List (Nat × Nat)) : edge_pairs (flat_pairs k) = k := by
  induction k with
  | nil => rfl
  | cons p k ih => simp [flat_pairs, edge_pairs, ih]

/-- One step of `make_edges` on a state that stores the kept pairs `kept`. -/
theorem edge_step_kept (v1 v2 : Nat) (kept : List (Nat × Nat))
    (h1 : v1 < 2 ^ 32) (h2 : v2 < 2 ^ 32)
    (hk : ∀ q ∈ kept, q.1 < 2 ^ 32 ∧ q.2 < 2 ^ 32) :
    edge_step v1 v2 (kept.map (fun q => make_edge_id q.1 q.2), flat_pairs kept) =
      ((if kept.any (fun q => same_edge q (v1, v2)) then kept else kept ++ [(v1, v2)]).map
          (fun q => make_edge_id q.1 q.2),
       flat_pairs (if kept.any (fun q => same_edge q (v1, v2)) then kept
                   else kept ++ [(v1, v2)])) := by
  have hiff : make_edge_id v1 v2 ∈ kept.map (fun q => make_edge_id q.1 q.2) ↔
      kept.any (fun q => same_edge q (v1, v2)) = true := by
    simp only [List.mem_map, List.any_eq_true]
    constructor
    · rintro ⟨q, hq, he⟩
      exact ⟨q, hq, (make_edge_id_inj q.1 q.2 v1 v2 (hk q hq).1 (hk q hq).2 h1 h2).1 he⟩
    · rintro ⟨q, hq, he⟩
      exact ⟨q, hq, (make_edge_id_inj q.1 q.2 v1 v2 (hk q hq).1 (hk q hq).2 h1 h2).2 he⟩
  by_cases hc : kept.any (fun q => same_edge q (v1, v2)) = true
  · have := hiff.2 hc
    simp [edge_step, hc, this]
  · have hn : ¬ make_edge_id v1 v2 ∈ kept.map (fun q => make_edge_id q.1 q.2) :=
      fun h => hc (hiff.1 h)
    simp only [List.mem_map] at hn
    simp [edge_step, hc, hn, flat_pairs_append, flat_pairs]

theorem first_sides_cons (p : Nat × Nat) (ps kept : List (Nat × Nat)) :
    first_sides (p :: ps) kept
      = first_sides ps (if kept.any (fun q => same_edge q p) then kept else kept ++ [p]) := by
  simp only [first_sides]
  split <;> rfl

/-- The loop of `make_edges` keeps the first occurrence of every undirected side. -/
theorem make_edges_loop_first_sides (n : Nat) :
    ∀ (ts : List Nat) (kept : List (Nat × Nat)), ts.length ≤ n →
      (∀ t ∈ ts, t < 2 ^ 32) → (∀ q ∈ kept, q.1 < 2 ^ 32 ∧ q.2 < 2 ^ 32) →
      make_edges_loop ts (kept.map (fun q => make_edge_id q.1 q.2), flat_pairs kept) =
        ((first_sides (sides ts) kept).map (fun q => make_edge_id q.1 q.2),
         flat_pairs (first_sides (sides ts) kept)) := by
  induction n with
  | zero =>
    intro ts kept hl _ _
    have : ts = [] := List.length_eq_zero.1 (Nat.le_zero.1 hl)
    subst this
    rfl
  | succ n ih =>
    intro ts kept hl ht hk
    match ts, hl, ht with
    | [], _, _ => rfl
    | [_], _, _ => rfl
    | [_, _], _, _ => rfl
    | t0 :: t1 :: t2 :: rest, hl, ht =>
      have h0 := ht t0 (by simp)
      have h1 := ht t1 (by simp)
      have h2 := ht t2 (by simp)
      have grow : ∀ (a b : Nat) (k : List (Nat × Nat)), a < 2 ^ 32 → b < 2 ^ 32 →
          (∀ q ∈ k, q.1 < 2 ^ 32 ∧ q.2 < 2 ^ 32) →
          ∀ q ∈ (if k.any (fun q => same_edge q (a, b)) then k else k ++ [(a, b)]),
            q.1 < 2 ^ 32 ∧ q.2 < 2 ^ 32 := by
        intro a b k ha hb hk' q hq
        split at hq
        · exact hk' q hq
        · rcases List.mem_append.1 hq with h | h
          · exact hk' q h
          · simp only [List.mem_singleton] at h; subst h; exact ⟨ha, hb⟩
      have k1 := grow t0 t1 kept h0 h1 hk
      have k2 := grow t1 t2 _ h1 h2 k1
      have k3 := grow t2 t0 _ h2 h0 k2
      simp only [make_edges_loop, sides, first_sides_cons]
      rw [edge_step_kept t0 t1 kept h0 h1 hk, edge_step_kept t1 t2 _ h1 h2 k1,
        edge_step_kept t2 t0 _ h2 h0 k2]
      apply ih rest _ _ (fun t hm => ht t (by simp [hm])) k3
      simp only [List.length_cons] at hl
      omega

theorem first_sides_spec (ps : List (Nat × Nat)) :
    ∀ kept : List (Nat × Nat),
      kept.Pairwise (fun p q => same_edge p q = false) →
      (first_sides ps kept).Pairwise (fun p q => same_edge p q = false) ∧
      (∀ q ∈ kept, q ∈ first_sides ps kept) ∧
      (∀ s ∈ ps, ∃ p ∈ first_sides ps kept, same_edge p s = true) ∧
      (∃ l, first_sides ps kept = kept ++ l ∧ l.Sublist ps) := by
  induction ps with
  | nil =>
    intro kept hk
    refine ⟨hk, fun q hq => hq, ?_, [], ?_⟩
    · intro s hs; cases hs
    · simp [first_sides]
  | cons p ps ih =>
    intro kept hk
    rw [first_sides_cons]
    by_cases hc : kept.any (fun q => same_edge q p) = true
    · simp only [hc, if_true]
      obtain ⟨h1, h2, h3, l, h4, h5⟩ := ih kept hk
      refine ⟨h1, h2, ?_, l, h4, h5.cons p⟩
      intro s hs
      rcases List.mem_cons.1 hs with rfl | hs
      · obtain ⟨q, hq, hqs⟩ := List.any_eq_true.1 hc
        exact ⟨q, h2 q hq, hqs⟩
      · exact h3 s hs
    · simp only [hc, if_false, Bool.false_eq_true]
      have hk' : (kept ++ [p]).Pairwise (fun p q => same_edge p q = false) := by
        rw [List.pairwise_append]
        refine ⟨hk, List.pairwise_singleton _ _, ?_⟩
        intro a ha b hb
        simp only [List.mem_singleton] at hb
        subst hb
        cases hs : same_edge a b with
        | false => rfl
        | true => exact absurd (List.any_eq_true.2 ⟨a, ha, hs⟩) hc
      obtain ⟨h1, h2, h3, l, h4, h5⟩ := ih (kept ++ [p]) hk'
      refine ⟨h1, fun q hq => h2 q (List.mem_append_left _ hq), ?_, p :: l, ?_, h5.cons₂ p⟩
      · intro s hs
        rcases List.mem_cons.1 hs with rfl | hs
        · exact ⟨s, h2 s (by simp), by simp [same_edge]⟩
        · exact h3 s hs
      · rw [h4]; simp

end Edges

section EdgeClaims

variable {F : Type}

theorem sides_length (n : Nat) : ∀ ts : List Nat, ts.length ≤ n → ts.length % 3 = 0 →
    (sides ts).length = ts.length := by
  induction n with
  | zero =>
    intro ts hl _
    have : ts = [] := List.length_eq_zero.1 (Nat.le_zero.1 hl)
    subst this; rfl
  | succ n ih =>
    intro ts hl h3
    match ts, hl, h3 with
    | [], _, _ => rfl
    | [_], _, h3 => simp at h3
    | [_, _], _, h3 => simp at h3
    | t0 :: t1 :: t2 :: rest, hl, h3 =>
      simp only [List.length_cons] at hl h3
      simp only [sides, List.length_cons]
      rw [ih rest (by omega) (by omega)]

theorem make_edges_first_sides (m : Mesh F) (h32 : ∀ t ∈ m.triangles, t < 2 ^ 32)
    (he : m.edges = []) :
    (make_edges m).edges = flat_pairs (first_sides (sides m.triangles) []) := by
  have h := make_edges_loop_first_sides m.triangles.length m.triangles [] (Nat.le_refl _) h32
    (by intro q hq; cases hq)
  simp only [make_edges, he]
  have h' : make_edges_loop m.triangles ([], []) = _ := h
  rw [h']

/-- C13: for a triangle index list whose length is a multiple of 3 and whose entries fit
in 32 bits, `make_edges` on a mesh with empty `edges` stores exactly the pairs
`first_sides (sides triangles) []`: the sides `(i0, i1)`, `(i1, i2)`, `(i2, i0)` of the
triangles, each undirected side once, at its first appearance and as written there.  No
two stored pairs are the same undirected edge, every side is the same undirected edge as
a stored pair, and the stored pairs are a subsequence of the sides. -/
theorem make_edges_unique_sides (m : Mesh F)
    (h3 : m.triangles.length % 3 = 0) (h32 : ∀ t ∈ m.triangles, t < 2 ^ 32)
    (he : m.edges = []) :
    (sides m.triangles).length = m.triangles.length ∧
    (make_edges m).edges = flat_pairs (first_sides (sides m.triangles) []) ∧
    edge_pairs (make_edges m).edges = first_sides (sides m.triangles) [] ∧
    (edge_pairs (make_edges m).edges).Pairwise (fun p q => same_edge p q = false) ∧
    (∀ s ∈ sides m.triangles, ∃ p ∈ edge_pairs (make_edges m).edges, same_edge p s = true) ∧
    (edge_pairs (make_edges m).edges).Sublist (sides m.triangles) := by
  have h := make_edges_first_sides m h32 he
  obtain ⟨p1, _, p3, l, p4, p5⟩ := first_sides_spec (sides m.triangles) [] List.Pairwise.nil
  have hl : first_sides (sides m.triangles) [] = l := by simpa using p4
  rw [h, edge_pairs_flat]
  refine ⟨sides_length _ _ (Nat.le_refl _) h3, rfl, rfl, p1, p3, ?_⟩
  rw [hl]; exact p5

/-- A triangle with three distinct vertices keeps its three sides; a later side with
distinct ends is the same undirected edge as one of them exactly when both its ends are
vertices of the triangle. -/
theorem triangle_sides_kept (a b c : Nat) (hd : a ≠ b ∧ b ≠ c ∧ a ≠ c)
    (ps : List (Nat × Nat)) :
    first_sides ((a, b) :: (b, c) :: (c, a) :: ps) []
      = first_sides ps [(a, b), (b, c), (c, a)] ∧
    ∀ x y : Nat, x ≠ y →
      (([(a, b), (b, c), (c, a)] : List (Nat × Nat)).any (fun s => same_edge s (x, y)) = true ↔
        (x = a ∨ x = b ∨ x = c) ∧ (y = a ∨ y = b ∨ y = c)) := by
  obtain ⟨d1, d2, d3⟩ := hd
  constructor
  · simp [first_sides, same_edge, d1, d2, d3, Ne.symm d1, Ne.symm d2, Ne.symm d3]
  · intro x y hxy
    simp only [same_edge, List.any_cons, List.any_nil, Bool.or_false, Bool.or_eq_true,
      Bool.and_eq_true, beq_iff_eq]
    omega

/-- Three sides with distinct ends `p`, `q`, `r` added to kept pairs: each is kept unless
it is the same undirected edge as a pair kept before. -/
theorem first_sides_triangle_length (p q r : Nat) (hd : p ≠ q ∧ q ≠ r ∧ p ≠ r)
    (kept : List (Nat × Nat)) :
    (first_sides [(p, q), (q, r), (r, p)] kept).length
      = kept.length
        + (if kept.any (fun s => same_edge s (p, q)) = true then 0 else 1)
        + (if kept.any (fun s => same_edge s (q, r)) = true then 0 else 1)
        + (if kept.any (fun s => same_edge s (r, p)) = true then 0 else 1) := by
  obtain ⟨d1, d2, d3⟩ := hd
  have e1 : same_edge (p, q) (q, r) = false := by
    simp only [same_edge, Bool.or_eq_false_iff, Bool.and_eq_false_iff, beq_eq_false_iff_ne]
    omega
  have e2 : same_edge (p, q) (r, p) = false := by
    simp only [same_edge, Bool.or_eq_false_iff, Bool.and_eq_false_iff, beq_eq_false_iff_ne]
    omega
  have e3 : same_edge (q, r) (r, p) = false := by
    simp only [same_edge, Bool.or_eq_false_iff, Bool.and_eq_false_iff, beq_eq_false_iff_ne]
    omega
  by_cases c1 : kept.any (fun s => same_edge s (p, q)) = true <;>
  by_cases c2 : kept.any (fun s => same_edge s (q, r)) = true <;>
  by_cases c3 : kept.any (fun s => same_edge s (r, p)) = true <;>
  simp [first_sides, List.any_append, c1, c2, c3, e1, e2, e3]

/-- C14 (as amended): for a single triangle with three distinct vertex indices,
`make_edges` yields exactly 3 index pairs; for two such triangles with exactly two common
vertex indices it yields exactly 5 index pairs, no two of them the same undirected edge
(the shared edge is stored once). -/
theorem make_edges_counts (m m2 : Mesh F) (t0 t1 t2 a b c p q r : Nat)
    (hm : m.triangles = [t0, t1, t2]) (he : m.edges = [])
    (ht : t0 < 2 ^ 32 ∧ t1 < 2 ^ 32 ∧ t2 < 2 ^ 32)
    (hd : t0 ≠ t1 ∧ t1 ≠ t2 ∧ t0 ≠ t2)
    (hm2 : m2.triangles = [a, b, c, p, q, r]) (he2 : m2.edges = [])
    (h32 : ∀ t ∈ [a, b, c, p, q, r], t < 2 ^ 32)
    (hd1 : a ≠ b ∧ b ≠ c ∧ a ≠ c) (hd2 : p ≠ q ∧ q ≠ r ∧ p ≠ r)
    (hshare : ([a, b, c].filter (fun x => x ∈ [p, q, r])).length = 2) :
    (edge_pairs (make_edges m).edges).length = 3 ∧
    (edge_pairs (make_edges m2).edges).length = 5 ∧
    (edge_pairs (make_edges m2).edges).Pairwise (fun x y => same_edge x y = false) := by
  have h1 := make_edges_first_sides m (by rw [hm]; intro t h; simp at h; omega) he
  have h2 := make_edges_first_sides m2 (by rw [hm2]; exact h32) he2
  obtain ⟨pw, -⟩ := first_sides_spec (sides m2.triangles) [] List.Pairwise.nil
  rw [h1, h2, edge_pairs_flat, edge_pairs_flat]
  refine ⟨?_, ?_, pw⟩
  · rw [hm]
    have := (triangle_sides_kept t0 t1 t2 hd []).1
    simp only [sides]
    rw [this]
    rfl
  · rw [hm2]
    have hk := triangle_sides_kept a b c hd1 [(p, q), (q, r), (r, p)]
    simp only [sides]
    rw [hk.1, first_sides_triangle_length p q r hd2]
    obtain ⟨d1, d2, d3⟩ := hd1
    obtain ⟨f1, f2, f3⟩ := hd2
    have hcount : (if p = a ∨ q = a ∨ r = a then 1 else 0)
        + (if p = b ∨ q = b ∨ r = b then 1 else 0)
        + (if p = c ∨ q = c ∨ r = c then 1 else 0) = 2 := by
      have hf : ∀ x : Nat, ([x].filter (fun x => x ∈ [p, q, r])).length
          = if p = x ∨ q = x ∨ r = x then 1 else 0 := by
        intro x
        by_cases hx : p = x ∨ q = x ∨ r = x
        · have hx' : x = p ∨ x = q ∨ x = r := by omega
          simp [List.filter, hx, hx']
        · have hx' : ¬ (x = p ∨ x = q ∨ x = r) := by omega
          simp [List.filter, hx, hx']
      have : [a, b, c] = [a] ++ [b] ++ [c] := rfl
      rw [this, List.filter_append, List.filter_append, List.length_append,
        List.length_append, hf, hf, hf] at hshare
      exact hshare
    simp only [hk.2 p q f1, hk.2 q r f2, hk.2 r p (Ne.symm f3), List.length_cons,
      List.length_nil]
    clear hshare hk h1 h2 pw hm hm2 he he2 h32 ht hd
    have d1' := Ne.symm d1
    have d2' := Ne.symm d2
    have d3' := Ne.symm d3
    have f1' := Ne.symm f1
    have f2' := Ne.symm f2
    have f3' := Ne.symm f3
    have hp : p = a ∨ p = b ∨ p = c ∨ (p ≠ a ∧ p ≠ b ∧ p ≠ c) := by omega
    have hq : q = a ∨ q = b ∨ q = c ∨ (q ≠ a ∧ q ≠ b ∧ q ≠ c) := by omega
    have hr : r = a ∨ r = b ∨ r = c ∨ (r ≠ a ∧ r ≠ b ∧ r ≠ c) := by omega
    rcases hp with rfl | rfl | rfl | ⟨hp1, hp2, hp3⟩ <;>
    rcases hq with rfl | rfl | rfl | ⟨hq1, hq2, hq3⟩ <;>
    rcases hr with rfl | rfl | rfl | ⟨hr1, hr2, hr3⟩ <;>
    simp_all

end EdgeClaims

/-- Witness for C13: two triangles `0 1 2` and `2 1 3` that share the side `{1, 2}`. -/
theorem make_edges_unique_sides_witness :
    (sides [0, 1, 2, 2, 1, 3]).length = 6 ∧
    (make_edges (mesh_of_triangles [0, 1, 2, 2, 1, 3])).edges
      = flat_pairs (first_sides (sides [0, 1, 2, 2, 1, 3]) []) ∧
    edge_pairs (make_edges (mesh_of_triangles [0, 1, 2, 2, 1, 3])).edges
      = first_sides (sides [0, 1, 2, 2, 1, 3]) [] ∧
    (edge_pairs (make_edges (mesh_of_triangles [0, 1, 2, 2, 1, 3])).edges).Pairwise
      (fun p q => same_edge p q = false) ∧
    (∀ s ∈ sides [0, 1, 2, 2, 1, 3],
      ∃ p ∈ edge_pairs (make_edges (mesh_of_triangles [0, 1, 2, 2, 1, 3])).edges,
        same_edge p s = true) ∧
    (edge_pairs (make_edges (mesh_of_triangles [0, 1, 2, 2, 1, 3])).edges).Sublist
      (sides [0, 1, 2, 2, 1, 3]) :=
  make_edges_unique_sides (mesh_of_triangles [0, 1, 2, 2, 1, 3]) (by decide) (by decide) rfl

/-- Witness for C14: the triangle `0 1 2`, and the triangles `0 1 2` and `2 1 3`. -/
theorem make_edges_counts_witness :
    (edge_pairs (make_edges (mesh_of_triangles [0, 1, 2])).edges).length = 3 ∧
    (edge_pairs (make_edges (mesh_of_triangles [0, 1, 2, 2, 1, 3])).edges).length = 5 ∧
    (edge_pairs (make_edges (mesh_of_triangles [0, 1, 2, 2, 1, 3])).edges).Pairwise
      (fun x y => same_edge x y = false) :=
  make_edges_counts (mesh_of_triangles [0, 1, 2]) (mesh_of_triangles [0, 1, 2, 2, 1, 3])
    0 1 2 0 1 2 2 1 3 rfl rfl (by decide) (by decide) rfl rfl (by decide) (by decide)
    (by decide) (by decide)

/-- C14, counterexample: the first grid cell of `make_sphere` (unit radius, centre at the
origin) lies at the pole, where `sphere_pt` gives the same point and normal for every
`u`; its first triangle has the index triple `0 0 1`, and for the single triangle `0 0 1`
`make_edges` stores 2 index pairs, not 3. -/
theorem make_edges_repeated_vertex :
    (sphere_cell one32 origin 0 0 (Mesh.empty : Mesh F32)).triangles = [0, 0, 1, 2, 1, 0] ∧
    (make_edges (mesh_of_triangles [0, 0, 1])).edges = [0, 0, 0, 1] ∧
    edge_pairs (make_edges (mesh_of_triangles [0, 0, 1])).edges = [(0, 0), (0, 1)] := by
  decide


/-! ## The stored normal is not used -/

section StoredNormalProofs

variable {F : Type} [FloatOps F]

theorem add_facet_same (m : Mesh F) (r r' : Record F) (h : same_vertices r r') :
    add_facet m r = add_facet m r' := by
  obtain ⟨h1, h2, h3⟩ := h
  simp only [add_facet, facet_cross, h1, h2, h3]

theorem binary_record_same (m : Mesh F) (r r' : Record F) (h : same_vertices r r') :
    binary_record m r = binary_record m r' := by
  have ha := add_facet_same m r r' h
  obtain ⟨h1, h2, h3⟩ := h
  simp only [binary_record, facet_cross, h1, h2, h3, ha]

theorem foldl_binary_record_same (rs rs' : List (Record F))
    (h : List.Forall₂ same_vertices rs rs') (m : Mesh F) :
    rs.foldl binary_record m = rs'.foldl binary_record m := by
  induction h generalizing m with
  | nil => rfl
  | cons hr _ ih =>
    simp only [List.foldl_cons]
    rw [binary_record_same m _ _ hr]
    exact ih _

theorem getD_take_lt (l : List Nat) (n j : Nat) (h : j < n) :
    (l.take n).getD j 0 = l.getD j 0 := by
  simp [List.getD_eq_getElem?_getD, List.getElem?_take, h]

theorem getD_drop_add (l : List Nat) (n j : Nat) :
    (l.drop n).getD j 0 = l.getD (n + j) 0 := by
  simp [List.getD_eq_getElem?_getD, List.getElem?_drop]

theorem record_of_same (fp fp' : List Nat)
    (h : ∀ i, 12 ≤ i % 50 → fp.getD i 0 = fp'.getD i 0) :
    same_vertices (record_of (fp.take 50) : Record F) (record_of (fp'.take 50)) := by
  have e : ∀ j, 12 ≤ j → j < 50 → (fp.take 50).getD j 0 = (fp'.take 50).getD j 0 := by
    intro j h1 h2
    rw [getD_take_lt _ _ _ h2, getD_take_lt _ _ _ h2]
    exact h j (by omega)
  have w : ∀ off, 12 ≤ off → off + 3 < 50 →
      le32 (fp.take 50) off = le32 (fp'.take 50) off := by
    intro off h1 h2
    simp only [le32]
    rw [e off h1 (by omega), e (off + 1) (by omega) (by omega),
      e (off + 2) (by omega) (by omega), e (off + 3) (by omega) (by omega)]
  refine ⟨?_, ?_, ?_⟩ <;>
    simp only [record_of, vector_at, float_at] <;>
    rw [w _ (by omega) (by omega), w _ (by omega) (by omega), w _ (by omega) (by omega)]

theorem chunk_records_same (k : Nat) :
    ∀ fp fp' : List Nat, fp.length = fp'.length →
      (∀ i, 12 ≤ i % 50 → fp.getD i 0 = fp'.getD i 0) →
      List.Forall₂ same_vertices (chunk_records k fp : List (Record F))
        (chunk_records k fp') := by
  induction k with
  | zero => intro fp fp' _ _; exact List.Forall₂.nil
  | succ k ih =>
    intro fp fp' hl h
    simp only [chunk_records, ← hl]
    split
    · exact List.Forall₂.nil
    · refine List.Forall₂.cons (record_of_same fp fp' h) (ih _ _ ?_ ?_)
      · simp [List.length_drop, hl]
      · intro i hi
        rw [getD_drop_add, getD_drop_add]
        exact h _ (by omega)

/-- Binary inputs of equal length that agree outside the stored normals decode alike. -/
theorem read_binary_stl_same (m : Mesh F) (fp fp' : List Nat)
    (hlen : fp.length = fp'.length)
    (hfp : ∀ i, i < fp.length → fp.getD i 0 = fp'.getD i 0 ∨ normal_byte i = true) :
    read_binary_stl m fp = read_binary_stl m fp' := by
  have hall : ∀ i, fp.getD i 0 = fp'.getD i 0 ∨ normal_byte i = true := by
    intro i
    by_cases hi : i < fp.length
    · exact hfp i hi
    · left
      simp only [List.getD_eq_getElem?_getD]
      rw [List.getElem?_eq_none (by omega), List.getElem?_eq_none (by omega)]
  have hhead : ∀ i, i < 4 → fp.getD i 0 = fp'.getD i 0 := by
    intro i hi
    rcases hall i with h | h
    · exact h
    · simp only [normal_byte, decide_eq_true_eq] at h; omega
  have hcount : le32 fp 0 = le32 fp' 0 := by
    simp only [le32]
    rw [hhead 0 (by omega), hhead (0 + 1) (by omega), hhead (0 + 2) (by omega),
      hhead (0 + 3) (by omega)]
  rw [read_binary_stl_eq, read_binary_stl_eq, ← hlen, ← hcount]
  have hrec : List.Forall₂ same_vertices
      (chunk_records (le32 fp 0) (fp.drop 4) : List (Record F))
      (chunk_records (le32 fp 0) (fp'.drop 4)) :=
    chunk_records_same (le32 fp 0) (fp.drop 4) (fp'.drop 4)
    (by simp [List.length_drop, hlen])
    (by
      intro i hi
      rw [getD_drop_add, getD_drop_add]
      rcases hall (4 + i) with h | h
      · exact h
      · simp only [normal_byte, decide_eq_true_eq] at h
        have : 4 + i - 4 = i := by omega
        rw [this] at h
        omega)
  rw [foldl_binary_record_same _ _ hrec m]

end StoredNormalProofs

section StoredNormalAscii

variable {F : Type} [FloatOps F] [CStdlib F]

omit [FloatOps F] in
/-- One grammar position matched against two tokens: equal tokens, or two parsable reals
at a position of the stored normal, keep the vertices of the two records equal. -/
theorem slot_match_same (k : Nat) (hk : k ≤ 20) (s : Slot F)
    (hs : (facet_grammar : List (Slot F))[k]? = some s)
    (r r' : Record F) (h : same_vertices r r') (t t' : List Nat)
    (ht : t = t' ∨ ((k = 2 ∨ k = 3 ∨ k = 4) ∧ (parse_real t : Option F).isSome = true ∧
      (parse_real t' : Option F).isSome = true)) :
    (∃ r1 r1', slot_match s t r = some r1 ∧ slot_match s t' r' = some r1' ∧
      same_vertices r1 r1') ∨
    (slot_match s t r = none ∧ slot_match s t' r' = none ∧ t = t') := by
  obtain ⟨h1, h2, h3⟩ := h
  rcases ht with rfl | ⟨hk3, hp, hp'⟩
  · interval_cases k <;>
      simp only [facet_grammar, List.getElem?_cons_zero, List.getElem?_cons_succ,
        Option.some.injEq] at hs <;>
      subst hs <;>
      simp only [slot_match] <;>
      first
      | (split_ifs <;> simp [same_vertices, h1, h2, h3])
      | (cases hq : (parse_real t : Option F) <;> simp [same_vertices, h1, h2, h3])
  · obtain ⟨f, hf⟩ := Option.isSome_iff_exists.1 hp
    obtain ⟨f', hf'⟩ := Option.isSome_iff_exists.1 hp'
    rcases hk3 with rfl | rfl | rfl <;>
      simp only [facet_grammar, List.getElem?_cons_zero, List.getElem?_cons_succ,
        Option.some.injEq] at hs <;>
      subst hs <;>
      simp [slot_match, hf, hf', same_vertices, h1, h2, h3]

omit [FloatOps F] [CStdlib F] in
theorem grammar_slot (k : Nat) (hk : k ≤ 20) :
    ∃ s, (facet_grammar : List (Slot F))[k]? = some s := by
  interval_cases k <;> exact ⟨_, rfl⟩

/-- One loop iteration on two sets of locals that agree except for the stored normal. -/
theorem ascii_token_same (st st' : AsciiState F) (h : same_locals st st') (t t' : List Nat)
    (ht : t = t' ∨ ((st.state = 2 ∨ st.state = 3 ∨ st.state = 4) ∧
      (parse_real t : Option F).isSome = true ∧ (parse_real t' : Option F).isSome = true)) :
    Step.same (ascii_token st t) (ascii_token st' t') := by
  obtain ⟨k, r, fl, m⟩ := st
  obtain ⟨k', r', fl', m'⟩ := st'
  obtain ⟨e1, hk, e2, e3, hv⟩ := h
  simp only at e1 hk e2 e3 hv ht
  subst e1; subst e2; subst e3
  obtain ⟨s, hs⟩ := grammar_slot (F := F) k hk
  rw [ascii_token_slot k hk s hs, ascii_token_slot k hk s hs]
  rcases slot_match_same k hk s hs r r' hv t t' ht with ⟨r1, r1', a1, a2, a3⟩ | ⟨a1, a2, a3⟩
  · rw [a1, a2]
    simp only
    split_ifs with h20
    · rw [add_facet_same m r1 r1' a3]
      exact ⟨rfl, Nat.zero_le _, rfl, rfl, a3⟩
    · exact ⟨rfl, (by omega : k + 1 ≤ 20), rfl, rfl, a3⟩
  · rw [a1, a2]
    subst a3
    simp only
    split_ifs
    · exact ⟨rfl, rfl⟩
    · exact ⟨rfl, hk, rfl, rfl, hv⟩
    · exact ⟨rfl, rfl⟩

/-- Token streams of equal length that agree outside the stored normals, read from locals
that agree except for the stored normal, give the same result. -/
theorem ascii_run_same : ∀ (ts ts' : List (List Nat)) (st st' : AsciiState F),
    same_locals st st' → ts.length = ts'.length →
    (∀ i, i < ts.length → ts.getD i [] = ts'.getD i [] ∨
      (normal_token st ts i = true ∧ (parse_real (ts.getD i []) : Option F).isSome = true ∧
        (parse_real (ts'.getD i []) : Option F).isSome = true)) →
    ascii_run ts st = ascii_run ts' st' := by
  intro ts
  induction ts with
  | nil =>
    intro ts' st st' h hl _
    have : ts' = [] := List.length_eq_zero.1 hl.symm
    subst this
    simp only [ascii_run]
    rw [h.2.2.2.1]
  | cons t ts ih =>
    intro ts' st st' h hl hd
    cases ts' with
    | nil => simp at hl
    | cons t' ts' =>
      have h0 := hd 0 (by simp)
      simp only [List.getD_cons_zero, normal_token, List.take_zero, ascii_after,
        Bool.or_eq_true, beq_iff_eq] at h0
      have hstep := ascii_token_same st st' h t t'
        (h0.imp id (fun ⟨a, b, c⟩ => ⟨by omega, b, c⟩))
      simp only [ascii_run]
      cases h1 : ascii_token st t with
      | ret b m =>
        cases h2 : ascii_token st' t' with
        | ret b' m' =>
          rw [h1, h2] at hstep
          obtain ⟨e1, e2⟩ := hstep
          simp [e1, e2]
        | next s' => rw [h1, h2] at hstep; exact hstep.elim
      | next s =>
        cases h2 : ascii_token st' t' with
        | ret b' m' => rw [h1, h2] at hstep; exact hstep.elim
        | next s' =>
          rw [h1, h2] at hstep
          simp only
          refine ih ts' s s' hstep (by simpa using hl) ?_
          intro i hi
          have := hd (i + 1) (by simp; omega)
          simpa only [List.getD_cons_succ, normal_token, List.take_succ_cons, ascii_after,
            h1] using this

end StoredNormalAscii

section StoredNormalClaim

variable {F : Type} [FloatOps F] [CStdlib F]

/-- C11: the decoded mesh does not depend on the stored facet normals.  Two binary
inputs of equal length that agree on every byte outside the `normal` fields of the
records give the same result of `read_binary_stl`; two ASCII inputs whose token streams
have equal length and differ only at tokens that are read as stored normal components
(states 2, 3, 4), parsable in both, and whose runs fit the 512-byte token buffer, give
the same result of `read_ascii_stl`.  Result and mesh are equal as a whole, so vertices, normals and triangles are identical.  The
normal inserted with a facet is `cross(vertex2 - vertex1, vertex3 - vertex1)` divided by
its length. -/
theorem decoders_ignore_stored_normal (m : Mesh F) (fp fp' gp gp' : List Nat)
    (hlen : fp.length = fp'.length)
    (hfp : ∀ i, i < fp.length → fp.getD i 0 = fp'.getD i 0 ∨ normal_byte i = true)
    (hbuf : ∀ t ∈ maximal_runs gp, t.length < 512)
    (hbuf' : ∀ t ∈ maximal_runs gp', t.length < 512)
    (hglen : (tokens gp).length = (tokens gp').length)
    (hgp : ∀ i, i < (tokens gp).length →
      (tokens gp).getD i [] = (tokens gp').getD i [] ∨
      (normal_token (ascii_init m) (tokens gp) i = true ∧
        (parse_real ((tokens gp).getD i []) : Option F).isSome = true ∧
        (parse_real ((tokens gp').getD i []) : Option F).isSome = true)) :
    read_binary_stl m fp = read_binary_stl m fp' ∧
    read_ascii_stl m gp = read_ascii_stl m gp' ∧
    (∃ b, read_ascii_stl m gp = some (b, add_facets m (ascii_facets (tokens gp)))) ∧
    (read_binary_stl m fp).2 =
      (if fp.length < 4 then []
       else chunk_records (le32 fp 0) (fp.drop 4)).foldl binary_record m ∧
    (∀ (m1 : Mesh F) (r : Record F),
      binary_record m1 r = if degenerate r = true then m1 else add_facet m1 r) ∧
    (∀ (m1 : Mesh F) (r : Record F),
      add_facet m1 r =
        emit_triangle m1
          r.vertex1
          ((cross (r.vertex2.sub r.vertex1) (r.vertex3.sub r.vertex1)).divide
            (cross (r.vertex2.sub r.vertex1) (r.vertex3.sub r.vertex1)).length)
          r.vertex2
          ((cross (r.vertex2.sub r.vertex1) (r.vertex3.sub r.vertex1)).divide
            (cross (r.vertex2.sub r.vertex1) (r.vertex3.sub r.vertex1)).length)
          r.vertex3
          ((cross (r.vertex2.sub r.vertex1) (r.vertex3.sub r.vertex1)).divide
            (cross (r.vertex2.sub r.vertex1) (r.vertex3.sub r.vertex1)).length)) := by
  refine ⟨read_binary_stl_same m fp fp' hlen hfp, ?_, read_ascii_stl_facets m gp hbuf, ?_, ?_,
    ?_⟩
  · rw [read_ascii_stl_eq m gp hbuf, read_ascii_stl_eq m gp' hbuf']
    have hinit : same_locals (ascii_init m) (ascii_init m) :=
      ⟨rfl, Nat.zero_le _, rfl, rfl, rfl, rfl, rfl⟩
    rw [ascii_run_same (tokens gp) (tokens gp') (ascii_init m) (ascii_init m) hinit hglen hgp]
  · rw [read_binary_stl_eq]
    by_cases h4 : fp.length < 4
    · simp [h4]
    · simp [h4]
  · intro m1 r; rfl
  · intro m1 r; rfl

end StoredNormalClaim

/-- Witness for C11: `binTwo` and `asciiOne`, and the same files with the stored normal
`(0, 0, 1)` in place of `(0, 0, 0)`. -/
theorem decoders_ignore_stored_normal_witness :
    binTwo ≠ binTwoNormal ∧ tokens asciiOne ≠ tokens asciiOneNormal ∧
    read_binary_stl (Mesh.empty : Mesh F32) binTwo = read_binary_stl Mesh.empty binTwoNormal ∧
    read_ascii_stl (Mesh.empty : Mesh F32) asciiOne = read_ascii_stl Mesh.empty asciiOneNormal :=
  ⟨by decide, by decide,
    (decoders_ignore_stored_normal (Mesh.empty : Mesh F32) binTwo binTwoNormal asciiOne
      asciiOneNormal (by decide) (by decide) (by decide) (by decide) (by decide)
      (by decide)).1,
    (decoders_ignore_stored_normal (Mesh.empty : Mesh F32) binTwo binTwoNormal asciiOne
      asciiOneNormal (by decide) (by decide) (by decide) (by decide) (by decide)
      (by decide)).2.1⟩

/-! ## The two decoders on the same facets -/

section SameFacets

variable {F : Type} [FloatOps F]

/-- The binary decoder inserts the records that are not degenerate. -/
theorem foldl_binary_record_filter (rs : List (Record F)) :
    ∀ m : Mesh F, rs.foldl binary_record m
      = add_facets m (rs.filter (fun r => !degenerate r)) := by
  induction rs with
  | nil => intro m; rfl
  | cons r rs ih =>
    intro m
    simp only [List.foldl_cons, List.filter_cons]
    by_cases hd : degenerate r = true
    · have : binary_record m r = m := by
        simp only [binary_record]
        exact if_pos hd
      simp only [this, hd, Bool.not_true]
      exact ih m
    · have hd' : degenerate r = false := by simpa using hd
      have : binary_record m r = add_facet m r := by
        simp only [binary_record]
        exact if_neg hd
      simp only [this, hd', Bool.not_false, if_true]
      rw [ih]
      rfl

/-- A binary and an ASCII input that hold the same facets, the runs of the ASCII input
fitting the token buffer: the binary decoder inserts those that are not degenerate, the
ASCII decoder all of them; without degenerate facets the two meshes are equal. -/
theorem decoders_on_same_facets [CStdlib F] (m : Mesh F) (fp gp : List Nat)
    (h4 : 4 ≤ fp.length) (hbuf : ∀ t ∈ maximal_runs gp, t.length < 512)
    (hrec : (chunk_records (le32 fp 0) (fp.drop 4) : List (Record F))
      = ascii_facets (tokens gp)) :
    (read_binary_stl m fp).2
      = add_facets m ((ascii_facets (tokens gp)).filter (fun r => !degenerate r)) ∧
    (∃ b, read_ascii_stl m gp = some (b, add_facets m (ascii_facets (tokens gp)))) ∧
    ((∀ r ∈ (ascii_facets (tokens gp) : List (Record F)), degenerate r = false) →
      ∃ b, read_ascii_stl m gp = some (b, (read_binary_stl m fp).2)) := by
  have hb : (read_binary_stl m fp).2
      = add_facets m ((ascii_facets (tokens gp)).filter (fun r => !degenerate r)) := by
    rw [read_binary_stl_eq, if_neg (by omega), hrec, foldl_binary_record_filter]
  refine ⟨hb, read_ascii_stl_facets m gp hbuf, ?_⟩
  intro hnd
  obtain ⟨b, h⟩ := read_ascii_stl_facets m gp hbuf
  refine ⟨b, ?_⟩
  rw [h, hb, List.filter_eq_self.2 (by intro r hr; simp [hnd r hr])]

end SameFacets

/-- C12, the code at the failing input: `binDegen` and `asciiDegen` hold the same single
facet, whose three vertices are `(0, 0, 0)`.  `read_binary_stl` leaves the mesh empty (no
triangle, no vertex); `read_ascii_stl` leaves one triangle (3 indices) and three
vertices. -/
theorem decoders_differ_on_degenerate :
    (chunk_records (le32 binDegen 0) (binDegen.drop 4) : List (Record F32)) = [facetDegen] ∧
    (ascii_facets (tokens asciiDegen) : List (Record F32)) = [facetDegen] ∧
    (read_binary_stl (Mesh.empty : Mesh F32) binDegen).2.triangles.length = 0 ∧
    (read_binary_stl (Mesh.empty : Mesh F32) binDegen).2.vertices = [] ∧
    (read_ascii_stl (Mesh.empty : Mesh F32) asciiDegen).map
        (fun r => (r.2.triangles.length, r.2.vertices))
      = some (3, [origin, origin, origin]) := by
  decide



/-! ## Picking: `fire_line` -/

section PickingProofs

variable {F : Type} [FloatOps F] [PickOps F]

/-- The triangle loop as a fold over the corner triples. -/
theorem fire_triangles_eq (ray : Ray F) (vertices : List (Vector F)) (n : Nat) :
    ∀ (ts : List Nat) (st : Pick F), ts.length ≤ n →
      fire_triangles ray vertices ts st
        = (corners vertices ts).foldl (fun st c => fire_triangle ray st c.1 c.2.1 c.2.2) st := by
  induction n with
  | zero =>
    intro ts st hl
    have : ts = [] := List.length_eq_zero.1 (Nat.le_zero.1 hl)
    subst this; rfl
  | succ n ih =>
    intro ts st hl
    match ts, hl with
    | [], _ => rfl
    | [_], _ => rfl
    | [_, _], _ => rfl
    | t0 :: t1 :: t2 :: rest, hl =>
      simp only [List.length_cons] at hl
      simp only [fire_triangles, corners, List.foldl_cons]
      exact ih rest _ (by omega)

/-- A fold of `fire_triangle` only sees the accepted triangles. -/
theorem fire_triangle_foldl (ray : Ray F) (cs : List (Vector F × Vector F × Vector F)) :
    ∀ st : Pick F,
      cs.foldl (fun st c => fire_triangle ray st c.1 c.2.1 c.2.2) st
        = (accepted ray cs).foldl
            (fun st c => pick_hit st (tri_param ray c.1 c.2.1 c.2.2)
              (tri_point ray c.1 c.2.1 c.2.2)) st := by
  induction cs with
  | nil => intro st; rfl
  | cons c cs ih =>
    intro st
    simp only [List.foldl_cons, accepted, List.filter_cons]
    by_cases h : tri_accept ray c.1 c.2.1 c.2.2 = true
    · simp only [h, if_true, List.foldl_cons, fire_triangle]
      exact ih _
    · simp only [h, if_false, fire_triangle]
      exact ih _

/-- The loop over `objects` as a fold over the triangles of the flagged meshes. -/
theorem fire_mesh_foldl (ray : Ray F) (objects : List (Mesh F)) :
    ∀ st : Pick F,
      objects.foldl (fire_mesh ray) st
        = (scene_corners objects).foldl
            (fun st c => fire_triangle ray st c.1 c.2.1 c.2.2) st := by
  induction objects with
  | nil => intro st; rfl
  | cons m ms ih =>
    intro st
    simp only [List.foldl_cons, scene_corners, List.filter_cons, fire_mesh]
    by_cases h : m.include_in_scene_box = true
    · simp only [h, Bool.not_true, if_true, List.map_cons, List.flatten_cons,
        List.foldl_append, Bool.false_eq_true, if_false]
      rw [fire_triangles_eq ray m.vertices _ m.triangles st (Nat.le_refl _)]
      exact ih _
    · have h' : m.include_in_scene_box = false := by simpa using h
      simp only [h', Bool.not_false, if_true, Bool.false_eq_true, if_false]
      exact ih _

/-- The locals of `fire_line` after the loops: the accepted hits of the flagged meshes,
taken in order. -/
theorem fire_line_eq (objects : List (Mesh F)) (ray : Ray F) (v : Vector F) :
    fire_line objects ray v =
      (if ((accepted ray (scene_corners objects)).foldl
            (fun st c => pick_hit st (tri_param ray c.1 c.2.1 c.2.2)
              (tri_point ray c.1 c.2.1 c.2.2))
            ({ first := true, dist := FloatOps.ofBits 0x7F7FFFFF,
               nearest := Vector.zero } : Pick F)).first = true
       then (false, v)
       else (true, ((accepted ray (scene_corners objects)).foldl
            (fun st c => pick_hit st (tri_param ray c.1 c.2.1 c.2.2)
              (tri_point ray c.1 c.2.1 c.2.2))
            ({ first := true, dist := FloatOps.ofBits 0x7F7FFFFF,
               nearest := Vector.zero } : Pick F)).nearest)) := by
  simp only [fire_line, fire_mesh_foldl, fire_triangle_foldl]

omit [PickOps F] in
theorem pick_hit_first (st : Pick F) (s : F) (p : Vector F) :
    (pick_hit st s p).first = false := by
  unfold pick_hit
  by_cases h : st.first = true
  · simp [h]
  · have h' : st.first = false := by simpa using h
    simp only [h', Bool.false_eq_true, if_false]
    split <;> simp [h']

omit [PickOps F] in
/-- After the first accepted hit `first` is false for good. -/
theorem pick_foldl_first {α : Type} (s : α → F) (p : α → Vector F) (hits : List α) :
    ∀ st : Pick F, (hits.foldl (fun st c => pick_hit st (s c) (p c)) st).first
      = (st.first && hits.isEmpty) := by
  induction hits with
  | nil => intro st; simp
  | cons c cs ih =>
    intro st
    simp only [List.foldl_cons, ih, pick_hit_first, List.isEmpty_cons, Bool.and_false,
      Bool.false_and]

omit [PickOps F] in
/-- The hit that a fold of `pick_hit` selects from a non-empty list, when `<` is
transitive and co-transitive on the parameters of the list: every hit before it has a
strictly smaller parameter, no hit after it has a larger one. -/
theorem pick_foldl_largest {α : Type} (s : α → F) (p : α → Vector F) (hits : List α)
    (htrans : ∀ a ∈ hits, ∀ b ∈ hits, ∀ c ∈ hits, FloatOps.lt (s a) (s b) = true →
      FloatOps.lt (s b) (s c) = true → FloatOps.lt (s a) (s c) = true)
    (hco : ∀ a ∈ hits, ∀ b ∈ hits, ∀ c ∈ hits, FloatOps.lt (s a) (s c) = true →
      FloatOps.lt (s a) (s b) = true ∨ FloatOps.lt (s b) (s c) = true)
    (hne : hits ≠ []) (st : Pick F) (hst : st.first = true) :
    ∃ pre c post, hits = pre ++ c :: post ∧
      hits.foldl (fun st c => pick_hit st (s c) (p c)) st
        = { first := false, dist := s c, nearest := p c } ∧
      (∀ e ∈ pre, FloatOps.lt (s e) (s c) = true) ∧
      (∀ e ∈ post, FloatOps.lt (s c) (s e) = false) := by
  induction hits using List.reverseRecOn with
  | nil => exact absurd rfl hne
  | append_singleton l h ih =>
    by_cases hl : l = []
    · subst hl
      refine ⟨[], h, [], rfl, ?_, by simp, by simp⟩
      simp [pick_hit, hst]
    · obtain ⟨pre, c, post, e1, e2, e3, e4⟩ := ih
        (fun a ha b hb c hc => htrans a (by simp [ha]) b (by simp [hb]) c (by simp [hc]))
        (fun a ha b hb c hc => hco a (by simp [ha]) b (by simp [hb]) c (by simp [hc]))
        hl
      have hc : c ∈ l ++ [h] := by rw [e1]; simp
      have hh : h ∈ l ++ [h] := by simp
      rw [List.foldl_append, e2]
      by_cases hlt : FloatOps.lt (s c) (s h) = true
      · refine ⟨l, h, [], rfl, ?_, ?_, by simp⟩
        · simp [pick_hit, hlt]
        · intro e he
          have hel : e ∈ l ++ [h] := by simp [he]
          rw [e1] at he
          rcases List.mem_append.1 he with he | he
          · exact htrans e hel c hc h hh (e3 e he) hlt
          · rcases List.mem_cons.1 he with he | he
            · rw [he]; exact hlt
            · rcases hco c hc e hel h hh hlt with h1 | h1
              · rw [e4 e he] at h1; cases h1
              · exact h1
      · have hlt' : FloatOps.lt (s c) (s h) = false := by simpa using hlt
        refine ⟨pre, c, post ++ [h], by rw [e1]; simp, ?_, e3, ?_⟩
        · simp [pick_hit, hlt']
        · intro e he
          rcases List.mem_append.1 he with he | he
          · exact e4 e he
          · rw [List.mem_singleton.1 he]; exact hlt'

/-- The accepted triangles of the flagged meshes, spelled out. -/
theorem mem_accepted_scene (objects : List (Mesh F)) (ray : Ray F)
    (c : Vector F × Vector F × Vector F) :
    c ∈ accepted ray (scene_corners objects) ↔
      ∃ m ∈ objects, m.include_in_scene_box = true ∧
        c ∈ corners m.vertices m.triangles ∧ tri_accept ray c.1 c.2.1 c.2.2 = true := by
  simp only [accepted, scene_corners, List.mem_filter, List.mem_flatten, List.mem_map]
  constructor
  · rintro ⟨⟨l, ⟨m, ⟨hm, hi⟩, rfl⟩, hc⟩, ha⟩
    exact ⟨m, hm, hi, hc, ha⟩
  · rintro ⟨m, hm, hi, hc, ha⟩
    exact ⟨⟨_, ⟨m, ⟨hm, hi⟩, rfl⟩, hc⟩, ha⟩

/-- C18: `fire_line` returns false exactly when no triangle of a mesh flagged
`include_in_scene_box` passes the acceptance test, and then the output point is left as
it was; the result is that of the flagged meshes alone, so meshes whose flag is false
never contribute, whatever they hold. -/
theorem fire_line_no_hit (objects : List (Mesh F)) (ray : Ray F) (v : Vector F) :
    ((fire_line objects ray v).1 = false ↔
      ¬ ∃ m ∈ objects, m.include_in_scene_box = true ∧
          ∃ c ∈ corners m.vertices m.triangles, tri_accept ray c.1 c.2.1 c.2.2 = true) ∧
    ((fire_line objects ray v).1 = false ↔ fire_line objects ray v = (false, v)) ∧
    fire_line objects ray v
      = fire_line (objects.filter (fun m => m.include_in_scene_box)) ray v ∧
    (∀ objects' : List (Mesh F),
      objects'.filter (fun m => m.include_in_scene_box)
        = objects.filter (fun m => m.include_in_scene_box) →
      fire_line objects' ray v = fire_line objects ray v) := by
  have hfilter : ∀ os os' : List (Mesh F),
      os'.filter (fun m => m.include_in_scene_box)
        = os.filter (fun m => m.include_in_scene_box) →
      fire_line os' ray v = fire_line os ray v := by
    intro os os' h
    rw [fire_line_eq, fire_line_eq]
    simp only [scene_corners, h]
  refine ⟨?_, ?_, ?_, fun os' h => hfilter objects os' h⟩
  · rw [fire_line_eq]
    simp only [pick_foldl_first, Bool.true_and]
    cases hH : accepted ray (scene_corners objects) with
    | nil =>
      simp only [List.isEmpty_nil, if_true, true_iff]
      rintro ⟨m, hm, hi, c, hc, ha⟩
      have : c ∈ accepted ray (scene_corners objects) :=
        (mem_accepted_scene objects ray c).2 ⟨m, hm, hi, hc, ha⟩
      rw [hH] at this
      cases this
    | cons c cs =>
      simp only [List.isEmpty_cons, Bool.false_eq_true, if_false, Bool.true_eq_false,
        false_iff, not_not]
      have : c ∈ accepted ray (scene_corners objects) := by rw [hH]; simp
      obtain ⟨m, hm, hi, hc, ha⟩ := (mem_accepted_scene objects ray c).1 this
      exact ⟨m, hm, hi, c, hc, ha⟩
  · constructor
    · intro h
      rw [fire_line_eq] at h ⊢
      split
      · rfl
      · rename_i hf
        rw [if_neg hf] at h
        cases h
    · intro h; rw [h]
  · exact (hfilter _ _ (by simp [List.filter_filter])).symm

end PickingProofs

/-! ## Binary32: infinities and NaNs propagate -/

theorem f32_quiet_expo (a : F32) : (F32.quiet a).expo = a.expo := by
  simp only [F32.quiet, F32.expo]
  have e : (256 : Nat) = 2 ^ 8 := by norm_num
  rw [e, ← Nat.shiftRight_eq_div_pow, ← Nat.shiftRight_eq_div_pow]
  apply Nat.eq_of_testBit_eq
  intro i
  simp only [Nat.testBit_mod_two_pow, Nat.testBit_shiftRight, Nat.testBit_or,
    Nat.testBit_two_pow]
  have : decide (22 = 23 + i) = false := by simp; omega
  rw [this, Bool.or_false]

theorem f32_neg_expo (a : F32) : (F32.neg a).expo = a.expo := by
  simp only [F32.neg, F32.expo]
  have e : (256 : Nat) = 2 ^ 8 := by norm_num
  rw [e, ← Nat.shiftRight_eq_div_pow, ← Nat.shiftRight_eq_div_pow]
  apply Nat.eq_of_testBit_eq
  intro i
  simp only [Nat.testBit_mod_two_pow, Nat.testBit_shiftRight, Nat.testBit_xor,
    Nat.testBit_two_pow]
  by_cases h : i < 8
  · have : decide (31 = 23 + i) = false := by simp; omega
    rw [this, Bool.xor_false]
  · simp [h]

theorem f32_inf_expo (s : Nat) : (F32.inf s).expo = 255 := by
  simp only [F32.inf, F32.expo]
  omega

theorem f32_defaultNaN_expo : F32.defaultNaN.expo = 255 := by decide

/-- A value that is neither a NaN nor an infinity has an exponent field below 255. -/
theorem f32_finite (a : F32) (h1 : a.isNaN = false) (h2 : a.isInf = false) :
    a.expo ≠ 255 := by
  intro h
  simp only [F32.isNaN, F32.isInf, h, beq_self_eq_true, Bool.true_and] at h1 h2
  simp only [bne_eq_false_iff_eq, beq_eq_false_iff_ne] at h1 h2
  exact h2 h1

theorem f32_isNaN_expo (a : F32) (h : a.isNaN = true) : a.expo = 255 := by
  simp only [F32.isNaN, Bool.and_eq_true, beq_iff_eq] at h
  exact h.1

theorem f32_isInf_expo (a : F32) (h : a.isInf = true) : a.expo = 255 := by
  simp only [F32.isInf, Bool.and_eq_true, beq_iff_eq] at h
  exact h.1

theorem f32_add_nonfinite (a b : F32) (h : a.expo = 255 ∨ b.expo = 255) :
    (F32.add a b).expo = 255 := by
  unfold F32.add
  by_cases h1 : a.isNaN = true
  · rw [if_pos h1, f32_quiet_expo]; exact f32_isNaN_expo a h1
  rw [if_neg h1]
  by_cases h2 : b.isNaN = true
  · rw [if_pos h2, f32_quiet_expo]; exact f32_isNaN_expo b h2
  rw [if_neg h2]
  by_cases h3 : a.isInf = true
  · rw [if_pos h3]
    split
    · exact f32_defaultNaN_expo
    · exact f32_isInf_expo a h3
  rw [if_neg h3]
  by_cases h4 : b.isInf = true
  · rw [if_pos h4]; exact f32_isInf_expo b h4
  · rcases h with h | h
    · exact absurd h (f32_finite a (by simpa using h1) (by simpa using h3))
    · exact absurd h (f32_finite b (by simpa using h2) (by simpa using h4))

theorem f32_sub_nonfinite (a b : F32) (h : a.expo = 255 ∨ b.expo = 255) :
    (F32.sub a b).expo = 255 := by
  unfold F32.sub
  by_cases h1 : a.isNaN = true
  · rw [if_pos h1, f32_quiet_expo]; exact f32_isNaN_expo a h1
  rw [if_neg h1]
  by_cases h2 : b.isNaN = true
  · rw [if_pos h2, f32_quiet_expo]; exact f32_isNaN_expo b h2
  rw [if_neg h2]
  exact f32_add_nonfinite a (F32.neg b) (by rw [f32_neg_expo]; exact h)

theorem f32_mul_nonfinite (a b : F32) (h : a.expo = 255 ∨ b.expo = 255) :
    (F32.mul a b).expo = 255 := by
  unfold F32.mul
  simp only
  by_cases h1 : a.isNaN = true
  · rw [if_pos h1, f32_quiet_expo]; exact f32_isNaN_expo a h1
  rw [if_neg h1]
  by_cases h2 : b.isNaN = true
  · rw [if_pos h2, f32_quiet_expo]; exact f32_isNaN_expo b h2
  rw [if_neg h2]
  by_cases h3 : (a.isInf || b.isInf) = true
  · rw [if_pos h3]
    split
    · exact f32_defaultNaN_expo
    · exact f32_inf_expo _
  · simp only [Bool.or_eq_true, not_or] at h3
    rcases h with h | h
    · exact absurd h (f32_finite a (by simpa using h1) (by simpa using h3.1))
    · exact absurd h (f32_finite b (by simpa using h2) (by simpa using h3.2))

theorem f32_sqrt_nonfinite (a : F32) (h : a.expo = 255) : (F32.sqrt a).expo = 255 := by
  unfold F32.sqrt
  by_cases h1 : a.isNaN = true
  · rw [if_pos h1, f32_quiet_expo]; exact h
  rw [if_neg h1]
  by_cases h2 : a.isZero = true
  · rw [if_pos h2]; exact h
  rw [if_neg h2]
  by_cases h3 : a.sign = 1
  · rw [if_pos h3]; exact f32_defaultNaN_expo
  rw [if_neg h3]
  by_cases h4 : a.isInf = true
  · rw [if_pos h4]; exact h
  · exact absurd h (f32_finite a (by simpa using h1) (by simpa using h4))

/-- A quotient is an infinity or a NaN when the dividend is one, and when the divisor is
a zero. -/
theorem f32_div_nonfinite (a b : F32) (h : a.expo = 255 ∨ b.isZero = true) :
    (F32.div a b).expo = 255 := by
  unfold F32.div
  simp only
  by_cases h1 : a.isNaN = true
  · rw [if_pos h1, f32_quiet_expo]; exact f32_isNaN_expo a h1
  rw [if_neg h1]
  by_cases h2 : b.isNaN = true
  · rw [if_pos h2, f32_quiet_expo]; exact f32_isNaN_expo b h2
  rw [if_neg h2]
  by_cases h3 : a.isInf = true
  · rw [if_pos h3]
    split
    · exact f32_defaultNaN_expo
    · exact f32_inf_expo _
  rw [if_neg h3]
  rcases h with h | h
  · exact absurd h (f32_finite a (by simpa using h1) (by simpa using h3))
  · have h4 : b.isInf = false := by
      simp only [F32.isZero, Bool.and_eq_true, beq_iff_eq] at h
      simp [F32.isInf, h.1]
    rw [h4, if_neg (by simp), if_pos h]
    split
    · exact f32_defaultNaN_expo
    · exact f32_inf_expo _

theorem f32_fabs_expo (a : F32) : (F32.fabs a).expo = a.expo := by
  simp only [F32.fabs, F32.expo]
  omega

/-- The comparison `x < a * 1e-6` fails when `x` is `fabs` of an infinity or a NaN. -/
theorem f32_lt_scaled_nonfinite (x a : F32) (h : x.expo = 255) :
    F32.lt_scaled (F32.fabs x) a = false := by
  unfold F32.lt_scaled
  by_cases h1 : (F32.fabs x).isNaN = true
  · simp [h1]
  have h1' : (F32.fabs x).isNaN = false := by simpa using h1
  have hinf : (F32.fabs x).isInf = true := by
    have he := f32_fabs_expo x
    rw [h] at he
    simp only [F32.isNaN, he, beq_self_eq_true, Bool.true_and, bne_eq_false_iff_eq] at h1'
    simp [F32.isInf, he, h1']
  have hs : (F32.fabs x).sign = 0 := by
    simp only [F32.fabs, F32.sign]
    omega
  have hv : (F32.fabs x).toDouble.val = ((2 ^ 2098 : Nat) : Int) := by
    simp only [F32.toDouble, hinf, hs, if_true, F64.val]
    simp
  have hle : ∀ d : F64, d.val ≤ ((2 ^ 2098 : Nat) : Int) := by
    intro d
    simp only [F64.val]
    split
    · have : (0 : Int) ≤ ((min d.mag (2 ^ 2098) : Nat) : Int) := Int.natCast_nonneg _
      have h2 : (0 : Int) ≤ ((2 ^ 2098 : Nat) : Int) := Int.natCast_nonneg _
      omega
    · exact Int.ofNat_le.2 (Nat.min_le_right _ _)
  have := hle (F64.mul a.toDouble F64.micro)
  simp only [F64.lt, hv, Bool.and_eq_false_imp, decide_eq_false_iff_not, not_lt]
  intro _
  exact this

theorem f32_isZero_iff (a : F32) : a.isZero = true ↔ a.bits % 2 ^ 31 = 0 := by
  simp only [F32.isZero, F32.expo, F32.frac, Bool.and_eq_true, beq_iff_eq]
  omega

/-- On values that are not NaNs, `<` is the order of the keys. -/
theorem f32_lt_key (a b : F32) (ha : a.isNaN = false) (hb : b.isNaN = false) :
    F32.lt a b = decide (a.key < b.key) := by
  have hsa : a.sign = 0 ∨ a.sign = 1 := by simp only [F32.sign]; omega
  have hsb : b.sign = 0 ∨ b.sign = 1 := by simp only [F32.sign]; omega
  have hza := f32_isZero_iff a
  have hzb := f32_isZero_iff b
  rw [Bool.eq_iff_iff]
  simp only [F32.lt, ha, hb, Bool.not_false, Bool.true_and, F32.key, decide_eq_true_eq]
  generalize a.bits % 2 ^ 31 = x at hza ⊢
  generalize b.bits % 2 ^ 31 = y at hzb ⊢
  rcases hsa with hsa | hsa <;> rcases hsb with hsb | hsb
  · simp only [hsa, hsb, if_true, beq_self_eq_true, Bool.true_and, decide_eq_true_eq]
    omega
  · simp only [hsa, hsb, if_true, one_ne_zero, if_false]
    have : ((1 : Nat) == 0) = false := rfl
    simp only [this, Bool.false_and, Bool.false_eq_true, false_iff]
    omega
  · simp only [hsa, hsb, if_true, one_ne_zero, if_false, Bool.not_eq_true', Bool.and_eq_false_iff]
    by_cases hx : x = 0 <;> by_cases hy : y = 0
    · have h1 := hza.2 hx
      have h2 := hzb.2 hy
      simp [h1, h2, hx, hy]
    · have h2 : b.isZero = false := by
        cases h : b.isZero
        · rfl
        · exact absurd (hzb.1 h) hy
      simp only [h2, or_true, true_iff]
      omega
    · have h1 : a.isZero = false := by
        cases h : a.isZero
        · rfl
        · exact absurd (hza.1 h) hx
      simp only [h1, true_or, true_iff]
      omega
    · have h1 : a.isZero = false := by
        cases h : a.isZero
        · rfl
        · exact absurd (hza.1 h) hx
      simp only [h1, true_or, true_iff]
      omega
  · simp only [hsa, hsb, one_ne_zero, if_false, decide_eq_true_eq]
    omega

/-- A candidate point is not accepted when the parameter `s` is an infinity or a NaN:
the point then has no finite coordinate, and neither have the areas `ax1`, `ax2`, `ax3`. -/
theorem tri_accept_nonfinite (ray : Ray F32) (v0 v1 v2 : Vector F32)
    (h : (tri_param ray v0 v1 v2).expo = 255) : tri_accept ray v0 v1 v2 = false := by
  have hy : (tri_point ray v0 v1 v2).y.expo = 255 :=
    f32_sub_nonfinite _ _ (Or.inr (f32_mul_nonfinite _ _ (Or.inr h)))
  have hz : (tri_point ray v0 v1 v2).z.expo = 255 :=
    f32_sub_nonfinite _ _ (Or.inr (f32_mul_nonfinite _ _ (Or.inr h)))
  have hc : (cross ((tri_point ray v0 v1 v2).sub v0) (v2.sub v0)).x.expo = 255 :=
    f32_sub_nonfinite _ _ (Or.inl (f32_mul_nonfinite _ _
      (Or.inl (f32_sub_nonfinite _ _ (Or.inl hy)))))
  have hl : (cross ((tri_point ray v0 v1 v2).sub v0) (v2.sub v0)).length.expo = 255 :=
    f32_sqrt_nonfinite _ (f32_add_nonfinite _ _ (Or.inl (f32_add_nonfinite _ _
      (Or.inl (f32_mul_nonfinite _ _ (Or.inl hc))))))
  unfold tri_accept
  exact f32_lt_scaled_nonfinite _ _
    (f32_sub_nonfinite _ _ (Or.inl (f32_sub_nonfinite _ _ (Or.inl
      (f32_sub_nonfinite _ _ (Or.inr (f32_div_nonfinite _ _ (Or.inl hl))))))))

/-- The parameter of an accepted triangle is not a NaN. -/
theorem tri_accept_param (ray : Ray F32) (v0 v1 v2 : Vector F32)
    (h : tri_accept ray v0 v1 v2 = true) : (tri_param ray v0 v1 v2).isNaN = false := by
  by_cases hn : (tri_param ray v0 v1 v2).isNaN = true
  · rw [tri_accept_nonfinite ray v0 v1 v2 (f32_isNaN_expo _ hn)] at h
    cases h
  · simpa using hn

/-- C17: when at least one triangle of a mesh flagged `include_in_scene_box` passes the
acceptance test, `fire_line` (on binary32) returns true and outputs the candidate point
of an accepted triangle `c` such that no accepted triangle has a larger parameter `s`,
and every accepted triangle met before `c`, in mesh-then-triangle order, has a strictly
smaller one: among equal parameters the first is kept. -/
theorem fire_line_largest (objects : List (Mesh F32)) (ray : Ray F32) (v : Vector F32)
    (h : ∃ m ∈ objects, m.include_in_scene_box = true ∧
      ∃ c ∈ corners m.vertices m.triangles, tri_accept ray c.1 c.2.1 c.2.2 = true) :
    ∃ pre c post, accepted ray (scene_corners objects) = pre ++ c :: post ∧
      fire_line objects ray v = (true, tri_point ray c.1 c.2.1 c.2.2) ∧
      (∀ e ∈ pre, F32.lt (tri_param ray e.1 e.2.1 e.2.2)
        (tri_param ray c.1 c.2.1 c.2.2) = true) ∧
      (∀ e ∈ post, F32.lt (tri_param ray c.1 c.2.1 c.2.2)
        (tri_param ray e.1 e.2.1 e.2.2) = false) ∧
      (∀ e ∈ accepted ray (scene_corners objects),
        F32.lt (tri_param ray c.1 c.2.1 c.2.2) (tri_param ray e.1 e.2.1 e.2.2) = false) := by
  have hnan : ∀ e ∈ accepted ray (scene_corners objects),
      (tri_param ray e.1 e.2.1 e.2.2).isNaN = false := by
    intro e he
    obtain ⟨m, _, _, _, ha⟩ := (mem_accepted_scene objects ray e).1 he
    exact tri_accept_param ray _ _ _ ha
  have hne : accepted ray (scene_corners objects) ≠ [] := by
    obtain ⟨m, hm, hi, c, hc, ha⟩ := h
    have : c ∈ accepted ray (scene_corners objects) :=
      (mem_accepted_scene objects ray c).2 ⟨m, hm, hi, hc, ha⟩
    exact List.ne_nil_of_mem this
  obtain ⟨pre, c, post, e1, e2, e3, e4⟩ := pick_foldl_largest
    (fun c : Vector F32 × Vector F32 × Vector F32 => tri_param ray c.1 c.2.1 c.2.2)
    (fun c => tri_point ray c.1 c.2.1 c.2.2) (accepted ray (scene_corners objects))
    (by
      intro a ha b hb c hc h1 h2
      have k1 := f32_lt_key _ _ (hnan a ha) (hnan b hb)
      have k2 := f32_lt_key _ _ (hnan b hb) (hnan c hc)
      have k3 := f32_lt_key _ _ (hnan a ha) (hnan c hc)
      change F32.lt _ _ = true at h1 h2
      change F32.lt _ _ = true
      rw [k1] at h1; rw [k2] at h2; rw [k3]
      simp only [decide_eq_true_eq] at h1 h2 ⊢
      omega)
    (by
      intro a ha b hb c hc h1
      have k1 := f32_lt_key _ _ (hnan a ha) (hnan b hb)
      have k2 := f32_lt_key _ _ (hnan b hb) (hnan c hc)
      have k3 := f32_lt_key _ _ (hnan a ha) (hnan c hc)
      change F32.lt _ _ = true at h1
      change F32.lt _ _ = true ∨ F32.lt _ _ = true
      rw [k3] at h1; rw [k1, k2]
      simp only [decide_eq_true_eq] at h1 ⊢
      omega)
    hne { first := true, dist := FloatOps.ofBits 0x7F7FFFFF, nearest := Vector.zero } rfl
  have hc : c ∈ accepted ray (scene_corners objects) := by rw [e1]; simp
  refine ⟨pre, c, post, e1, ?_, e3, e4, ?_⟩
  · rw [fire_line_eq, e2]
    simp
  · intro e he
    rw [e1] at he
    rcases List.mem_append.1 he with he' | he'
    · have hpe : e ∈ accepted ray (scene_corners objects) := by rw [e1]; simp [he']
      have k1 := f32_lt_key _ _ (hnan e hpe) (hnan c hc)
      have k2 := f32_lt_key _ _ (hnan c hc) (hnan e hpe)
      have h3 := e3 e he'
      change F32.lt _ _ = true at h3
      rw [k1] at h3; rw [k2]
      simp only [decide_eq_true_eq, decide_eq_false_iff_not, not_lt] at h3 ⊢
      omega
    · rcases List.mem_cons.1 he' with he'' | he''
      · rw [he'', f32_lt_key _ _ (hnan c hc) (hnan c hc)]
        simp
      · exact e4 e he''

/-- Witness for C17: `rayZ` meets both triangles of `twoPlanes`, the first with
parameter `-2`, the second with parameter `-1`; the point `(0, 0, 1)` of the second is
the output. -/
theorem fire_line_largest_witness :
    fire_line [twoPlanes] rayZ origin = (true, unitZ) ∧
    (accepted rayZ (scene_corners [twoPlanes])).map
        (fun c => tri_param rayZ c.1 c.2.1 c.2.2) = [⟨0xC0000000⟩, ⟨0xBF800000⟩] ∧
    ∃ pre c post, accepted rayZ (scene_corners [twoPlanes]) = pre ++ c :: post ∧
      fire_line [twoPlanes] rayZ origin = (true, tri_point rayZ c.1 c.2.1 c.2.2) ∧
      (∀ e ∈ pre, F32.lt (tri_param rayZ e.1 e.2.1 e.2.2)
        (tri_param rayZ c.1 c.2.1 c.2.2) = true) ∧
      (∀ e ∈ post, F32.lt (tri_param rayZ c.1 c.2.1 c.2.2)
        (tri_param rayZ e.1 e.2.1 e.2.2) = false) ∧
      (∀ e ∈ accepted rayZ (scene_corners [twoPlanes]),
        F32.lt (tri_param rayZ c.1 c.2.1 c.2.2) (tri_param rayZ e.1 e.2.1 e.2.2) = false) :=
  ⟨by decide, by decide,
    fire_line_largest [twoPlanes] rayZ origin
      ⟨twoPlanes, List.mem_singleton.2 rfl, rfl,
        (⟨⟨0⟩, ⟨0⟩, ⟨0x3F800000⟩⟩, ⟨⟨0x3F800000⟩, ⟨0⟩, ⟨0x3F800000⟩⟩,
          ⟨⟨0⟩, ⟨0x3F800000⟩, ⟨0x3F800000⟩⟩), by decide, by decide⟩⟩

section PickingParam

variable {F : Type} [FloatOps F] [PickOps F]

omit [PickOps F] in
/-- What a fold of `pick_hit` leaves is the start state or comes from one of the hits. -/
theorem pick_foldl_mem {α : Type} (s : α → F) (p : α → Vector F) (hits : List α) :
    ∀ st : Pick F,
      hits.foldl (fun st c => pick_hit st (s c) (p c)) st = st ∨
      ∃ c ∈ hits, (hits.foldl (fun st c => pick_hit st (s c) (p c)) st).dist = s c ∧
        (hits.foldl (fun st c => pick_hit st (s c) (p c)) st).nearest = p c := by
  induction hits with
  | nil => intro st; exact Or.inl rfl
  | cons c cs ih =>
    intro st
    simp only [List.foldl_cons]
    rcases ih (pick_hit st (s c) (p c)) with h | ⟨e, he, h1, h2⟩
    · rw [h]
      unfold pick_hit
      by_cases hf : st.first = true
      · rw [if_pos hf]
        exact Or.inr ⟨c, by simp, rfl, rfl⟩
      · rw [if_neg hf]
        by_cases hl : FloatOps.lt st.dist (s c) = true
        · rw [if_pos hl]
          exact Or.inr ⟨c, by simp, rfl, rfl⟩
        · rw [if_neg hl]
          exact Or.inl rfl
    · exact Or.inr ⟨e, by simp [he], h1, h2⟩

/-- C19 (as amended): the parameter that `fire_line` computes for a triangle is
`s = dot(normal, ray.pt - vertex0) / dot(normal, ray.dir)`, `normal` being
`cross(vertex1 - vertex0, vertex2 - vertex0)` divided by its length: the numerator is
taken from vertex 0 to the ray origin.  The candidate point is `ray.pt - ray.dir * s`,
and when `fire_line` returns true its output is that point for one of the accepted
triangles of the flagged meshes. -/
theorem fire_line_param (objects : List (Mesh F)) (ray : Ray F) (v v0 v1 v2 : Vector F) :
    tri_param ray v0 v1 v2
      = FloatOps.div
          (dot ((cross (v1.sub v0) (v2.sub v0)).divide (cross (v1.sub v0) (v2.sub v0)).length)
            (ray.pt.sub v0))
          (dot ((cross (v1.sub v0) (v2.sub v0)).divide (cross (v1.sub v0) (v2.sub v0)).length)
            ray.dir) ∧
    tri_point ray v0 v1 v2 = ray.pt.sub (ray.dir.scale (tri_param ray v0 v1 v2)) ∧
    ((fire_line objects ray v).1 = true →
      ∃ c ∈ accepted ray (scene_corners objects),
        (fire_line objects ray v).2
          = ray.pt.sub (ray.dir.scale (tri_param ray c.1 c.2.1 c.2.2))) := by
  refine ⟨rfl, rfl, ?_⟩
  intro h
  rw [fire_line_eq] at h ⊢
  split at h
  · cases h
  · rename_i hf
    rw [if_neg hf]
    rcases pick_foldl_mem
      (fun c : Vector F × Vector F × Vector F => tri_param ray c.1 c.2.1 c.2.2)
      (fun c => tri_point ray c.1 c.2.1 c.2.2) (accepted ray (scene_corners objects))
      { first := true, dist := FloatOps.ofBits 0x7F7FFFFF, nearest := Vector.zero }
      with h0 | ⟨c, hc, _, h2⟩
    · rw [h0] at hf
      exact absurd rfl hf
    · exact ⟨c, hc, h2⟩

end PickingParam

/-- C19, counterexample: for the ray from the origin along `+z` and the triangle
`(0,0,1) (1,0,1) (0,1,1)` the denominator is 1; `fire_line` computes the parameter `-1`,
the formula of the claim gives `1`.  The output `(0, 0, 1)` is `ray.pt - ray.dir * (-1)`. -/
theorem fire_line_param_sign :
    dot (cross ((⟨⟨0x3F800000⟩, ⟨0⟩, ⟨0x3F800000⟩⟩ : Vector F32).sub unitZ)
        ((⟨⟨0⟩, ⟨0x3F800000⟩, ⟨0x3F800000⟩⟩ : Vector F32).sub unitZ)).normalize rayZ.dir
      = ⟨0x3F800000⟩ ∧
    tri_param rayZ unitZ ⟨⟨0x3F800000⟩, ⟨0⟩, ⟨0x3F800000⟩⟩ ⟨⟨0⟩, ⟨0x3F800000⟩, ⟨0x3F800000⟩⟩
      = ⟨0xBF800000⟩ ∧
    spec_param rayZ unitZ ⟨⟨0x3F800000⟩, ⟨0⟩, ⟨0x3F800000⟩⟩ ⟨⟨0⟩, ⟨0x3F800000⟩, ⟨0x3F800000⟩⟩
      = ⟨0x3F800000⟩ ∧
    fire_line [onePlane] rayZ origin = (true, unitZ) := by
  decide

/-- C20 (as amended): when `dot(triNorm, ray.dir)` is a zero, `fire_line` (on binary32)
still computes the quotient `s`, which is then an infinity or a NaN; the acceptance test
fails for the triangle, which leaves the locals of `fire_line` as they were. -/
theorem fire_line_parallel (ray : Ray F32) (v0 v1 v2 : Vector F32)
    (h : (dot (cross (v1.sub v0) (v2.sub v0)).normalize ray.dir).isZero = true) :
    tri_param ray v0 v1 v2
      = F32.div (dot (cross (v1.sub v0) (v2.sub v0)).normalize (ray.pt.sub v0))
          (dot (cross (v1.sub v0) (v2.sub v0)).normalize ray.dir) ∧
    (tri_param ray v0 v1 v2).expo = 255 ∧
    tri_accept ray v0 v1 v2 = false ∧
    ∀ st : Pick F32, fire_triangle ray st v0 v1 v2 = st := by
  have he : (tri_param ray v0 v1 v2).expo = 255 := f32_div_nonfinite _ _ (Or.inr h)
  have ha := tri_accept_nonfinite ray v0 v1 v2 he
  refine ⟨rfl, he, ha, ?_⟩
  intro st
  simp [fire_triangle, ha]

/-- Witness for C20: `rayOff` runs along `+z` beside the plane `x = 0` of the triangle
`(0,0,0) (0,0,1) (0,1,0)`. -/
theorem fire_line_parallel_witness :
    (dot (cross (unitZ.sub origin) (unitY.sub origin)).normalize rayOff.dir).isZero = true ∧
    (tri_param rayOff origin unitZ unitY).expo = 255 ∧
    tri_accept rayOff origin unitZ unitY = false ∧
    ∀ st : Pick F32, fire_triangle rayOff st origin unitZ unitY = st :=
  ⟨by decide, (fire_line_parallel rayOff origin unitZ unitY (by decide)).2⟩

/-- C20, counterexample: for `rayOff` and the triangle of `sidePlane` the denominator
`dot(triNorm, ray.dir)` is zero and `fire_line` divides by it all the same: the
parameter `s` is `-1 / 0`, minus infinity.  The triangle is not accepted. -/
theorem fire_line_divides_by_zero :
    dot (cross (unitZ.sub origin) (unitY.sub origin)).normalize rayOff.dir = ⟨0⟩ ∧
    dot (cross (unitZ.sub origin) (unitY.sub origin)).normalize (rayOff.pt.sub origin)
      = ⟨0xBF800000⟩ ∧
    tri_param rayOff origin unitZ unitY = F32.div ⟨0xBF800000⟩ ⟨0⟩ ∧
    tri_param rayOff origin unitZ unitY = ⟨0xFF800000⟩ ∧
    fire_line [sidePlane] rayOff origin = (false, origin) := by
  decide


/-! ## Truncated ASCII input -/

section Truncated

variable {F : Type} [FloatOps F] [CStdlib F]

/-- When the loop is still running after the last token, the result is true. -/
theorem ascii_run_after (ts : List (List Nat)) (st st1 : AsciiState F)
    (h : ascii_after ts st = some st1) : ascii_run ts st = (true, st1.mesh) := by
  have := ascii_run_append ts st st1 [] h
  simpa [ascii_run] using this

/-- C27: on an input whose runs fit the 512-byte token buffer, when the tokens run out
while the loop of `read_ascii_stl` is still running (no token stopped it: none failed
to advance the state machine and none was `endsolid` in state 0), `read_ascii_stl` returns true, whatever the state `st.state` it
is in then, with the mesh built so far. -/
theorem read_ascii_stl_truncated (m : Mesh F) (fp : List Nat) (st : AsciiState F)
    (hbuf : ∀ t ∈ maximal_runs fp, t.length < 512)
    (h : ascii_after (tokens fp) (ascii_init m) = some st) :
    read_ascii_stl m fp = some (true, st.mesh) := by
  rw [read_ascii_stl_eq m fp hbuf, ascii_run_after _ _ _ h]

end Truncated

/-- Witness for C27: `asciiCut` ends in the middle of a facet, in state 10; and cutting
the tokens of `asciiOne` after any of the first 21 leaves the loop running, in each of
the states 0 to 20. -/
theorem read_ascii_stl_truncated_witness :
    (∀ k, k < 21 →
      (ascii_after ((tokens asciiOne).take (k + 1)) (ascii_init (Mesh.empty : Mesh F32))).map
        (fun st => st.state) = some k) ∧
    (ascii_after (tokens asciiCut) (ascii_init (Mesh.empty : Mesh F32))).map
        (fun st => st.state) = some 10 ∧
    read_ascii_stl (Mesh.empty : Mesh F32) asciiCut = some (true, Mesh.empty) :=
  ⟨by decide, by decide,
    read_ascii_stl_truncated (Mesh.empty : Mesh F32) asciiCut
      ⟨10, { (Record.blank : Record F32) with vertex1 := ⟨⟨0⟩, ⟨0⟩, ⟨0⟩⟩ }, false, Mesh.empty⟩
      (by decide) (by decide)⟩

/-! ## `read_stl` -/

/-- On six stored bytes `_strnicmp(buf, "solid ", 6)` is 0 exactly when the bytes spell
`solid ` in some mixture of cases. -/
theorem strnicmp_solid (buf : List Nat) (h : buf.length = 6) :
    strnicmp buf (kw "solid " ++ [0]) 6 = 0 ↔ buf.map tolower = kw "solid " := by
  match buf, h with
  | [a, b, c, d, e, f], _ =>
    have hk : kw "solid " ++ [0] = [115, 111, 108, 105, 100, 32, 0] := by decide
    have hk' : kw "solid " = [115, 111, 108, 105, 100, 32] := by decide
    have t1 : tolower 115 = 115 := by decide
    have t2 : tolower 111 = 111 := by decide
    have t3 : tolower 108 = 108 := by decide
    have t4 : tolower 105 = 105 := by decide
    have t5 : tolower 100 = 100 := by decide
    have t6 : tolower 32 = 32 := by decide
    have n0 : ∀ x k : Nat, tolower x = k → k ≠ 0 → x ≠ 0 := by
      intro x k hx hk0 hx0
      subst hx0
      exact hk0 (by rw [← hx]; decide)
    rw [hk, hk']
    simp only [strnicmp, t1, t2, t3, t4, t5, t6, List.map_cons, List.map_nil, List.cons.injEq,
      and_true, ne_eq]
    by_cases ha : tolower a = 115
    · by_cases hb : tolower b = 111
      · by_cases hc : tolower c = 108
        · by_cases hd : tolower d = 105
          · by_cases he : tolower e = 100
            · by_cases hf : tolower f = 32
              · simp [ha, hb, hc, hd, he, hf, n0 a _ ha, n0 b _ hb, n0 c _ hc, n0 d _ hd,
                  n0 e _ he]
              · simp [ha, hb, hc, hd, he, hf, n0 a _ ha, n0 b _ hb, n0 c _ hc, n0 d _ hd,
                  n0 e _ he]; omega
            · simp [ha, hb, hc, hd, he, n0 a _ ha, n0 b _ hb, n0 c _ hc, n0 d _ hd]; omega
          · simp [ha, hb, hc, hd, n0 a _ ha, n0 b _ hb, n0 c _ hc]; omega
        · simp [ha, hb, hc, n0 a _ ha, n0 b _ hb]; omega
      · simp [ha, hb, n0 a _ ha]; omega
    · simp [ha]; omega

theorem le32_drop (fp : List Nat) (n : Nat) : le32 (fp.drop n) 0 = le32 fp n := by
  simp only [le32, getD_drop_add, Nat.add_zero, Nat.zero_add, Nat.add_assoc]

section ReadStl

variable {F : Type} [FloatOps F] [CStdlib F]

/-- C23: for an input of at least 6 bytes, `read_stl` hands what follows the first 6
bytes to `read_ascii_stl` exactly when those bytes are `solid ` in any mixture of cases,
and otherwise hands what follows the first 80 bytes to `read_binary_stl`, whose 4-byte
count is then bytes 80 to 83 of the file.  In both cases the mesh it leaves is
`make_edges` applied once to the mesh the decoder leaves, whatever the decoder returned;
on the ASCII side the decoder returns on every input whose runs fit the 512-byte token
buffer. -/
theorem read_stl_dispatch (m : Mesh F) (fp : List Nat) (h6 : 6 ≤ fp.length) :
    (strnicmp (fp.take 6) (kw "solid " ++ [0]) 6 = 0 ↔
      (fp.take 6).map tolower = kw "solid ") ∧
    ((fp.take 6).map tolower = kw "solid " →
      read_stl m (some fp) = (read_ascii_stl m (fp.drop 6)).map (fun r => make_edges r.2) ∧
      ((∀ t ∈ maximal_runs (fp.drop 6), t.length < 512) →
        ∃ b, read_ascii_stl m (fp.drop 6)
            = some (b, add_facets m (ascii_facets (tokens (fp.drop 6)))) ∧
          read_stl m (some fp)
            = some (make_edges (add_facets m (ascii_facets (tokens (fp.drop 6))))))) ∧
    ((fp.take 6).map tolower ≠ kw "solid " →
      read_stl m (some fp) = some (make_edges (read_binary_stl m (fp.drop 80)).2) ∧
      (84 ≤ fp.length →
        read_binary_stl m (fp.drop 80)
          = read_binary_loop (le32 fp 80) (fp.drop 84) m)) := by
  have hs := strnicmp_solid (fp.take 6) (by simp [List.length_take]; omega)
  refine ⟨hs, ?_, ?_⟩
  · intro h
    have hd : read_stl m (some fp)
        = (read_ascii_stl m (fp.drop 6)).map (fun r => make_edges r.2) := by
      simp only [read_stl, hs.2 h, if_true]
    refine ⟨hd, ?_⟩
    intro hbuf
    obtain ⟨b, hb⟩ := read_ascii_stl_facets m (fp.drop 6) hbuf
    refine ⟨b, hb, ?_⟩
    rw [hd, hb, Option.map_some']
  · intro h
    have hn : ¬ strnicmp (fp.take 6) (kw "solid " ++ [0]) 6 = 0 := fun h0 => h (hs.1 h0)
    refine ⟨?_, ?_⟩
    · simp only [read_stl, hn, if_false, List.drop_drop]
    · intro h84
      have hl : ¬ (fp.drop 80).length < 4 := by simp [List.length_drop]; omega
      simp only [read_binary_stl, hl, if_false, le32_drop, List.drop_drop]

end ReadStl

/-- Witness for C23: `fileAsciiOne` starts with `SoLiD ` and is decoded as ASCII;
`fileBinTwo` starts with `xxxxxx` and is decoded as binary, its count 2 read at offset
80. -/
theorem read_stl_dispatch_witness :
    (read_stl (Mesh.empty : Mesh F32) (some fileAsciiOne)).map
        (fun m => (m.triangles, m.edges)) = some ([0, 1, 2], [0, 1, 1, 2, 2, 0]) ∧
    le32 fileBinTwo 80 = 2 ∧
    (read_stl (Mesh.empty : Mesh F32) (some fileBinTwo)).map
        (fun m => (m.triangles, m.edges)) = some ([0, 1, 2], [0, 1, 1, 2, 2, 0]) ∧
    (strnicmp (fileAsciiOne.take 6) (kw "solid " ++ [0]) 6 = 0 ↔
      (fileAsciiOne.take 6).map tolower = kw "solid ") ∧
    (∃ b, read_ascii_stl (Mesh.empty : Mesh F32) (fileAsciiOne.drop 6)
        = some (b, add_facets Mesh.empty (ascii_facets (tokens (fileAsciiOne.drop 6)))) ∧
      read_stl (Mesh.empty : Mesh F32) (some fileAsciiOne)
        = some (make_edges
            (add_facets Mesh.empty (ascii_facets (tokens (fileAsciiOne.drop 6)))))) :=
  ⟨by decide, by decide, by decide,
    (read_stl_dispatch (Mesh.empty : Mesh F32) fileAsciiOne (by decide)).1,
    ((read_stl_dispatch (Mesh.empty : Mesh F32) fileAsciiOne (by decide)).2.1
      (by decide)).2 (by decide)⟩

/-! ## `read_token` and the maximal runs -/

theorem read_token_no_nul (fp : List Nat) :
    ∀ token : List Nat, (∀ c ∈ fp, c ≠ 0) → (∀ c ∈ token, c ≠ 0) →
      (∀ c ∈ (read_token fp token).1, c ≠ 0) ∧ (∀ c ∈ (read_token fp token).2, c ≠ 0) := by
  induction fp with
  | nil => intro token _ ht; simp only [read_token]; exact ⟨ht, by simp⟩
  | cons c fp ih =>
    intro token hfp ht
    have hfp' : ∀ x ∈ fp, x ≠ 0 := fun x hx => hfp x (by simp [hx])
    simp only [read_token]
    split
    · split
      · exact ih token hfp' ht
      · exact ⟨ht, hfp'⟩
    · refine ih _ hfp' ?_
      intro x hx
      rcases List.mem_append.1 hx with h | h
      · exact ht x h
      · rw [List.mem_singleton.1 h]; exact hfp c (by simp)

theorem c_str_no_nul (buf : List Nat) (h : ∀ c ∈ buf, c ≠ 0) : c_str buf = buf := by
  unfold c_str
  rw [List.takeWhile_eq_self_iff]
  intro c hc
  simpa using h c hc

/-- The tokens of an input without NUL bytes are its maximal runs. -/
theorem token_stream_runs (fuel : Nat) :
    ∀ fp : List Nat, fp.length < fuel → (∀ c ∈ fp, c ≠ 0) →
      token_stream fuel fp = maximal_runs fp := by
  induction fuel with
  | zero => intro fp h; omega
  | succ fuel ih =>
    intro fp hl hn
    have hnn := read_token_no_nul fp [] hn (by simp)
    have hr := read_token_runs fp []
    simp only [modifyHead_nil_append] at hr
    simp only [token_stream, c_str_no_nul _ hnn.1]
    by_cases he : (read_token fp []).1 = []
    · simp only [he, if_true]
      exact (hr.1 he).symm
    · simp only [he, if_false]
      rw [ih _ (by have := read_token_rest_lt fp he; omega) hnn.2]
      exact (hr.2 he).symm

theorem splitOnP_no_delim (p : Nat → Bool) (fp : List Nat) :
    ∀ t ∈ fp.splitOnP p, ∀ c ∈ t, p c = false := by
  induction fp with
  | nil => intro t ht; simp only [List.splitOnP_nil, List.mem_singleton] at ht; simp [ht]
  | cons x fp ih =>
    intro t ht
    rw [List.splitOnP_cons] at ht
    by_cases hx : p x = true
    · simp only [hx, if_true, List.mem_cons] at ht
      rcases ht with h | h
      · simp [h]
      · exact ih t h
    · simp only [hx, if_false] at ht
      cases hs : fp.splitOnP p with
      | nil => simp [hs, List.modifyHead] at ht
      | cons s ss =>
        rw [hs] at ht
        simp only [List.modifyHead] at ht
        rcases List.mem_cons.1 ht with h | h
        · intro c hc
          rw [h] at hc
          rcases List.mem_cons.1 hc with h1 | h1
          · rw [h1]; simpa using hx
          · exact ih s (by rw [hs]; exact List.mem_cons_self _ _) c h1
        · exact ih t (by rw [hs]; exact List.mem_cons_of_mem _ h)

theorem read_token_ne_nil (fp : List Nat) :
    ∀ token : List Nat, token ≠ [] → (read_token fp token).1 ≠ [] := by
  induction fp with
  | nil => intro token h; simpa [read_token] using h
  | cons c fp ih =>
    intro token h
    simp only [read_token]
    split
    · simp only [h, if_false]; exact h
    · exact ih _ (by simp)

theorem read_token_empty_iff (fp : List Nat) :
    (read_token fp []).1 = [] ↔ ∀ c ∈ fp, is_delim c = true := by
  induction fp with
  | nil => simp [read_token]
  | cons c fp ih =>
    by_cases hc : c = 32 ∨ c = 9 ∨ c = 13 ∨ c = 10
    · have hd : is_delim c = true := (is_delim_iff c).2 hc
      simp only [read_token, hc, if_true, List.mem_cons, forall_eq_or_imp, hd, true_and]
      exact ih
    · have hd : ¬ is_delim c = true := fun h => hc ((is_delim_iff c).1 h)
      simp only [read_token, hc, if_false, List.nil_append]
      constructor
      · intro h; exact absurd h (read_token_ne_nil fp [c] (by simp))
      · intro h; exact absurd (h c (by simp)) hd

/-- C24 (as amended): for an input without NUL bytes whose runs fit the 512-byte token
buffer, the tokens that successive `read_token` calls return are exactly the maximal runs
of bytes other than space, tab, CR and LF, in order; no token is empty or contains a
delimiter; the call returns the empty token exactly when every remaining byte is a
delimiter, and otherwise the later tokens are those of the input it leaves. -/
theorem read_token_maximal_runs (fp : List Nat) (hnul : ∀ c ∈ fp, c ≠ 0)
    (_hbuf : ∀ t ∈ maximal_runs fp, t.length < 512) :
    tokens fp = maximal_runs fp ∧
    (∀ t ∈ tokens fp, t ≠ [] ∧ ∀ c ∈ t, is_delim c = false) ∧
    (c_str (read_token fp []).1 = [] ↔ ∀ c ∈ fp, is_delim c = true) ∧
    (c_str (read_token fp []).1 ≠ [] →
      tokens fp = c_str (read_token fp []).1 :: tokens (read_token fp []).2) := by
  have hnn := read_token_no_nul fp [] hnul (by simp)
  have ht : tokens fp = maximal_runs fp := token_stream_runs _ fp (Nat.lt_succ_self _) hnul
  refine ⟨ht, ?_, ?_, ?_⟩
  · intro t h
    rw [ht] at h
    simp only [maximal_runs, List.mem_filter, Bool.not_eq_true', List.isEmpty_eq_false] at h
    exact ⟨h.2, splitOnP_no_delim _ fp t h.1⟩
  · rw [c_str_no_nul _ hnn.1]
    exact read_token_empty_iff fp
  · rw [c_str_no_nul _ hnn.1]
    intro he
    have hr := (read_token_runs fp []).2 he
    simp only [modifyHead_nil_append] at hr
    have ht2 : tokens (read_token fp []).2 = maximal_runs (read_token fp []).2 :=
      token_stream_runs _ _ (Nat.lt_succ_self _) hnn.2
    rw [ht, ht2]
    exact hr

/-- Witness for C24: the bytes of `asciiOne`. -/
theorem read_token_maximal_runs_witness :
    tokens asciiOne = maximal_runs asciiOne ∧
    (∀ t ∈ tokens asciiOne, t ≠ [] ∧ ∀ c ∈ t, is_delim c = false) ∧
    (c_str (read_token asciiOne []).1 = [] ↔ ∀ c ∈ asciiOne, is_delim c = true) ∧
    (c_str (read_token asciiOne []).1 ≠ [] →
      tokens asciiOne = c_str (read_token asciiOne []).1 :: tokens (read_token asciiOne []).2) :=
  read_token_maximal_runs asciiOne (by decide) (by decide)

/-- C24, counterexample: a NUL byte is not a delimiter and is stored in the token, where
it ends the C string.  The input `NUL a` is one run of two bytes, yet the token returned
is empty although non-delimiter bytes remain; of the run `a NUL b` the token is `a`. -/
theorem read_token_nul_byte :
    maximal_runs [0, 97] = [[0, 97]] ∧ (read_token [0, 97] []).1 = [0, 97] ∧
    c_str (read_token [0, 97] []).1 = [] ∧ tokens [0, 97] = [] ∧
    maximal_runs [97, 0, 98] = [[97, 0, 98]] ∧ tokens [97, 0, 98] = [[97]] := by
  decide

/-! ## `operator==` and `Hasher` -/

/-- The operator `==` on binary32: both operands not NaN, and the same bits or both
zeros. -/
theorem f32_eq_iff (a b : F32) :
    F32.eq a b = true ↔
      a.isNaN = false ∧ b.isNaN = false ∧ (a.bits = b.bits ∨ (a.isZero = true ∧ b.isZero = true)) := by
  simp [F32.eq, and_assoc]

/-- Keys that compare equal and whose `point` has no zero component hash alike. -/
theorem hasher_eq_of_nonzero (a b : VertexRecord F32) (h : VertexRecord.eq a b = true)
    (hz : a.point.x.isZero = false ∧ a.point.y.isZero = false ∧ a.point.z.isZero = false) :
    Hasher.record a = Hasher.record b := by
  simp only [VertexRecord.eq, Vector.eq, Bool.and_eq_true] at h
  obtain ⟨⟨⟨h1, h2⟩, h3⟩, _⟩ := h
  have e : ∀ x y : F32, F32.eq x y = true → x.isZero = false → x.bits = y.bits := by
    intro x y hxy hx
    rcases ((f32_eq_iff x y).1 hxy).2.2 with h | h
    · exact h
    · rw [h.1] at hx; cases hx
  have e1 := e _ _ h1 hz.1
  have e2 := e _ _ h2 hz.2.1
  have e3 := e _ _ h3 hz.2.2
  simp only [Hasher.record, Hasher.vector, FloatOps.toBits, e1, e2, e3]

/-- C25, the code at the failing input: `(0, 0, 0)` and `(-0, 0, 0)` compare equal under
`operator==` although the bits of their x components differ, and the two keys built from
them (same normal) compare equal but get the `Hasher` values `0` and `0x80000000`.
Conversely a vector with a NaN component does not compare equal to itself. -/
theorem hasher_differs_on_equal_keys :
    Vector.eq origin negZeroX = true ∧ origin.x.bits ≠ negZeroX.x.bits ∧
    VertexRecord.eq ⟨origin, unitZ⟩ ⟨negZeroX, unitZ⟩ = true ∧
    Hasher.record (⟨origin, unitZ⟩ : VertexRecord F32) = 0 ∧
    Hasher.record (⟨negZeroX, unitZ⟩ : VertexRecord F32) = 0x80000000 ∧
    Vector.eq nanNormal nanNormal = false := by
  decide

/-! ## Exact real arithmetic -/

theorem real_add (a b : ℝ) : FloatOps.add a b = a + b := rfl

theorem real_sub (a b : ℝ) : FloatOps.sub a b = a - b := rfl

theorem real_mul (a b : ℝ) : FloatOps.mul a b = a * b := rfl

theorem real_div (a b : ℝ) : FloatOps.div a b = a / b := rfl

theorem real_neg (a : ℝ) : FloatOps.neg a = -a := rfl

theorem real_sqrt (a : ℝ) : FloatOps.sqrt a = Real.sqrt a := rfl

theorem real_cos (a : ℝ) : FloatOps.cos a = Real.cos a := rfl

theorem real_sin (a : ℝ) : FloatOps.sin a = Real.sin a := rfl

theorem real_ofNat (n : Nat) : (FloatOps.ofNat n : ℝ) = (n : ℝ) := rfl

theorem real_fabs (a : ℝ) : PickOps.fabs a = |a| := rfl

theorem real_lt_scaled (x a : ℝ) :
    PickOps.lt_scaled x a = decide (x < a * (1 / 1000000)) := rfl

/-- The acceptance test of `fire_line` is `point_accept` at the candidate point. -/
theorem tri_accept_eq {F : Type} [FloatOps F] [PickOps F] (ray : Ray F)
    (v0 v1 v2 : Vector F) :
    tri_accept ray v0 v1 v2 = point_accept (tri_point ray v0 v1 v2) v0 v1 v2 := rfl

/-- C26: in exact real arithmetic, for a triangle of non-zero area and a ray with
`dot(triNorm, ray.dir)` non-zero, the candidate point `intx = ray.pt - ray.dir * s` is
the point `ray.pt + t * ray.dir` of the ray's line for `t = -s`, and it lies in the plane
of the triangle: `dot(triNorm, intx - vertex0) = 0`. -/
theorem tri_point_on_plane (ray : Ray ℝ) (v0 v1 v2 : Vector ℝ)
    (_harea : tri_area v0 v1 v2 ≠ 0)
    (hd : dot (cross (v1.sub v0) (v2.sub v0)).normalize ray.dir ≠ 0) :
    tri_point ray v0 v1 v2 = ray.pt.sub (ray.dir.scale (tri_param ray v0 v1 v2)) ∧
    tri_point ray v0 v1 v2 = ray.pt.add (ray.dir.scale (-(tri_param ray v0 v1 v2))) ∧
    dot (cross (v1.sub v0) (v2.sub v0)).normalize ((tri_point ray v0 v1 v2).sub v0) = 0 := by
  refine ⟨rfl, ?_, ?_⟩
  · simp only [tri_point, Vector.sub, Vector.add, Vector.scale, real_sub, real_add, real_mul,
      Vector.mk.injEq]
    refine ⟨?_, ?_, ?_⟩ <;> ring
  · have hs : tri_param ray v0 v1 v2
        = dot (cross (v1.sub v0) (v2.sub v0)).normalize (ray.pt.sub v0)
          / dot (cross (v1.sub v0) (v2.sub v0)).normalize ray.dir := rfl
    generalize hn : (cross (v1.sub v0) (v2.sub v0)).normalize = n at hd hs
    simp only [tri_point, hs, dot, Vector.sub, Vector.scale, real_sub, real_add, real_mul] at hd ⊢
    field_simp
    ring

/-- Witness for C26: the ray from the origin along `+z` and the triangle
`(0,0,1) (1,0,1) (0,1,1)`. -/
theorem tri_point_on_plane_witness :
    tri_area (⟨0, 0, 1⟩ : Vector ℝ) ⟨1, 0, 1⟩ ⟨0, 1, 1⟩ ≠ 0 ∧
    dot (cross ((⟨1, 0, 1⟩ : Vector ℝ).sub ⟨0, 0, 1⟩)
      ((⟨0, 1, 1⟩ : Vector ℝ).sub ⟨0, 0, 1⟩)).normalize unitZR ≠ 0 ∧
    dot (cross ((⟨1, 0, 1⟩ : Vector ℝ).sub ⟨0, 0, 1⟩)
        ((⟨0, 1, 1⟩ : Vector ℝ).sub ⟨0, 0, 1⟩)).normalize
      ((tri_point ⟨originR, unitZR⟩ ⟨0, 0, 1⟩ ⟨1, 0, 1⟩ ⟨0, 1, 1⟩).sub ⟨0, 0, 1⟩) = 0 :=
  have h1 : tri_area (⟨0, 0, 1⟩ : Vector ℝ) ⟨1, 0, 1⟩ ⟨0, 1, 1⟩ ≠ 0 := by
    simp [tri_area, cross, Vector.sub, Vector.length, real_sub, real_add, real_mul, real_div,
      real_sqrt, real_ofNat]
  have h2 : dot (cross ((⟨1, 0, 1⟩ : Vector ℝ).sub ⟨0, 0, 1⟩)
      ((⟨0, 1, 1⟩ : Vector ℝ).sub ⟨0, 0, 1⟩)).normalize unitZR ≠ 0 := by
    simp [dot, cross, Vector.sub, Vector.length, Vector.normalize, Vector.divide, unitZR,
      real_sub, real_add, real_mul, real_div, real_sqrt]
  ⟨h1, h2, (tri_point_on_plane ⟨originR, unitZR⟩ ⟨0, 0, 1⟩ ⟨1, 0, 1⟩ ⟨0, 1, 1⟩ h1 h2).2.2⟩

/-! ## The sphere -/

section SphereSlots

variable {F : Type} [FloatOps F]

omit [FloatOps F] in
theorem slots_triangles (m : Mesh F) (ts : List Nat) :
    ({ m with triangles := ts } : Mesh F).slots = m.slots := rfl

omit [FloatOps F] in
theorem slots_make_edges (m : Mesh F) : (make_edges m).slots = m.slots := rfl

/-- A property of the slots is kept by `get_index` when the pair inserted has it. -/
theorem get_index_slots (Q : VertexRecord F → Prop) (m : Mesh F) (v n : Vector F)
    (hs : SizesOk m) (hall : ∀ s ∈ m.slots, Q s) (hQ : Q ⟨v, n⟩) :
    ∀ s ∈ (get_index m v n).2.slots, Q s := by
  cases hf : m.find ⟨v, n⟩ with
  | some it => rw [get_index_hit m v n it hf]; exact hall
  | none =>
    rw [slots_miss m v n hs.1 hf]
    intro s h
    rcases List.mem_append.1 h with h | h
    · exact hall s h
    · rw [List.mem_singleton.1 h]; exact hQ

theorem emit_triangle_slots (Q : VertexRecord F → Prop) (m : Mesh F)
    (v1 n1 v2 n2 v3 n3 : Vector F) (hs : SizesOk m) (hall : ∀ s ∈ m.slots, Q s)
    (h1 : Q ⟨v1, n1⟩) (h2 : Q ⟨v2, n2⟩) (h3 : Q ⟨v3, n3⟩) :
    ∀ s ∈ (emit_triangle m v1 n1 v2 n2 v3 n3).slots, Q s := by
  have s1 := get_index_sizes m v1 n1 hs
  have a1 := get_index_slots Q m v1 n1 hs hall h1
  have s2 := get_index_sizes _ v2 n2 s1
  have a2 := get_index_slots Q _ v2 n2 s1 a1 h2
  have a3 := get_index_slots Q _ v3 n3 s2 a2 h3
  simp only [emit_triangle, slots_triangles]
  exact a3

/-- Every slot that `sphere_grid` fills holds a point `sphere_pt r u v + c` with the
normal `sphere_pt r u v / r`. -/
theorem sphere_grid_slots (r : F) (c : Vector F) (m : Mesh F) (hs : SizesOk m)
    (hall : ∀ s ∈ m.slots,
      ∃ u v, s = ⟨(sphere_pt r u v).add c, (sphere_pt r u v).divide r⟩) :
    ∀ s ∈ (sphere_grid m r c).slots,
      ∃ u v, s = ⟨(sphere_pt r u v).add c, (sphere_pt r u v).divide r⟩ := by
  have htri : ∀ (m : Mesh F) (u1 v1 u2 v2 u3 v3 : F), SizesOk m →
      (∀ s ∈ m.slots, ∃ u v, s = ⟨(sphere_pt r u v).add c, (sphere_pt r u v).divide r⟩) →
      SizesOk (sphere_triangle m r (sphere_pt r u1 v1) (sphere_pt r u2 v2)
        (sphere_pt r u3 v3) c) ∧
      ∀ s ∈ (sphere_triangle m r (sphere_pt r u1 v1) (sphere_pt r u2 v2)
          (sphere_pt r u3 v3) c).slots,
        ∃ u v, s = ⟨(sphere_pt r u v).add c, (sphere_pt r u v).divide r⟩ := by
    intro m u1 v1 u2 v2 u3 v3 hs hall
    exact ⟨(keeps_sphere_triangle m r _ _ _ c).sizes hs,
      emit_triangle_slots _ m _ _ _ _ _ _ hs hall ⟨u1, v1, rfl⟩ ⟨u2, v2, rfl⟩ ⟨u3, v3, rfl⟩⟩
  have hcell : ∀ (i j : Nat) (m : Mesh F), (SizesOk m ∧
      ∀ s ∈ m.slots, ∃ u v, s = ⟨(sphere_pt r u v).add c, (sphere_pt r u v).divide r⟩) →
      (SizesOk (sphere_cell r c i j m) ∧
      ∀ s ∈ (sphere_cell r c i j m).slots,
        ∃ u v, s = ⟨(sphere_pt r u v).add c, (sphere_pt r u v).divide r⟩) := by
    intro i j m h
    simp only [sphere_cell]
    refine htri _ _ _ _ _ _ _ ?_ ?_
    · exact (htri m _ _ _ _ _ _ h.1 h.2).1
    · exact (htri m _ _ _ _ _ _ h.1 h.2).2
  have hfold : ∀ {α : Type} (f : Mesh F → α → Mesh F) (P : Mesh F → Prop),
      (∀ m a, P m → P (f m a)) → ∀ (l : List α) (m : Mesh F), P m → P (l.foldl f m) := by
    intro α f P hf l
    induction l with
    | nil => intro m h; exact h
    | cons a l ih => intro m h; exact ih _ (hf m a h)
  unfold sphere_grid
  exact (hfold _ _ (fun m i h => hfold _ _ (fun m j h => hcell i j m h) _ m h) _ m
    ⟨hs, hall⟩).2

end SphereSlots

/-- In exact real arithmetic `sphere_pt(r, u, v)` has length `r`. -/
theorem sphere_pt_length (r u v : ℝ) (hr : 0 < r) : (sphere_pt r u v).length = r := by
  simp only [sphere_pt, Vector.length, real_mul, real_add, real_sqrt, real_cos, real_sin]
  have h : Real.cos u * Real.sin v * r * (Real.cos u * Real.sin v * r)
      + Real.cos v * r * (Real.cos v * r)
      + Real.sin u * Real.sin v * r * (Real.sin u * Real.sin v * r) = r ^ 2 := by
    have h1 := Real.sin_sq_add_cos_sq u
    have h2 := Real.sin_sq_add_cos_sq v
    have e : Real.cos u * Real.sin v * r * (Real.cos u * Real.sin v * r)
        + Real.cos v * r * (Real.cos v * r)
        + Real.sin u * Real.sin v * r * (Real.sin u * Real.sin v * r)
        = r ^ 2 * (Real.sin v ^ 2 * (Real.sin u ^ 2 + Real.cos u ^ 2) + Real.cos v ^ 2) := by
      ring
    rw [e, h1, mul_one, h2, mul_one]
  rw [h, Real.sqrt_sq (le_of_lt hr)]

/-- C22: in exact real arithmetic, for a radius `r > 0`, `sphere_pt(r, u, v)` has
length `r` for all angles, and every slot of the mesh that `make_sphere(r, c)` builds
from the empty mesh holds a vertex at distance `r` from `c` together with a normal of
length 1 that equals `(vertex - c) / r`. -/
theorem make_sphere_radius (r : ℝ) (hr : 0 < r) (c : Vector ℝ) :
    (∀ u v : ℝ, (sphere_pt r u v).length = r) ∧
    (make_sphere (Mesh.empty : Mesh ℝ) r c).vertices.length
      = (make_sphere (Mesh.empty : Mesh ℝ) r c).normals.length ∧
    (∀ s ∈ (make_sphere (Mesh.empty : Mesh ℝ) r c).slots,
      (s.point.sub c).length = r ∧ s.normal.length = 1 ∧
        s.normal = (s.point.sub c).divide r) := by
  refine ⟨fun u v => sphere_pt_length r u v hr, ?_, ?_⟩
  · have h := (make_edges_sizes (sphere_grid (Mesh.empty : Mesh ℝ) r c)
      ((keeps_sphere_grid (Mesh.empty : Mesh ℝ) r c).sizes sizesOk_empty)).1
    rw [make_sphere_eq]
    exact h
  · intro s hs
    have hm : (make_sphere (Mesh.empty : Mesh ℝ) r c).slots
        = (sphere_grid (Mesh.empty : Mesh ℝ) r c).slots :=
      (congrArg Mesh.slots (make_sphere_eq (Mesh.empty : Mesh ℝ) r c)).trans
        (slots_make_edges (sphere_grid (Mesh.empty : Mesh ℝ) r c))
    rw [hm] at hs
    obtain ⟨u, v, rfl⟩ := sphere_grid_slots r c Mesh.empty sizesOk_empty
      (by intro s h; cases h) s hs
    have hl := sphere_pt_length r u v hr
    have hsub : ((sphere_pt r u v).add c).sub c = sphere_pt r u v := by
      simp only [Vector.add, Vector.sub, real_add, real_sub, add_sub_cancel_right]
    rw [hsub]
    refine ⟨hl, ?_, rfl⟩
    generalize sphere_pt r u v = p at hl
    simp only [Vector.length, Vector.divide, real_mul, real_add, real_sqrt, real_div] at hl ⊢
    have hr0 : r ≠ 0 := ne_of_gt hr
    have e : p.x / r * (p.x / r) + p.y / r * (p.y / r) + p.z / r * (p.z / r)
        = (p.x * p.x + p.y * p.y + p.z * p.z) / r ^ 2 := by
      rw [div_mul_div_comm, div_mul_div_comm, div_mul_div_comm, ← add_div, ← add_div, sq]
    rw [e, Real.sqrt_div' _ (sq_nonneg r), Real.sqrt_sq (le_of_lt hr), hl, div_self hr0]

/-- Witness for C22: the unit sphere at the origin. -/
theorem make_sphere_radius_witness :
    (∀ u v : ℝ, (sphere_pt (1 : ℝ) u v).length = 1) ∧
    (make_sphere (Mesh.empty : Mesh ℝ) 1 originR).vertices.length
      = (make_sphere (Mesh.empty : Mesh ℝ) 1 originR).normals.length ∧
    (∀ s ∈ (make_sphere (Mesh.empty : Mesh ℝ) 1 originR).slots,
      (s.point.sub originR).length = 1 ∧ s.normal.length = 1 ∧
        s.normal = (s.point.sub originR).divide 1) :=
  make_sphere_radius 1 one_pos originR

/-! ## The area test in exact real arithmetic -/

/-- The length of a real vector whose components are `k` times those of `n`. -/
theorem length_scaled (w n : Vector ℝ) (k : ℝ) (hx : w.x = k * n.x) (hy : w.y = k * n.y)
    (hz : w.z = k * n.z) : w.length = |k| * n.length := by
  simp only [Vector.length, real_mul, real_add, real_sqrt]
  have e : w.x * w.x + w.y * w.y + w.z * w.z
      = k ^ 2 * (n.x * n.x + n.y * n.y + n.z * n.z) := by
    rw [hx, hy, hz]; ring
  rw [e, Real.sqrt_mul (sq_nonneg k), Real.sqrt_sq_eq_abs]

/-- The three sub-areas at the point `v0 + a * side1 + b * side2` of the plane of a
triangle are `|a|`, `|b|` and `|1 - a - b|` times the area of the triangle. -/
theorem sub_areas_exact (v0 v1 v2 : Vector ℝ) (a b : ℝ) :
    sub_area1 ((v0.add ((v1.sub v0).scale a)).add ((v2.sub v0).scale b)) v0 v2
      = |a| * tri_area v0 v1 v2 ∧
    sub_area2 ((v0.add ((v1.sub v0).scale a)).add ((v2.sub v0).scale b)) v0 v1
      = |b| * tri_area v0 v1 v2 ∧
    sub_area3 ((v0.add ((v1.sub v0).scale a)).add ((v2.sub v0).scale b)) v1 v2
      = |1 - a - b| * tri_area v0 v1 v2 := by
  refine ⟨?_, ?_, ?_⟩
  · simp only [sub_area1, tri_area, real_div]
    rw [length_scaled _ (cross (v1.sub v0) (v2.sub v0)) a
      (by simp only [cross, Vector.sub, Vector.add, Vector.scale, real_sub, real_add,
            real_mul]; ring)
      (by simp only [cross, Vector.sub, Vector.add, Vector.scale, real_sub, real_add,
            real_mul]; ring)
      (by simp only [cross, Vector.sub, Vector.add, Vector.scale, real_sub, real_add,
            real_mul]; ring)]
    ring
  · simp only [sub_area2, tri_area, real_div]
    rw [length_scaled _ (cross (v1.sub v0) (v2.sub v0)) b
      (by simp only [cross, Vector.sub, Vector.add, Vector.scale, Vector.neg, real_sub,
            real_add, real_mul, real_neg]; ring)
      (by simp only [cross, Vector.sub, Vector.add, Vector.scale, Vector.neg, real_sub,
            real_add, real_mul, real_neg]; ring)
      (by simp only [cross, Vector.sub, Vector.add, Vector.scale, Vector.neg, real_sub,
            real_add, real_mul, real_neg]; ring)]
    ring
  · simp only [sub_area3, tri_area, real_div]
    rw [length_scaled _ (cross (v1.sub v0) (v2.sub v0)) (1 - a - b)
      (by simp only [cross, Vector.sub, Vector.add, Vector.scale, real_sub, real_add,
            real_mul]; ring)
      (by simp only [cross, Vector.sub, Vector.add, Vector.scale, real_sub, real_add,
            real_mul]; ring)
      (by simp only [cross, Vector.sub, Vector.add, Vector.scale, real_sub, real_add,
            real_mul]; ring)]
    ring

theorem tri_area_nonneg (v0 v1 v2 : Vector ℝ) : 0 ≤ tri_area v0 v1 v2 := by
  simp only [tri_area, Vector.length, real_div, real_sqrt, real_ofNat]
  exact div_nonneg (Real.sqrt_nonneg _) (by norm_num)

/-- C21: in exact real arithmetic, for a triangle of non-zero area and the point
`P = v0 + a * side1 + b * side2` of its plane, the sub-areas `ax1`, `ax2`, `ax3` that
`fire_line` computes sum to `atot` exactly when `P` lies in the closed triangle
(`0 <= a`, `0 <= b`, `a + b <= 1`) and to more than `atot` otherwise; the acceptance test
holds exactly when the sum exceeds `atot` by less than `atot * 1e-6`, so it accepts every
point of the triangle and rejects every point of the plane whose sum exceeds `atot` by
`atot * 1e-6` or more.  It is the test that `fire_line` applies to its candidate
point. -/
theorem area_test_exact (v0 v1 v2 : Vector ℝ) (a b : ℝ) (harea : tri_area v0 v1 v2 ≠ 0) :
    (sub_area1 ((v0.add ((v1.sub v0).scale a)).add ((v2.sub v0).scale b)) v0 v2
        + sub_area2 ((v0.add ((v1.sub v0).scale a)).add ((v2.sub v0).scale b)) v0 v1
        + sub_area3 ((v0.add ((v1.sub v0).scale a)).add ((v2.sub v0).scale b)) v1 v2
        = tri_area v0 v1 v2 ↔ (0 ≤ a ∧ 0 ≤ b ∧ a + b ≤ 1)) ∧
    (¬ (0 ≤ a ∧ 0 ≤ b ∧ a + b ≤ 1) →
      tri_area v0 v1 v2
        < sub_area1 ((v0.add ((v1.sub v0).scale a)).add ((v2.sub v0).scale b)) v0 v2
          + sub_area2 ((v0.add ((v1.sub v0).scale a)).add ((v2.sub v0).scale b)) v0 v1
          + sub_area3 ((v0.add ((v1.sub v0).scale a)).add ((v2.sub v0).scale b)) v1 v2) ∧
    (point_accept ((v0.add ((v1.sub v0).scale a)).add ((v2.sub v0).scale b)) v0 v1 v2 = true ↔
      sub_area1 ((v0.add ((v1.sub v0).scale a)).add ((v2.sub v0).scale b)) v0 v2
          + sub_area2 ((v0.add ((v1.sub v0).scale a)).add ((v2.sub v0).scale b)) v0 v1
          + sub_area3 ((v0.add ((v1.sub v0).scale a)).add ((v2.sub v0).scale b)) v1 v2
        < tri_area v0 v1 v2 + tri_area v0 v1 v2 * (1 / 1000000)) ∧
    ((0 ≤ a ∧ 0 ≤ b ∧ a + b ≤ 1) →
      point_accept ((v0.add ((v1.sub v0).scale a)).add ((v2.sub v0).scale b)) v0 v1 v2
        = true) ∧
    (∀ ray : Ray ℝ,
      tri_accept ray v0 v1 v2 = point_accept (tri_point ray v0 v1 v2) v0 v1 v2) := by
  obtain ⟨e1, e2, e3⟩ := sub_areas_exact v0 v1 v2 a b
  have hpos : 0 < tri_area v0 v1 v2 := lt_of_le_of_ne (tri_area_nonneg v0 v1 v2) (Ne.symm harea)
  have hacc : point_accept ((v0.add ((v1.sub v0).scale a)).add ((v2.sub v0).scale b)) v0 v1 v2
      = decide (|tri_area v0 v1 v2
          - sub_area1 ((v0.add ((v1.sub v0).scale a)).add ((v2.sub v0).scale b)) v0 v2
          - sub_area2 ((v0.add ((v1.sub v0).scale a)).add ((v2.sub v0).scale b)) v0 v1
          - sub_area3 ((v0.add ((v1.sub v0).scale a)).add ((v2.sub v0).scale b)) v1 v2|
        < tri_area v0 v1 v2 * (1 / 1000000)) := rfl
  rw [hacc, e1, e2, e3]
  generalize tri_area v0 v1 v2 = h at hpos
  have ha := le_abs_self a
  have hb := le_abs_self b
  have hc := le_abs_self (1 - a - b)
  have na := abs_nonneg a
  have nb := abs_nonneg b
  have nc := abs_nonneg (1 - a - b)
  have hT : 1 ≤ |a| + |b| + |1 - a - b| := by linarith
  have hin : |a| + |b| + |1 - a - b| = 1 ↔ (0 ≤ a ∧ 0 ≤ b ∧ a + b ≤ 1) := by
    constructor
    · intro hs
      refine ⟨?_, ?_, ?_⟩ <;> linarith
    · rintro ⟨h1, h2, h3⟩
      rw [abs_of_nonneg h1, abs_of_nonneg h2, abs_of_nonneg (by linarith : 0 ≤ 1 - a - b)]
      ring
  have hsum : |a| * h + |b| * h + |1 - a - b| * h = (|a| + |b| + |1 - a - b|) * h := by ring
  have hdiff : |h - |a| * h - |b| * h - |1 - a - b| * h|
      = (|a| + |b| + |1 - a - b|) * h - h := by
    have : h - |a| * h - |b| * h - |1 - a - b| * h = -((|a| + |b| + |1 - a - b| - 1) * h) := by
      ring
    rw [this, abs_neg, abs_of_nonneg (mul_nonneg (by linarith) (le_of_lt hpos))]
    ring
  rw [hdiff, hsum]
  generalize |a| + |b| + |1 - a - b| = t at hT hin
  refine ⟨?_, ?_, ?_, ?_, fun ray => rfl⟩
  · rw [← hin]
    constructor
    · intro hs
      have : (t - 1) * h = 0 := by linarith
      rcases mul_eq_zero.1 this with h0 | h0
      · linarith
      · exact absurd h0 (ne_of_gt hpos)
    · intro hs; rw [hs, one_mul]
  · intro hn
    have hlt : 1 < t := lt_of_le_of_ne hT (fun h1 => hn (hin.1 h1.symm))
    nlinarith
  · simp only [decide_eq_true_eq]
    constructor <;> intro hs <;> linarith
  · intro hi
    rw [hin.2 hi]
    simp only [decide_eq_true_eq]
    nlinarith

/-- Witness for C21: the triangle `(0,0,0) (1,0,0) (0,1,0)` and its point
`(1/4, 1/4, 0)`. -/
theorem area_test_exact_witness :
    tri_area originR unitXR unitYR ≠ 0 ∧
    point_accept
      ((originR.add ((unitXR.sub originR).scale (1 / 4))).add
        ((unitYR.sub originR).scale (1 / 4))) originR unitXR unitYR = true :=
  have h : tri_area originR unitXR unitYR ≠ 0 := by
    simp [tri_area, cross, Vector.sub, Vector.length, originR, unitXR, unitYR, real_sub,
      real_add, real_mul, real_div, real_sqrt, real_ofNat]
  ⟨h, (area_test_exact originR unitXR unitYR (1 / 4) (1 / 4) h).2.2.2.1
    ⟨by norm_num, by norm_num, by norm_num⟩⟩

end View3d
